import Mathlib

/-!
Verification development for the Survivor season-50 simulation engine
(`code/simulation/game_mechanics.py`, `simulator.py`, `simulation_config.py`).

The Python sources are shallowly embedded:
  * floats become `ℚ` (all arithmetic in the engine is exact decimal
    arithmetic on profile scores and weights);
  * the global `random` module becomes an abstract generator type `G`
    together with a record `RandOps G` of observation functions, threaded
    in a state/except monad `PyM G`;
  * fallible operations (`list.index`, `next(...)`, indexing, division by
    zero, `raise ValueError`) return `Except PyErr`;
  * Python dicts become insertion-ordered association lists.
-/

/-- Errors a simulation run can raise (Python exception kinds reached by the
embedded code). -/
inductive PyErr where
  | zeroDivision : PyErr
  | indexError : PyErr
  | valueError : String → PyErr
  | keyError : PyErr
  | nameError : PyErr
  | stopIteration : PyErr
  | fuelExhausted : PyErr
deriving DecidableEq, Repr

/-- State/except monad used for the embedding: a computation consumes the
global random-generator state `G` and either returns a value with the new
state or raises. -/
def PyM (G : Type) (α : Type) : Type := G → Except PyErr (α × G)

instance {G : Type} : Monad (PyM G) where
  pure a := fun g => .ok (a, g)
  bind m f := fun g =>
    match m g with
    | .ok (a, g') => f a g'
    | .error e => .error e

/-- Raise an exception. -/
def PyM.fail {G α : Type} (e : PyErr) : PyM G α := fun _ => .error e

/-- Lift a pure fallible computation into the monad. -/
def liftE {G α : Type} (x : Except PyErr α) : PyM G α := fun g =>
  match x with
  | .ok a => .ok (a, g)
  | .error e => .error e

theorem PyM.pure_apply {G α : Type} (a : α) (g : G) :
    (pure a : PyM G α) g = .ok (a, g) := rfl

theorem PyM.bind_apply {G α β : Type} (m : PyM G α) (f : α → PyM G β) (g : G) :
    (m >>= f) g = match m g with
      | .ok (a, g') => f a g'
      | .error e => .error e := rfl

theorem PyM.bind_ok_iff {G α β : Type} {m : PyM G α} {f : α → PyM G β}
    {g g₂ : G} {b : β} :
    (m >>= f) g = .ok (b, g₂) ↔
      ∃ a g₁, m g = .ok (a, g₁) ∧ f a g₁ = .ok (b, g₂) := by
  rw [PyM.bind_apply]
  cases h : m g with
  | ok p =>
    cases p with
    | mk a g₁ =>
      simp only []
      constructor
      · intro hf; exact ⟨a, g₁, rfl, hf⟩
      · rintro ⟨a', g', hma, hf⟩
        cases hma
        exact hf
  | error e =>
    simp only []
    constructor
    · intro h'; cases h'
    · rintro ⟨a', g', hma, _⟩
      cases hma

theorem PyM.fail_apply {G α : Type} (e : PyErr) (g : G) :
    (PyM.fail e : PyM G α) g = .error e := rfl

theorem liftE_apply {G α : Type} (x : Except PyErr α) (g : G) :
    (liftE x : PyM G α) g = match x with
      | .ok a => .ok (a, g)
      | .error e => .error e := rfl

/-! ### Insertion-ordered dictionaries (Python `dict`) -/

/-- Lookup in an insertion-ordered association list (first binding wins; the
lists we build by `dictSet` have unique keys, matching a Python dict). -/
def dictFind? {κ β : Type} [DecidableEq κ] (d : List (κ × β)) (k : κ) :
    Option β :=
  (d.find? (fun kv => kv.1 = k)).map (·.2)

/-- Python `d.get(k, dflt)`. -/
def dictGetD {κ β : Type} [DecidableEq κ] (d : List (κ × β)) (k : κ)
    (dflt : β) : β :=
  (dictFind? d k).getD dflt

/-- Python `k in d`. -/
def dictContains {κ β : Type} [DecidableEq κ] (d : List (κ × β)) (k : κ) :
    Bool :=
  (d.find? (fun kv => kv.1 = k)).isSome

/-- Python `d[k] = v`: update the existing binding in place (keeping its
position) or append a new binding. -/
def dictSet {κ β : Type} [DecidableEq κ] (d : List (κ × β)) (k : κ) (v : β) :
    List (κ × β) :=
  if dictContains d k then
    d.map (fun kv => if kv.1 = k then (k, v) else kv)
  else d ++ [(k, v)]

/-- Python dict comprehension over a list of key/value pairs: later
bindings overwrite earlier ones. -/
def buildDict {κ β : Type} [DecidableEq κ] (l : List (κ × β)) :
    List (κ × β) :=
  l.foldl (fun d kv => dictSet d kv.1 kv.2) []

/-- Python `max(d, key=d.get)`: first key attaining the maximal value, in
insertion order (Python's `max` keeps the first maximal element). -/
def maxKeyFirst {κ β : Type} [LinearOrder β] (d : List (κ × β)) : Option κ :=
  (d.foldl (fun acc kv =>
    match acc with
    | none => some kv
    | some best => if best.2 < kv.2 then some kv else some best) none).map (·.1)

/-- Python `max(keys, key=f)` where the key values have been precomputed as a
parallel list: first element attaining the maximal key value. -/
def maxByVals {κ : Type} (ks : List κ) (vs : List ℚ) : Option κ :=
  maxKeyFirst (ks.zip vs)

/-- Python `list.index(x)`: index of the first occurrence. -/
def firstIndexOf {α : Type} [DecidableEq α] (l : List α) (x : α) : Option ℕ :=
  l.findIdx? (fun y => y = x)

/-- Index recorded by the dict comprehension `{name: idx for idx, name in
enumerate(l)}`: duplicates overwrite, so the last occurrence wins. -/
def lastIndexOf {α : Type} [DecidableEq α] (l : List α) (x : α) : Option ℕ :=
  ((l.enum.filter (fun p => p.2 = x)).map (·.1)).getLast?

/-- Fallible list indexing, Python `l[i]`. -/
def listGetE {α : Type} (l : List α) (i : ℕ) : Except PyErr α :=
  match l.get? i with
  | some a => .ok a
  | none => .error .indexError

/-- Python `l[0]` with an IndexError on the empty list. -/
def pyHead {α : Type} (l : List α) : Except PyErr α := listGetE l 0

/-- `numpy.mean` on a list of rationals.  The engine only applies it to
nonempty lists (numpy would yield NaN on an empty list, which has no
rational counterpart; the call sites guard nonemptiness). -/
def npMean (l : List ℚ) : ℚ := l.sum / l.length

/-! ### Stable sorting (Python `list.sort`) -/

/-- Stable ascending insertion: `x` goes before the first element whose key
is `≥` its own key, so earlier elements with equal keys stay first. -/
def insA {α : Type} (key : α → ℚ) (x : α) : List α → List α
  | [] => [x]
  | y :: ys => if key x ≤ key y then x :: y :: ys else y :: insA key x ys

/-- Stable ascending sort by a rational key (Python `sort(key=...)`). -/
def sortByKeyA {α : Type} (key : α → ℚ) : List α → List α
  | [] => []
  | x :: xs => insA key x (sortByKeyA key xs)

/-- Stable descending insertion (Python `sort(key=..., reverse=True)`). -/
def insD {α : Type} (key : α → ℚ) (x : α) : List α → List α
  | [] => [x]
  | y :: ys => if key y ≤ key x then x :: y :: ys else y :: insD key x ys

/-- Stable descending sort by a rational key. -/
def sortByKeyD {α : Type} (key : α → ℚ) : List α → List α
  | [] => []
  | x :: xs => insD key x (sortByKeyD key xs)

/-! ### Data model (`game_mechanics.py`) -/

/-- Types of advantages in the game (`AdvantageType`). -/
inductive AdvantageType where
  | IDOL : AdvantageType
  | EXTRA_VOTE : AdvantageType
  | STEAL_VOTE : AdvantageType
  | BLOCK_VOTE : AdvantageType
deriving DecidableEq, Repr

/-- The `.value` string of each enum member. -/
def AdvantageType.value : AdvantageType → String
  | .IDOL => "Hidden Immunity Idol"
  | .EXTRA_VOTE => "Extra Vote"
  | .STEAL_VOTE => "Vote Steal"
  | .BLOCK_VOTE => "Vote Block"

/-- Represents an advantage/idol in the game (`Advantage` dataclass). -/
structure Advantage where
  type : AdvantageType
  owner : String
  played : Bool := false
  transferred : Bool := false
deriving DecidableEq, Repr

/-- Per-category challenge scores inside a profile
(`profile['challenge_categories']`); an absent key is `none`. -/
structure ChallengeCats where
  physical_score : Option ℚ := none
  endurance_score : Option ℚ := none
  precision_score : Option ℚ := none
  puzzle_score : Option ℚ := none
  mental_score : Option ℚ := none
  water_score : Option ℚ := none
deriving DecidableEq, Repr

/-- A player profile dict.  Only the keys the engine reads are modelled;
each is an `Option` because every read in the source uses `.get` with a
site-specific default. -/
structure Profile where
  challenge_win_prob : Option ℚ := none
  idol_find_prob : Option ℚ := none
  score_outwit : Option ℚ := none
  score_jury : Option ℚ := none
  score_inf : Option ℚ := none
  score_vote : Option ℚ := none
  voting_accuracy : Option ℚ := none
  threat_level : Option ℚ := none
  is_winner : Option Bool := none
  wins : Option ℕ := none
  archetypes : List String := []
  challenge_categories : ChallengeCats := {}
deriving DecidableEq, Repr

/-- Represents a player in the simulation (`Player` dataclass). -/
structure Player where
  name : String
  profile : Profile
  tribe : String
  alive : Bool := true
  immune : Bool := false
  advantages : List Advantage := []
deriving DecidableEq, Repr

/-! ### The random generator interface

Python's global Mersenne-Twister state is abstracted into a generator type
`G` with one observation function per `random`-module entry point used by
the engine.  `pickIdx`/`weightedIdx` produce an arbitrary natural number
that the embedding reduces modulo the population size, so any element is
reachable and a concrete instantiation fixes the run completely. -/
structure RandOps (G : Type) where
  /-- `random.uniform a b`. -/
  uniform : ℚ → ℚ → G → ℚ × G
  /-- `random.random()`. -/
  rand : G → ℚ × G
  /-- `random.randint a b`. -/
  randint : ℕ → ℕ → G → ℕ × G
  /-- index source for `random.choice` on a list of the given length. -/
  pickIdx : ℕ → G → ℕ × G
  /-- index source for `random.choices(..., weights=w)`. -/
  weightedIdx : List ℚ → G → ℕ × G
  /-- `random.shuffle` on the list of player names (`initialize_game`). -/
  shuffleNames : List String → G → List String × G
  /-- `random.shuffle` on a list of players (`_tribe_swap`). -/
  shufflePlayers : List Player → G → List Player × G
  /-- `random.seed n`: the generator state determined by the seed. -/
  seedGen : ℕ → G
  /-- the word read back by `random.getstate()[1][0]`. -/
  stateWord : G → ℕ

/-- Monadic `random.uniform`. -/
def pyUniform {G : Type} (ops : RandOps G) (a b : ℚ) : PyM G ℚ := fun g =>
  .ok (ops.uniform a b g)

/-- Monadic `random.random()`. -/
def pyRand {G : Type} (ops : RandOps G) : PyM G ℚ := fun g => .ok (ops.rand g)

/-- Monadic `random.randint`. -/
def pyRandint {G : Type} (ops : RandOps G) (a b : ℕ) : PyM G ℕ := fun g =>
  .ok (ops.randint a b g)

/-- Monadic `random.choice l`: an IndexError on the empty list, otherwise an
arbitrary (generator-chosen) element. -/
def pyChoice {G α : Type} (ops : RandOps G) (l : List α) : PyM G α := fun g =>
  match l with
  | [] => .error .indexError
  | x :: xs =>
    let r := ops.pickIdx (x :: xs).length g
    .ok ((x :: xs).get ⟨r.1 % (x :: xs).length, Nat.mod_lt _ (Nat.succ_pos _)⟩,
      r.2)

/-- Monadic `random.choices(pop, weights=w)[0]`: raises a ValueError when the
lengths differ or the total weight is not positive, otherwise returns a
generator-chosen element of `pop`. -/
def pyChoices {G α : Type} (ops : RandOps G) (pop : List α) (w : List ℚ) :
    PyM G α := fun g =>
  if pop.length ≠ w.length then
    .error (.valueError "number of weights does not match the population")
  else if w.sum ≤ 0 then
    .error (.valueError "total of weights must be greater than zero")
  else
    match pop with
    | [] => .error .indexError
    | x :: xs =>
      let r := ops.weightedIdx w g
      .ok ((x :: xs).get
        ⟨r.1 % (x :: xs).length, Nat.mod_lt _ (Nat.succ_pos _)⟩, r.2)

/-- Monadic `random.shuffle` on names. -/
def pyShuffleNames {G : Type} (ops : RandOps G) (l : List String) :
    PyM G (List String) := fun g => .ok (ops.shuffleNames l g)

/-- Monadic `random.shuffle` on players. -/
def pyShufflePlayers {G : Type} (ops : RandOps G) (l : List Player) :
    PyM G (List Player) := fun g => .ok (ops.shufflePlayers l g)

/-- `random.seed seed` as performed by `SurvivorSimulation.__init__`: with an
explicit seed the ambient generator state is discarded and replaced; with
`None` the ambient state is kept. -/
def pySeed {G : Type} (ops : RandOps G) (seed : Option ℕ) : PyM G Unit :=
  fun g =>
    match seed with
    | some s => .ok ((), ops.seedGen s)
    | none => .ok ((), g)

/-! ### `simulation_config.py` -/

/-- Configuration for a Survivor simulation (`SimulationConfig` dataclass,
with the `__post_init__` challenge-distribution default already applied via
`SimulationConfig.make`). -/
structure SimulationConfig where
  challenge_distribution : List (String × ℚ)
  challenge_threat_weight : ℚ := 16
  strategic_threat_weight : ℚ := 16
  social_threat_weight : ℚ := 12
  total_idols : ℤ := 8
  idol_search_probability : ℚ := 0.3
  chaos_factor : ℚ := 0.5
  alliance_loyalty : ℚ := 35
deriving DecidableEq, Repr

/-- The default challenge-category distribution
(`ChallengeMechanics.CHALLENGE_CATEGORIES`, also the `__post_init__`
default of `SimulationConfig.challenge_distribution`). -/
def defaultChallengeDist : List (String × ℚ) :=
  [("physical", 0.25), ("endurance", 0.20), ("target_practice", 0.15),
   ("puzzle", 0.25), ("mental", 0.05), ("water", 0.10)]

/-- `SimulationConfig(...)` constructor: `__post_init__` substitutes the
default distribution when `None` is passed. -/
def SimulationConfig.make (dist : Option (List (String × ℚ)))
    (cw sw socw : ℚ) (idols : ℤ) (searchProb chaos loyalty : ℚ) :
    SimulationConfig :=
  { challenge_distribution := dist.getD defaultChallengeDist
    challenge_threat_weight := cw
    strategic_threat_weight := sw
    social_threat_weight := socw
    total_idols := idols
    idol_search_probability := searchProb
    chaos_factor := chaos
    alliance_loyalty := loyalty }

/-- `SimulationConfig()` with every default. -/
def defaultConfig : SimulationConfig :=
  { challenge_distribution := defaultChallengeDist }

/-- `SimulationConfig.validate`: checks the four constraints in source
order and raises a `ValueError` on the first violation, returning `True`
otherwise. -/
def SimulationConfig.validate (c : SimulationConfig) : Except PyErr Bool :=
  let distSum := (c.challenge_distribution.map (·.2)).sum
  if ¬(0.99 ≤ distSum ∧ distSum ≤ 1.01) then
    .error (.valueError "Challenge distribution must sum to 1.0")
  else if ¬(0 ≤ c.chaos_factor ∧ c.chaos_factor ≤ 1) then
    .error (.valueError "Chaos factor must be between 0.0 and 1.0")
  else if c.challenge_threat_weight < 0 ∨ c.strategic_threat_weight < 0 ∨
      c.social_threat_weight < 0 then
    .error (.valueError "Threat weights must be non-negative")
  else if ¬(0 ≤ c.total_idols ∧ c.total_idols ≤ 30) then
    .error (.valueError "Total idols must be between 0 and 30")
  else .ok true

/-- The validity predicate that `SimulationConfig.validate` decides: the
distribution sums to 1 within tolerance, the chaos factor lies in [0,1],
no threat weight is negative, and the idol count is in range. -/
def ConfigValid (c : SimulationConfig) : Prop :=
  (0.99 ≤ (c.challenge_distribution.map (·.2)).sum ∧
    (c.challenge_distribution.map (·.2)).sum ≤ 1.01) ∧
  (0 ≤ c.chaos_factor ∧ c.chaos_factor ≤ 1) ∧
  (0 ≤ c.challenge_threat_weight ∧ 0 ≤ c.strategic_threat_weight ∧
    0 ≤ c.social_threat_weight) ∧
  (0 ≤ c.total_idols ∧ c.total_idols ≤ 30)

instance (c : SimulationConfig) : Decidable (ConfigValid c) := by
  unfold ConfigValid; infer_instance

/-! ### `ChallengeMechanics` -/

/-- `ChallengeMechanics.select_challenge_category`: weighted draw of a
category name from the distribution (default when `None`). -/
def selectChallengeCategory {G : Type} (ops : RandOps G)
    (distribution : Option (List (String × ℚ))) : PyM G String :=
  let dist := distribution.getD defaultChallengeDist
  pyChoices ops (dist.map (·.1)) (dist.map (·.2))

/-- `ChallengeMechanics.get_player_category_score`: the per-category score
when the mapped key is present, else the overall `challenge_win_prob`
(default 0.5). -/
def getPlayerCategoryScore (p : Player) (category : String) : ℚ :=
  let cats := p.profile.challenge_categories
  let viaKey : Option ℚ :=
    if category = "physical" then cats.physical_score
    else if category = "endurance" then cats.endurance_score
    else if category = "target_practice" then cats.precision_score
    else if category = "puzzle" then cats.puzzle_score
    else if category = "mental" then cats.mental_score
    else if category = "water" then cats.water_score
    else none
  match viaKey with
  | some v => v
  | none => (p.profile.challenge_win_prob).getD 0.5

/-- Perturbed strengths loop of `simulate_individual_immunity`: one
`uniform(1-r, 1+r)` draw and one `uniform(0.8, 1.2)` draw per player, in
list order. -/
def individualProbs {G : Type} (ops : RandOps G) (randomness : ℚ)
    (cat : String) : List Player → PyM G (List ℚ)
  | [] => pure []
  | p :: ps => do
    let rf ← pyUniform ops (1 - randomness) (1 + randomness)
    let noise ← pyUniform ops 0.8 1.2
    let rest ← individualProbs ops randomness cat ps
    pure (getPlayerCategoryScore p cat * rf * noise :: rest)

/-- `ChallengeMechanics.simulate_individual_immunity`: returns the winner's
name, `None` on an empty field; an all-zero strength total falls back to a
uniform `random.choice`. -/
def simulateIndividualImmunity {G : Type} (ops : RandOps G)
    (players : List Player) (randomness : ℚ) (category : Option String)
    (challengeDistribution : Option (List (String × ℚ))) :
    PyM G (Option String) := do
  match players with
  | [] => pure none
  | _ :: _ => do
    let cat ← match category with
      | some c => pure c
      | none => selectChallengeCategory ops challengeDistribution
    let probs ← individualProbs ops randomness cat players
    let total := probs.sum
    if total = 0 then do
      let w ← pyChoice ops players
      pure (some w.name)
    else do
      let normed := probs.map (· / total)
      let w ← pyChoices ops players normed
      pure (some w.name)

/-- Perturbed tribe strengths loop of `simulate_tribal_immunity`: average
the alive members' category scores, then one `uniform(1-r, 1+r)` and one
`uniform(0.7, 1.3)` draw per tribe. -/
def tribalStrengths {G : Type} (ops : RandOps G) (randomness : ℚ)
    (cat : String) : List (List Player) → PyM G (List ℚ)
  | [] => pure []
  | t :: ts => do
    let avg := npMean ((t.filter (·.alive)).map (getPlayerCategoryScore · cat))
    let rf ← pyUniform ops (1 - randomness) (1 + randomness)
    let chaos ← pyUniform ops 0.7 1.3
    let rest ← tribalStrengths ops randomness cat ts
    pure (avg * rf * chaos :: rest)

/-- `ChallengeMechanics.simulate_tribal_immunity`: returns the winning
tribe's name; an all-zero strength total falls back to a uniform
`random.choice` over the tribes. -/
def simulateTribalImmunity {G : Type} (ops : RandOps G)
    (tribeMembers : List Player) (otherTribes : List (List Player))
    (randomness : ℚ) (category : Option String)
    (challengeDistribution : Option (List (String × ℚ))) : PyM G String := do
  let allTribes := tribeMembers :: otherTribes
  let cat ← match category with
    | some c => pure c
    | none => selectChallengeCategory ops challengeDistribution
  let strengths ← tribalStrengths ops randomness cat allTribes
  let total := strengths.sum
  if total = 0 then do
    let t ← pyChoice ops allTribes
    let p0 ← liftE (pyHead t)
    pure p0.tribe
  else do
    let probs := strengths.map (· / total)
    let i ← pyChoices ops (List.range allTribes.length) probs
    let t ← liftE (listGetE allTribes i)
    let p0 ← liftE (pyHead t)
    pure p0.tribe

/-! ### `AdvantageMechanics` -/

/-- `AdvantageMechanics.ADVANTAGE_DIST` as parallel population/weight
lists. -/
def advantageDistTypes : List AdvantageType :=
  [.IDOL, .EXTRA_VOTE, .STEAL_VOTE, .BLOCK_VOTE]

/-- Weights of `ADVANTAGE_DIST` (idol dominant, block-vote rarest). -/
def advantageDistWeights : List ℚ := [0.55, 0.25, 0.15, 0.05]

/-- `AdvantageMechanics.attempt_idol_search`: `None` when the pool is
exhausted, otherwise a profile-scaled random find check; on success the
advantage kind is drawn from the fixed weighted enumeration. -/
def attemptIdolSearch {G : Type} (ops : RandOps G) (player : Player)
    (availableIdols : ℤ) (randomness : ℚ) : PyM G (Option Advantage) := do
  if availableIdols ≤ 0 then pure none
  else do
    let baseProb := (player.profile.idol_find_prob).getD 0.08
    let strategicBonus := (player.profile.score_outwit).getD 0.5 * 0.04
    let randomFactor ← pyUniform ops (1 - randomness) (1 + randomness)
    let findProb := (baseProb + strategicBonus) * randomFactor
    let roll ← pyRand ops
    if roll < findProb then do
      let advType ← pyChoices ops advantageDistTypes advantageDistWeights
      pure (some { type := advType, owner := player.name })
    else pure none

/-- `AdvantageMechanics.should_play_idol`: decide whether the player plays
a defensive idol.  Returns `False` immediately (before any random draw)
when the player holds no unplayed idol. -/
def shouldPlayIdol {G : Type} (ops : RandOps G) (player : Player)
    (votesAgainst : ℕ) (totalVotes : ℕ) (threatLevel : ℚ)
    (playersRemaining : ℕ) : PyM G Bool := do
  let idols := player.advantages.filter
    (fun a => a.type = AdvantageType.IDOL ∧ ¬a.played)
  if idols = [] then pure false
  else do
    let danger : ℚ := if 0 < totalVotes then
      (votesAgainst : ℚ) / (totalVotes : ℚ) else 0
    let threatFactor := threatLevel / 100
    let strategic := (player.profile.score_outwit).getD 0.5
    let readJitter ← pyUniform ops (-0.1) 0.1
    let readAccuracy := strategic * 0.3 + readJitter
    let phaseThreshold : ℚ :=
      if 13 < playersRemaining then 0.55
      else if 7 < playersRemaining then 0.40
      else if 5 < playersRemaining then 0.30
      else 0.20
    let phaseModifier : ℚ :=
      if 13 < playersRemaining then -0.15
      else if 7 < playersRemaining then -0.05
      else if 5 < playersRemaining then 0.05
      else 0.15
    let perceivedDanger := danger + threatFactor * 0.2 + readAccuracy +
      phaseModifier
    let jitter ← pyUniform ops (-0.1) 0.1
    pure (decide (phaseThreshold + jitter < perceivedDanger))

/-! ### `VotingMechanics` -/

/-- Turn an optional lookup result into a fallible one. -/
def optToExcept {α : Type} (o : Option α) (e : PyErr) : Except PyErr α :=
  match o with
  | some a => .ok a
  | none => .error e

/-- `player_names.index(x)` (ValueError when absent). -/
def pyIndexOf (l : List String) (x : String) : Except PyErr ℕ :=
  optToExcept (firstIndexOf l x) (.valueError "x not in list")

/-- `compatibility_matrix[i][j]` on the numpy array. -/
def matGet (m : List (List ℚ)) (i j : ℕ) : Except PyErr ℚ := do
  let row ← listGetE m i
  listGetE row j

/-- Indices of the alive voters: `[player_names.index(v.name) for v in
voters if v.alive]`. -/
def voterIndices (playerNames : List String) :
    List Player → Except PyErr (List ℕ)
  | [] => .ok []
  | v :: vs =>
    if v.alive then do
      let i ← pyIndexOf playerNames v.name
      let rest ← voterIndices playerNames vs
      .ok (i :: rest)
    else voterIndices playerNames vs

/-- Compatibility-matrix row values for the given column indices. -/
def compatVals (compat : List (List ℚ)) (ti : ℕ) :
    List ℕ → Except PyErr (List ℚ)
  | [] => .ok []
  | j :: js => do
    let v ← matGet compat ti j
    let rest ← compatVals compat ti js
    .ok (v :: rest)

/-- Pure candidate score of `VotingMechanics.determine_target`, with the
random draws supplied as explicit arguments (`loyaltyDraw` is present
exactly when the candidate shares an alliance with a voter, `wild` exactly
when the 15% wild-vote roll hit).  Mirrors the additive accumulation of
the source's `score` variable, before the final `max(0.1, score)` clamp. -/
def scoreTargetVal (isPremerge : Bool) (cw sw socw : ℚ) (randomness : ℚ)
    (inAlliance : Bool) (loyaltyDraw : Option ℚ) (tribeCompat : ℚ)
    (noise : ℚ) (wild : Option ℚ) (target : Player) : ℚ :=
  let challengeScore := (target.profile.challenge_win_prob).getD 0.5
  let strategicScore := (target.profile.score_outwit).getD 0.5
  let socialScore := (target.profile.score_jury).getD 0.5
  let influenceScore := (target.profile.score_inf).getD 0.5
  let compositeThreat := challengeScore * 0.25 + strategicScore * 0.30 +
    socialScore * 0.25 + influenceScore * 0.20
  let score0 : ℚ := 0
  let score1 :=
    if isPremerge then score0
    else if 0.65 < compositeThreat then score0 + (compositeThreat - 0.65) * 8
    else if compositeThreat < 0.35 then score0 - (0.35 - compositeThreat) * 4
    else score0
  let isWinner :=
    (target.profile.is_winner).getD false = true ∨
      0 < (target.profile.wins).getD 0
  let score2 := if isWinner then score1 + 25 else score1
  let score3 :=
    if inAlliance then
      let votingAccuracy := (target.profile.voting_accuracy).getD 0.5
      let basePenalty := loyaltyDraw.getD 0
      let accuracyBonus := votingAccuracy * 15
      score2 - (basePenalty + accuracyBonus)
    else score2
  let challengeThreat := (target.profile.challenge_win_prob).getD 0.5
  let score4 :=
    if isPremerge then score3 - challengeThreat * cw
    else score3 + challengeThreat * cw
  let score5 := score4 + strategicScore * sw
  let juryScore := (target.profile.score_jury).getD 0.5
  let voteAccuracy := (target.profile.score_vote).getD 0.5
  let influence := (target.profile.score_inf).getD 0.5
  let socialThreat := juryScore * 0.10 + voteAccuracy * 0.30 +
    influence * 0.40 + tribeCompat * 0.20
  let score6 := score5 + socialThreat * socw
  let score7 := score6 + noise * randomness
  match wild with
  | some swing => score7 + swing
  | none => score7

/-- Whether the candidate shares an alliance with at least one voter. -/
def inAllianceWith (alliances : List (String × List String))
    (voters : List Player) (targetName : String) : Bool :=
  alliances.any (fun kv =>
    decide (targetName ∈ kv.2) &&
      voters.any (fun v => decide (v.name ∈ kv.2)))

/-- Monadic candidate scoring of `determine_target`: performs each random
draw and matrix lookup in source order, then evaluates the pure score and
applies the `max(0.1, score)` clamp used when storing into `scores`. -/
def scoreTargetM {G : Type} (ops : RandOps G) (voters : List Player)
    (alliances : List (String × List String)) (playerNames : List String)
    (compat : List (List ℚ)) (randomness : ℚ) (isPremerge : Bool)
    (cw sw socw loyalty : ℚ) (target : Player) : PyM G ℚ := do
  let inAlliance := inAllianceWith alliances voters target.name
  let loyaltyDraw ← if inAlliance then do
      let range := loyalty * 0.3
      let bp ← pyUniform ops (loyalty - range) (loyalty + range)
      pure (some bp)
    else pure (none : Option ℚ)
  let targetIdx ← liftE (pyIndexOf playerNames target.name)
  let vIdxs ← liftE (voterIndices playerNames voters)
  let tribeCompat ← match vIdxs with
    | [] => pure (0.5 : ℚ)
    | _ :: _ => do
      let vals ← liftE (compatVals compat targetIdx vIdxs)
      pure (npMean vals)
  let noise ← pyUniform ops (-30) 30
  let roll ← pyRand ops
  let wild ← if roll < 0.15 then do
      let s ← pyUniform ops (-25) 25
      pure (some s)
    else pure (none : Option ℚ)
  pure (max 0.1 (scoreTargetVal isPremerge cw sw socw randomness inAlliance
    loyaltyDraw tribeCompat noise wild target))

/-- Score-accumulation loop of `determine_target`: dead or immune
candidates are skipped, every other candidate's clamped score is stored
under its name. -/
def scoresLoop {G : Type} (ops : RandOps G) (voters : List Player)
    (alliances : List (String × List String)) (playerNames : List String)
    (compat : List (List ℚ)) (randomness : ℚ) (isPremerge : Bool)
    (cw sw socw loyalty : ℚ) :
    List Player → List (String × ℚ) → PyM G (List (String × ℚ))
  | [], acc => pure acc
  | t :: ts, acc =>
    if ¬t.alive ∨ t.immune then
      scoresLoop ops voters alliances playerNames compat randomness
        isPremerge cw sw socw loyalty ts acc
    else do
      let s ← scoreTargetM ops voters alliances playerNames compat
        randomness isPremerge cw sw socw loyalty t
      scoresLoop ops voters alliances playerNames compat randomness
        isPremerge cw sw socw loyalty ts (dictSet acc t.name s)

/-- `VotingMechanics.determine_target`: weighted random selection of one
candidate name; `none` only on an empty candidate list. -/
def determineTarget {G : Type} (ops : RandOps G) (voters : List Player)
    (candidates : List Player) (alliances : List (String × List String))
    (playerNames : List String) (compat : List (List ℚ)) (randomness : ℚ)
    (isPremerge : Bool) (cw sw socw loyalty : ℚ) :
    PyM G (Option String) := do
  match candidates with
  | [] => pure none
  | _ :: _ => do
    let scores ← scoresLoop ops voters alliances playerNames compat
      randomness isPremerge cw sw socw loyalty candidates []
    match scores with
    | [] => do
      let c ← pyChoice ops candidates
      pure (some c.name)
    | _ :: _ => do
      let names := scores.map (·.1)
      let weights := names.map (fun n => dictGetD scores n 0)
      if weights.sum ≤ 0 then do
        let n ← pyChoice ops names
        pure (some n)
      else do
        let n ← pyChoices ops names weights
        pure (some n)

/-- Compatibility list of `form_alliances`: pairs `(p2.name, comp)` for the
not-yet-assigned alive players other than the seed, in input order.  The
`name_to_idx` dict keeps the last index of a duplicated name. -/
def allianceCompats (playerNames : List String) (compat : List (List ℚ))
    (i1 : ℕ) (p1name : String) (assigned : List String) :
    List Player → Except PyErr (List (String × ℚ))
  | [] => .ok []
  | p2 :: ps =>
    if p2.name = p1name ∨ p2.name ∈ assigned ∨ ¬p2.alive then
      allianceCompats playerNames compat i1 p1name assigned ps
    else do
      let i2 ← optToExcept (lastIndexOf playerNames p2.name) .keyError
      let c ← matGet compat i1 i2
      let rest ← allianceCompats playerNames compat i1 p1name assigned ps
      .ok ((p2.name, c) :: rest)

/-- Main loop of `VotingMechanics.form_alliances`: iterate the players in
input order; an unassigned alive player seeds a new alliance and absorbs a
`randint(2,5)`-sized prefix of the remaining players ranked by
compatibility (stable descending sort). -/
def formAlliancesAux {G : Type} (ops : RandOps G) (allPlayers : List Player)
    (playerNames : List String) (compat : List (List ℚ)) :
    List Player → List String → ℕ → PyM G (List (String × List String))
  | [], _, _ => pure []
  | p1 :: rest, assigned, aid =>
    if p1.name ∈ assigned ∨ ¬p1.alive then
      formAlliancesAux ops allPlayers playerNames compat rest assigned aid
    else do
      let assigned1 := assigned ++ [p1.name]
      let i1 ← liftE (optToExcept (lastIndexOf playerNames p1.name) .keyError)
      let compats ← liftE
        (allianceCompats playerNames compat i1 p1.name assigned1 allPlayers)
      let sorted := sortByKeyD (·.2) compats
      let sz ← pyRandint ops 2 5
      let taken := (sorted.take sz).map (·.1)
      let alliance := p1.name :: taken
      let assigned2 := assigned1 ++ taken
      let restAlliances ←
        formAlliancesAux ops allPlayers playerNames compat rest assigned2
          (aid + 1)
      pure (("alliance_" ++ toString aid, alliance) :: restAlliances)

/-- `VotingMechanics.form_alliances` (the `num_alliances` argument is
unused in the source body as well). -/
def formAlliances {G : Type} (ops : RandOps G) (players : List Player)
    (compat : List (List ℚ)) (playerNames : List String)
    (numAlliances : ℕ) : PyM G (List (String × List String)) :=
  let _ := numAlliances
  formAlliancesAux ops players playerNames compat players [] 0

/-- One `advantages_played` entry
(`{'player': ..., 'advantage': 'Idol', 'on': ...}`; the `'on'` key is
rendered `onTarget` since `on` is reserved). -/
structure PlayedRec where
  player : String
  advantage : String
  onTarget : String
deriving DecidableEq, Repr

/-- Result dict of `simulate_tribal_council`. -/
structure TCResult where
  votes : List (String × String)
  vote_counts : List (String × ℕ)
  advantages_played : List PlayedRec
  eliminated : String
deriving DecidableEq, Repr

/-- In-place mutation of the first player with the given name
(Python updates the object found by a `next(...)` generator). -/
def updateFirst (ps : List Player) (nm : String) (f : Player → Player) :
    List Player :=
  match ps with
  | [] => []
  | p :: rest => if p.name = nm then f p :: rest else p :: updateFirst rest nm f

/-- `idol.played = True` on the first unplayed idol of an advantage list
(`next((a for a in advantages if a.type == IDOL and not a.played), None)`).
-/
def markFirstUnplayedIdol : List Advantage → List Advantage
  | [] => []
  | a :: rest =>
    if a.type = AdvantageType.IDOL ∧ ¬a.played then
      { a with played := true } :: rest
    else a :: markFirstUnplayedIdol rest

/-- Whether an advantage list holds an unplayed idol. -/
def hasUnplayedIdol (advs : List Advantage) : Bool :=
  advs.any (fun a => decide (a.type = AdvantageType.IDOL) && !a.played)

/-- Vote collection of `simulate_tribal_council`: one `votes[voter] =
target` assignment per voter of each alliance entry. -/
def collectVotes (entries : List (String × (String × List String))) :
    List (String × String) :=
  entries.foldl
    (fun votes e => e.2.2.foldl (fun v vn => dictSet v vn e.2.1) votes) []

/-- Vote counting of `simulate_tribal_council`. -/
def countVotes (votes : List (String × String)) : List (String × ℕ) :=
  (votes.map (·.2)).foldl
    (fun counts t => dictSet counts t (dictGetD counts t 0 + 1)) []

/-- Alliance loop of `simulate_tribal_council`: each alliance with at least
one eligible voter picks a target; a truthy target records an entry
`alliance_id -> (target, voter names)`. -/
def allianceVotesLoop {G : Type} (ops : RandOps G)
    (eligibleVoters eligibleTargets : List Player)
    (alliances : List (String × List String)) (playerNames : List String)
    (compat : List (List ℚ)) (randomness : ℚ) (isPremerge : Bool)
    (cw sw socw loyalty : ℚ) :
    List (String × List String) →
      PyM G (List (String × (String × List String)))
  | [] => pure []
  | (aid, members) :: rest => do
    let allianceVoters := eligibleVoters.filter (fun p => p.name ∈ members)
    match allianceVoters with
    | [] =>
      allianceVotesLoop ops eligibleVoters eligibleTargets alliances
        playerNames compat randomness isPremerge cw sw socw loyalty rest
    | _ :: _ => do
      let target? ← determineTarget ops allianceVoters eligibleTargets
        alliances playerNames compat randomness isPremerge cw sw socw loyalty
      let restEntries ←
        allianceVotesLoop ops eligibleVoters eligibleTargets alliances
          playerNames compat randomness isPremerge cw sw socw loyalty rest
      match target? with
      | some t =>
        if t = "" then pure restEntries
        else pure ((aid, (t, allianceVoters.map (·.name))) :: restEntries)
      | none => pure restEntries

/-- Idol-play phase of the tribal-council resolution (source lines
606-633): the top-tallied candidate may play an idol, which marks the
idol played and zeroes their tally *entry* (the key remains).  Returns
`(advantages_played, players, vote_counts)`. -/
def idolStep {G : Type} (ops : RandOps G) (players : List Player)
    (aliveCount : ℕ) (votes : List (String × String))
    (voteCounts : List (String × ℕ)) :
    PyM G (List PlayedRec × List Player × List (String × ℕ)) :=
  match maxKeyFirst voteCounts with
  | none => pure ([], players, voteCounts)
  | some topTarget =>
    match players.find? (fun p => p.name = topTarget) with
    | none => pure ([], players, voteCounts)
    | some targetPlayer => do
      let doPlay ← shouldPlayIdol ops targetPlayer
        (dictGetD voteCounts topTarget 0) votes.length
        ((targetPlayer.profile.threat_level).getD 50) aliveCount
      if doPlay then
        if hasUnplayedIdol targetPlayer.advantages then
          pure ([({ player := topTarget,
                    advantage := "Idol",
                    onTarget := topTarget } : PlayedRec)],
            updateFirst players topTarget
              (fun p => { p with advantages :=
                markFirstUnplayedIdol p.advantages }),
            dictSet voteCounts topTarget 0)
        else pure ([], players, voteCounts)
      else pure ([], players, voteCounts)

/-- Elimination section of `simulate_tribal_council` (source lines
606-640): the idol phase followed by `max` over the (possibly zeroed)
tally, with a uniform `random.choice` over the eligible targets only when
the tally dict is empty. -/
def tribalResolve {G : Type} (ops : RandOps G) (players : List Player)
    (aliveCount : ℕ) (votes : List (String × String))
    (voteCounts : List (String × ℕ)) (eligibleTargets : List Player) :
    PyM G (List PlayedRec × List Player × List (String × ℕ) × String) := do
  let step ← idolStep ops players aliveCount votes voteCounts
  match maxKeyFirst step.2.2 with
  | some elim => pure (step.1, step.2.1, step.2.2, elim)
  | none => do
    let t ← pyChoice ops eligibleTargets
    pure (step.1, step.2.1, step.2.2, t.name)

/-- `VotingMechanics.simulate_tribal_council`: returns the result dict and
the (possibly idol-mutated) player list. -/
def simulateTribalCouncil {G : Type} (ops : RandOps G)
    (players : List Player) (alliances : List (String × List String))
    (playerNames : List String) (compat : List (List ℚ))
    (cw sw socw loyalty randomness : ℚ) : PyM G (TCResult × List Player) := do
  let alivePlayers := players.filter (·.alive)
  let immuneCount := (alivePlayers.filter (·.immune)).length
  let isPremerge := 1 < immuneCount
  let eligibleVoters :=
    if isPremerge then alivePlayers.filter (fun p => !p.immune)
    else alivePlayers
  let eligibleTargets := alivePlayers.filter (fun p => !p.immune)
  let allianceVotes ← allianceVotesLoop ops eligibleVoters eligibleTargets
    alliances playerNames compat randomness isPremerge cw sw socw loyalty
    alliances
  let votes := collectVotes allianceVotes
  let voteCounts := countVotes votes
  let resolved ← tribalResolve ops players alivePlayers.length votes
    voteCounts eligibleTargets
  pure ({ votes := votes,
          vote_counts := resolved.2.2.1,
          advantages_played := resolved.1,
          eliminated := resolved.2.2.2 },
    resolved.2.1)

/-! ### `simulator.py` -/

/-- One `advantages_found` entry (`{'player': ..., 'advantage': value}`). -/
structure FoundRec where
  player : String
  advantage : String
deriving DecidableEq, Repr

/-- The Final-4 `fire_making` sub-result. -/
structure FireResult where
  winner : String
  loser : String
  chosen : String
deriving DecidableEq, Repr

/-- Results from a single episode (`EpisodeResult` dataclass). -/
structure EpisodeResult where
  episode : ℕ
  day : ℕ
  phase : String
  challenge_type : String
  challenge_winner : String
  immune_players : List String
  tribal_council : Bool
  votes : List (String × String)
  vote_counts : List (String × ℕ)
  advantages_found : List FoundRec
  advantages_played : List PlayedRec
  eliminated : String
  remaining_players : List String
  fire_making : Option FireResult
deriving DecidableEq, Repr

/-- Read-only data fixed for a run: the loaded inputs and the configuration
(`self.player_profiles`, `self.compatibility_matrix`, `self.player_names`,
`self.config`). -/
structure SimCtx where
  playerProfiles : List (String × Profile)
  compat : List (List ℚ)
  playerNames : List String
  cfg : SimulationConfig
deriving Repr

/-- The mutable per-run state of `SurvivorSimulation`. -/
structure SimState where
  players : List Player
  tribes : List (String × List String)
  alliances : List (String × List String)
  availableIdols : ℤ
  episodes : List EpisodeResult
  currentDay : ℕ
  merged : Bool
  numTribeSwaps : ℕ
  swapsCompleted : ℕ
  swapTimings : List ℕ
deriving DecidableEq, Repr

/-- `self.tribe_names`. -/
def tribeNames : List String := ["Tribe A", "Tribe B", "Tribe C"]

/-- `self.merge_at` (merge when 13 players remain). -/
def mergeAt : ℕ := 13

/-- Number of alive players. -/
def aliveCount (ps : List Player) : ℕ := (ps.filter (·.alive)).length

/-- Names of the alive players, in roster order. -/
def aliveNames (ps : List Player) : List String :=
  (ps.filter (·.alive)).map (·.name)

/-- `SurvivorSimulation.__init__` (data loading replaced by the already
loaded inputs): validates the configuration, seeds the generator when an
explicit seed is given, and rolls the tribe-swap schedule. -/
def simInit {G : Type} (ops : RandOps G) (profilesData : List (String × Profile))
    (compatMatrix : List (List ℚ)) (compatPlayers : List String)
    (seed : Option ℕ) (config : Option SimulationConfig) :
    PyM G (SimCtx × SimState) := do
  let cfg := config.getD defaultConfig
  let _ ← liftE cfg.validate
  let _ ← pySeed ops seed
  let profilesDict := buildDict profilesData
  let swapRoll ← pyRand ops
  let numSwaps : ℕ := if swapRoll < 0.35 then 0
    else if swapRoll < 0.85 then 1 else 2
  let timings := (if 1 ≤ numSwaps then [18] else []) ++
    (if 2 ≤ numSwaps then [14] else [])
  pure ({ playerProfiles := profilesDict, compat := compatMatrix,
          playerNames := compatPlayers, cfg := cfg },
    { players := [], tribes := [], alliances := [],
      availableIdols := cfg.total_idols, episodes := [], currentDay := 1,
      merged := false, numTribeSwaps := numSwaps, swapsCompleted := 0,
      swapTimings := timings })

/-- Player construction loop of `initialize_game`: one `Player` per
shuffled name (`KeyError` when a name has no profile). -/
def buildPlayers (profiles : List (String × Profile)) :
    List String → Except PyErr (List Player)
  | [] => .ok []
  | nm :: rest => do
    let prof ← optToExcept (dictFind? profiles nm) .keyError
    let others ← buildPlayers profiles rest
    .ok ({ name := nm, profile := prof, tribe := "" } :: others)

/-- Round-robin tribe assignment `player.tribe = tribe_names[i % 3]`. -/
def assignTribes (ps : List Player) : List Player :=
  ps.enum.map (fun ip =>
    { ip.2 with tribe := tribeNames.getD (ip.1 % 3) "" })

/-- `self.tribes` reconstruction: members of each tribe in roster order. -/
def buildTribesDict (ps : List Player) : List (String × List String) :=
  tribeNames.map (fun t => (t, (ps.filter (fun p => p.tribe = t)).map (·.name)))

/-- `_form_tribe_alliances`: alliances within each tribe, keys prefixed by
the tribe name. -/
def formTribeAlliances {G : Type} (ops : RandOps G) (ctx : SimCtx)
    (players : List Player) :
    List String → PyM G (List (String × List String))
  | [] => pure []
  | t :: ts => do
    let tribePlayers := players.filter (fun p => p.tribe = t && p.alive)
    let sub ← formAlliances ops tribePlayers ctx.compat ctx.playerNames 2
    let rest ← formTribeAlliances ops ctx players ts
    pure ((sub.map (fun kv => (t ++ "_" ++ kv.1, kv.2))) ++ rest)

/-- `initialize_game`: shuffle the cast, create the players, deal them into
three tribes and form the initial within-tribe alliances. -/
def initializeGame {G : Type} (ops : RandOps G) (ctx : SimCtx)
    (s : SimState) : PyM G SimState := do
  let shuffled ← pyShuffleNames ops ctx.playerNames
  let players0 ← liftE (buildPlayers ctx.playerProfiles shuffled)
  let players := assignTribes players0
  let tribes := buildTribesDict players
  let alliances ← formTribeAlliances ops ctx players tribeNames
  pure { s with players := players, tribes := tribes, alliances := alliances }

/-- `_merge_alliances`: reform alliances over all alive players. -/
def mergeAlliances {G : Type} (ops : RandOps G) (ctx : SimCtx)
    (s : SimState) : PyM G SimState := do
  let alivePlayers := s.players.filter (·.alive)
  let alliances ← formAlliances ops alivePlayers ctx.compat ctx.playerNames 3
  pure { s with alliances := alliances }

/-- `_tribe_swap`: shuffle the alive players and deal them round-robin into
3 tribes (2 when fewer than 12 remain), then reform the within-tribe
alliances. -/
def tribeSwap {G : Type} (ops : RandOps G) (ctx : SimCtx) (s : SimState) :
    PyM G SimState := do
  let alivePlayers := s.players.filter (·.alive)
  let numAlive := alivePlayers.length
  let shuffled ← pyShufflePlayers ops alivePlayers
  let numTribes : ℕ := if 12 ≤ numAlive then 3 else 2
  let activeTribeNames := tribeNames.take numTribes
  let assignment := shuffled.enum.map (fun ip =>
    (ip.2.name, activeTribeNames.getD (ip.1 % numTribes) ""))
  let players := s.players.map (fun p =>
    if p.alive then { p with tribe := dictGetD assignment p.name p.tribe }
    else p)
  let tribes := activeTribeNames.map (fun t =>
    (t, ((shuffled.enum.filter (fun ip =>
      activeTribeNames.getD (ip.1 % numTribes) "" = t)).map (·.2.name))))
  let alliances ← formTribeAlliances ops ctx players tribeNames
  pure { s with players := players,
                tribes := tribes,
                alliances := alliances,
                swapsCompleted := s.swapsCompleted + 1 }

/-- Searcher filter of `_idol_search_phase`: alive players that are idol
hunters, strategic (`score_outwit > 0.6`, default 0 here), or pass the
config-probability roll (the roll is only drawn when the first two
disjuncts fail, mirroring `or` short-circuiting). -/
def searcherFilter {G : Type} (ops : RandOps G) (searchProb : ℚ) :
    List Player → PyM G (List Player)
  | [] => pure []
  | p :: ps =>
    if ¬p.alive then searcherFilter ops searchProb ps
    else if "Idol Hunter" ∈ p.profile.archetypes ∨
        0.6 < (p.profile.score_outwit).getD 0 then do
      let rest ← searcherFilter ops searchProb ps
      pure (p :: rest)
    else do
      let roll ← pyRand ops
      let rest ← searcherFilter ops searchProb ps
      if roll < searchProb then pure (p :: rest) else pure rest

/-- Search loop of `_idol_search_phase`: stops as soon as 2 advantages have
been found this episode; each success appends the advantage to the finding
player and decrements the shared pool. -/
def searchLoop {G : Type} (ops : RandOps G) :
    List Player → List Player → ℤ → List FoundRec →
      PyM G (List FoundRec × List Player × ℤ)
  | [], players, avail, found => pure (found, players, avail)
  | searcher :: rest, players, avail, found =>
    if 2 ≤ found.length then pure (found, players, avail)
    else do
      let adv? ← attemptIdolSearch ops searcher avail 0.3
      match adv? with
      | some adv =>
        searchLoop ops rest
          (updateFirst players searcher.name
            (fun p => { p with advantages := p.advantages ++ [adv] }))
          (avail - 1)
          (found ++ [{ player := searcher.name,
                       advantage := adv.type.value }])
      | none => searchLoop ops rest players avail found

/-- `_idol_search_phase`. -/
def idolSearchPhase {G : Type} (ops : RandOps G) (ctx : SimCtx)
    (s : SimState) : PyM G (List FoundRec × SimState) := do
  let searchers ← searcherFilter ops ctx.cfg.idol_search_probability s.players
  let res ← searchLoop ops searchers s.players s.availableIdols []
  pure (res.1, { s with players := res.2.1, availableIdols := res.2.2 })

/-- Normalization `[p / total for p in probs]` *without* a zero guard: a
nonempty list whose total is zero raises `ZeroDivisionError` (this is the
fire-making path; the immunity challenges check the total first). -/
def normalizeStrict (l : List ℚ) : Except PyErr (List ℚ) :=
  match l with
  | [] => .ok []
  | _ :: _ =>
    if l.sum = 0 then .error .zeroDivision
    else .ok (l.map (· / l.sum))

/-- Immunity-challenge phase of `simulate_episode`.  Returns
`(winner_name?, winning_tribe?, immune_players, players')`:
post-merge the individual winner is flagged immune, pre-merge every alive
member of a non-losing tribe is flagged immune.  With at most one active
tribe pre-merge, `winning_tribe` stays unbound (`none`), which surfaces as
a `NameError` when the episode record is later built. -/
def immunityPhase {G : Type} (ops : RandOps G) (ctx : SimCtx)
    (s : SimState) :
    PyM G (Option String × Option String × List String × List Player) := do
  if s.merged then do
    let w? ← simulateIndividualImmunity ops (s.players.filter (·.alive))
      ctx.cfg.chaos_factor none (some ctx.cfg.challenge_distribution)
    let winner? : Option Player := match w? with
      | some nm => s.players.find? (fun p => p.name = nm)
      | none => none
    match winner? with
    | none => PyM.fail .stopIteration
    | some winner =>
      pure (some winner.name, none, [winner.name],
        updateFirst s.players winner.name (fun p => { p with immune := true }))
  else do
    let activeTribes := (tribeNames.map (fun t =>
      (t, s.players.filter (fun p => p.tribe = t && p.alive)))).filter
        (fun kv => !kv.2.isEmpty)
    match activeTribes.map (·.2) with
    | t0 :: t1 :: trest => do
      let winningTribe ← simulateTribalImmunity ops t0 (t1 :: trest)
        (ctx.cfg.chaos_factor * 1.2) none (some ctx.cfg.challenge_distribution)
      let losingTribes :=
        (activeTribes.map (·.1)).filter (fun n => n ≠ winningTribe)
      let losing? ← match losingTribes with
        | [] => pure (none : Option String)
        | [l] => pure (some l)
        | _ :: _ :: _ => do
          let l ← pyChoice ops losingTribes
          pure (some l)
      let activeNames := activeTribes.map (·.1)
      let players := s.players.map (fun p =>
        if p.alive && decide (p.tribe ∈ activeNames) then
          { p with immune := decide (some p.tribe ≠ losing?) }
        else p)
      let immunePlayers :=
        (activeTribes.filter (fun kv => some kv.1 ≠ losing?)).foldl
          (fun acc kv => acc ++ kv.2.map (·.name)) []
      pure (none, some winningTribe, immunePlayers, players)
    | _ => pure (none, none, [], s.players)

/-- The conditional tribe swap at the top of `simulate_episode`
(`num_alive` is the count taken at the start of the episode). -/
def swapStep {G : Type} (ops : RandOps G) (ctx : SimCtx) (numAlive : ℕ)
    (s : SimState) : PyM G SimState :=
  if ¬s.merged ∧ s.swapsCompleted < s.numTribeSwaps ∧
      numAlive ∈ s.swapTimings then tribeSwap ops ctx s else pure s

/-- The conditional merge in `simulate_episode`: when at most `merge_at`
players remain, every alive player moves to the `Merged` tribe and
alliances are reformed. -/
def mergeStep {G : Type} (ops : RandOps G) (ctx : SimCtx) (numAlive : ℕ)
    (s : SimState) : PyM G SimState :=
  if ¬s.merged ∧ numAlive ≤ mergeAt then
    mergeAlliances ops ctx
      { s with
          merged := true,
          players := s.players.map (fun p =>
            if p.alive then { p with tribe := "Merged" } else p) }
  else pure s

/-- The `challenge_winner` lookup when the episode record is built: the
relevant local (`merged_winner` or `winning_tribe`) was never assigned on
the degenerate pre-merge path, which Python reports as a `NameError`. -/
def challengeWinnerOf {G : Type} (merged : Bool) (mw tw : Option String) :
    PyM G String :=
  if merged then
    match mw with
    | some w => pure w
    | none => PyM.fail .nameError
  else
    match tw with
    | some w => pure w
    | none => PyM.fail .nameError

/-- `SurvivorSimulation.simulate_episode`. -/
def simulateEpisode {G : Type} (ops : RandOps G) (ctx : SimCtx) (epNum : ℕ)
    (s : SimState) : PyM G (EpisodeResult × SimState) := do
  let numAlive := aliveCount s.players
  let s ← swapStep ops ctx numAlive s
  let s ← mergeStep ops ctx numAlive s
  let searchRes ← idolSearchPhase ops ctx s
  let advantagesFound := searchRes.1
  let s := searchRes.2
  let imm ← immunityPhase ops ctx s
  let mergedWinner? := imm.1
  let tribalWinner? := imm.2.1
  let immunePlayers := imm.2.2.1
  let s := { s with players := imm.2.2.2 }
  let tc ← simulateTribalCouncil ops s.players s.alliances ctx.playerNames
    ctx.compat ctx.cfg.challenge_threat_weight ctx.cfg.strategic_threat_weight
    ctx.cfg.social_threat_weight ctx.cfg.alliance_loyalty ctx.cfg.chaos_factor
  let tcPlayers := tc.2
  let elimName := tc.1.eliminated
  match tcPlayers.find? (fun p => p.name = elimName) with
  | none => PyM.fail .stopIteration
  | some _ => do
    let players1 := updateFirst tcPlayers elimName
      (fun p => { p with alive := false })
    let players2 := players1.map (fun p => { p with immune := false })
    let oldDay := s.currentDay
    let phase := if numAlive ≤ 6 then "Final"
      else if s.merged then "Merge" else "Pre-Merge"
    let challengeWinner ←
      challengeWinnerOf s.merged mergedWinner? tribalWinner?
    let record : EpisodeResult :=
      { episode := epNum,
        day := oldDay,
        phase := phase,
        challenge_type := if s.merged then "Individual" else "Tribal",
        challenge_winner := challengeWinner,
        immune_players := immunePlayers,
        tribal_council := true,
        votes := tc.1.votes,
        vote_counts := tc.1.vote_counts,
        advantages_found := advantagesFound,
        advantages_played := tc.1.advantages_played,
        eliminated := elimName,
        remaining_players := aliveNames players2,
        fire_making := none }
    pure (record,
      { s with players := players2,
               currentDay := oldDay + 3,
               episodes := s.episodes ++ [record] })

/-- Per-firemaker probability loop of `simulate_final_four`: one
`uniform(0.7, 1.3)` draw per contestant. -/
def fireProbsLoop {G : Type} (ops : RandOps G) :
    List Player → PyM G (List ℚ)
  | [] => pure []
  | p :: ps => do
    let f ← pyUniform ops 0.7 1.3
    let rest ← fireProbsLoop ops ps
    pure ((p.profile.challenge_win_prob).getD 0.5 * f :: rest)

/-- Sort-key jitters: `random.uniform(a, b)`, one draw per element in list
order (Python's `sort` evaluates the key function once per element). -/
def drawUniformList {G : Type} (ops : RandOps G) (a b : ℚ) :
    ℕ → PyM G (List ℚ)
  | 0 => pure []
  | n + 1 => do
    let x ← pyUniform ops a b
    let rest ← drawUniformList ops a b n
    pure (x :: rest)

/-- `SurvivorSimulation.simulate_final_four`: final immunity challenge, the
winner's companion choice (lowest jittered jury-threat), and the
fire-making duel between the two remaining players — whose probability
normalization has no zero guard. -/
def simulateFinalFour {G : Type} (ops : RandOps G) (ctx : SimCtx)
    (epNum : ℕ) (s : SimState) : PyM G SimState := do
  let alivePlayers := s.players.filter (·.alive)
  let w? ← simulateIndividualImmunity ops alivePlayers ctx.cfg.chaos_factor
    none (some ctx.cfg.challenge_distribution)
  let winner? : Option Player := match w? with
    | some nm => s.players.find? (fun p => p.name = nm)
    | none => none
  match winner? with
  | none => PyM.fail .stopIteration
  | some winner => do
    let players1 := updateFirst s.players winner.name
      (fun p => { p with immune := true })
    let otherPlayers := alivePlayers.filter (fun p => p.name ≠ winner.name)
    let chosenScores := otherPlayers.map (fun p =>
      (p, (p.profile.score_jury).getD 0.5 * 0.6 +
        (p.profile.score_outwit).getD 0.5 * 0.4))
    let jitters ← drawUniformList ops (-0.1) 0.1 chosenScores.length
    let keyed := chosenScores.zip jitters
    let sorted := sortByKeyA (fun x => x.1.2 + x.2) keyed
    let chosen0 ← liftE (pyHead sorted)
    let chosenPlayer := chosen0.1.1
    let players2 := updateFirst players1 chosenPlayer.name
      (fun p => { p with immune := true })
    let fireMakers := otherPlayers.filter (fun p => p.name ≠ chosenPlayer.name)
    let fireProbs ← fireProbsLoop ops fireMakers
    let normed ← liftE (normalizeStrict fireProbs)
    let fireWinner ← pyChoices ops fireMakers normed
    let fireLoser? := fireMakers.find? (fun p => p.name ≠ fireWinner.name)
    match fireLoser? with
    | none => PyM.fail .stopIteration
    | some fireLoser => do
      let players3 := updateFirst players2 fireLoser.name
        (fun p => { p with alive := false })
      let players4 := players3.map (fun p => { p with immune := false })
      let oldDay := s.currentDay
      let record : EpisodeResult :=
        { episode := epNum,
          day := oldDay,
          phase := "Final",
          challenge_type := "Individual",
          challenge_winner := winner.name,
          immune_players := [winner.name],
          tribal_council := false,
          votes := [],
          vote_counts := [],
          advantages_found := [],
          advantages_played := [],
          eliminated := fireLoser.name,
          remaining_players := aliveNames players4,
          fire_making := some { winner := fireWinner.name,
                                loser := fireLoser.name,
                                chosen := chosenPlayer.name } }
      pure { s with players := players4,
                    currentDay := oldDay + 3,
                    episodes := s.episodes ++ [record] }

/-- Per-juror finalist scoring of `_simulate_jury_vote`: compatibility with
the juror (40%), jury appeal (35%) and strategic score (25%). -/
def jurorScores (ctx : SimCtx) (jurorIdx : ℕ) :
    List Player → Except PyErr (List (String × ℚ))
  | [] => .ok []
  | f :: fs => do
    let fIdx ← pyIndexOf ctx.playerNames f.name
    let compatibility ← matGet ctx.compat jurorIdx fIdx
    let social := (f.profile.score_jury).getD 0.5
    let strategic := (f.profile.score_outwit).getD 0.5
    let rest ← jurorScores ctx jurorIdx fs
    .ok ((f.name, compatibility * 0.4 + social * 0.35 + strategic * 0.25)
      :: rest)

/-- Jury-vote loop of `_simulate_jury_vote`: each juror scores every
finalist, adds a small per-finalist jitter inside the `max` key function,
and votes for the maximal finalist. -/
def juryVotesLoop {G : Type} (ops : RandOps G) (ctx : SimCtx)
    (finalists : List Player) :
    List Player → List (String × String) → PyM G (List (String × String))
  | [], votes => pure votes
  | juror :: rest, votes => do
    let jurorIdx ← liftE (pyIndexOf ctx.playerNames juror.name)
    let scores ← liftE (jurorScores ctx jurorIdx finalists)
    let jitters ← drawUniformList ops (-0.05) 0.05 scores.length
    let keyVals := (scores.zip jitters).map (fun x => x.1.2 + x.2)
    match maxByVals (scores.map (·.1)) keyVals with
    | none => PyM.fail (.valueError "max() arg is an empty sequence")
    | some pick =>
      juryVotesLoop ops ctx finalists rest (dictSet votes juror.name pick)

/-- `SurvivorSimulation._simulate_jury_vote`: jury = players eliminated in
Merge/Final-phase episodes; plurality (first maximal count) wins. -/
def juryVote {G : Type} (ops : RandOps G) (ctx : SimCtx) (s : SimState)
    (finalists : List Player) : PyM G Player := do
  let jury := (s.episodes.filter (fun ep =>
    ep.phase = "Merge" ∨ ep.phase = "Final")).foldl
      (fun acc ep => acc ++ s.players.filter (fun p => p.name = ep.eliminated))
      []
  let votes ← juryVotesLoop ops ctx finalists jury []
  let voteCounts := countVotes votes
  match maxKeyFirst voteCounts with
  | none => PyM.fail (.valueError "max() arg is an empty sequence")
  | some winnerName =>
    match finalists.find? (fun f => f.name = winnerName) with
    | none => PyM.fail .stopIteration
    | some winner => pure winner

/-- The `while len(alive) > 4` loop of `simulate_full_season`, with a fuel
bound (the loop terminates because each completed episode removes exactly
one player; exhausted fuel models divergence as an error and is never hit
from a reachable state).  Returns the state and the next episode number. -/
def seasonLoop {G : Type} (ops : RandOps G) (ctx : SimCtx) :
    ℕ → ℕ → SimState → PyM G (SimState × ℕ)
  | 0, epNum, s =>
    if 4 < aliveCount s.players then PyM.fail .fuelExhausted
    else pure (s, epNum)
  | fuel + 1, epNum, s =>
    if 4 < aliveCount s.players then do
      let r ← simulateEpisode ops ctx epNum s
      seasonLoop ops ctx fuel (epNum + 1) r.2
    else pure (s, epNum)

/-- `random.getstate()[1][0]` echoed into the result dict. -/
def pyStateWord {G : Type} (ops : RandOps G) : PyM G ℕ := fun g =>
  .ok (ops.stateWord g, g)

/-- The result dict of `simulate_full_season`. -/
structure SeasonResult where
  winner : String
  finalists : List String
  episodes : List EpisodeResult
  elimination_order : List String
  initial_tribes : List (String × List String)
  total_days : ℕ
  seedWord : ℕ
deriving DecidableEq, Repr

/-- The final-four round of `simulate_full_season`, run exactly when 4
players remain at loop exit. -/
def finalFourStep {G : Type} (ops : RandOps G) (ctx : SimCtx) (epNum : ℕ)
    (s : SimState) : PyM G SimState :=
  if aliveCount s.players = 4 then simulateFinalFour ops ctx epNum s
  else pure s

/-- `SurvivorSimulation(...)` followed by `simulate_full_season()`: the
complete run.  Returns the result dict together with the final object
state (`self`). -/
def simulateFullSeason {G : Type} (ops : RandOps G)
    (profilesData : List (String × Profile)) (compatMatrix : List (List ℚ))
    (compatPlayers : List String) (seed : Option ℕ)
    (config : Option SimulationConfig) : PyM G (SeasonResult × SimState) := do
  let init ← simInit ops profilesData compatMatrix compatPlayers seed config
  let ctx := init.1
  let s1 ← initializeGame ops ctx init.2
  let loopRes ← seasonLoop ops ctx s1.players.length 1 s1
  let s2 := loopRes.1
  let s3 ← finalFourStep ops ctx loopRes.2 s2
  let finalists := s3.players.filter (·.alive)
  let winner ← juryVote ops ctx s3 finalists
  let word ← pyStateWord ops
  pure ({ winner := winner.name,
          finalists := finalists.map (·.name),
          episodes := s3.episodes,
          elimination_order := s3.episodes.map (·.eliminated),
          initial_tribes := s3.tribes,
          total_days := s3.currentDay,
          seedWord := word }, s3)

/-! ## Claim theorems -/

/-- Helper for C8: an invalid configuration makes the whole run fail with
the validation error before anything else happens. -/
theorem season_error_of_validate_error {G : Type} (ops : RandOps G)
    (pd : List (String × Profile)) (cm : List (List ℚ)) (cp : List String)
    (seed : Option ℕ) (c : SimulationConfig) (e : PyErr) (g : G)
    (h : SimulationConfig.validate c = .error e) :
    simulateFullSeason ops pd cm cp seed (some c) g = .error e := by
  show (simInit ops pd cm cp seed (some c) >>= _) g = .error e
  rw [PyM.bind_apply]
  have hinit : simInit ops pd cm cp seed (some c) g = .error e := by
    show ((liftE (SimulationConfig.validate ((some c).getD defaultConfig)))
      >>= _) g = .error e
    rw [PyM.bind_apply]
    simp only [Option.getD_some, h, liftE_apply]
  rw [hinit]

/-- C8: `SimulationConfig.validate` raises a descriptive `ValueError`
exactly when the configuration is invalid (challenge distribution not
summing to 1.0 within tolerance, chaos factor outside [0,1], a negative
threat weight, or `total_idols` outside 0..30) and returns `True`
otherwise; the orchestrator validates the configuration at construction,
so an invalid configuration makes every run fail before any simulation
work. -/
theorem c8_validate_exact (c : SimulationConfig) :
    (SimulationConfig.validate c = .ok true ↔ ConfigValid c) ∧
    (¬ ConfigValid c →
      (∃ msg, SimulationConfig.validate c = .error (.valueError msg)) ∧
      ∀ (G : Type) (ops : RandOps G) (pd : List (String × Profile))
        (cm : List (List ℚ)) (cp : List String) (seed : Option ℕ) (g : G),
        ∃ msg, simulateFullSeason ops pd cm cp seed (some c) g =
          .error (.valueError msg)) := by
  have herrOf : ¬ ConfigValid c →
      ∃ msg, SimulationConfig.validate c = .error (.valueError msg) := by
    intro hnv
    simp only [SimulationConfig.validate]
    by_cases hA : 0.99 ≤ (c.challenge_distribution.map (·.2)).sum ∧
        (c.challenge_distribution.map (·.2)).sum ≤ 1.01
    · by_cases hB : 0 ≤ c.chaos_factor ∧ c.chaos_factor ≤ 1
      · by_cases hC : c.challenge_threat_weight < 0 ∨
            c.strategic_threat_weight < 0 ∨ c.social_threat_weight < 0
        · rw [if_neg (not_not_intro hA), if_neg (not_not_intro hB),
            if_pos hC]
          exact ⟨_, rfl⟩
        · by_cases hD : 0 ≤ c.total_idols ∧ c.total_idols ≤ 30
          · exfalso
            push_neg at hC
            exact hnv ⟨hA, hB, ⟨hC.1, hC.2.1, hC.2.2⟩, hD⟩
          · rw [if_neg (not_not_intro hA), if_neg (not_not_intro hB),
              if_neg hC, if_pos hD]
            exact ⟨_, rfl⟩
      · rw [if_neg (not_not_intro hA), if_pos hB]
        exact ⟨_, rfl⟩
    · rw [if_pos hA]
      exact ⟨_, rfl⟩
  have hiff : SimulationConfig.validate c = .ok true ↔ ConfigValid c := by
    constructor
    · intro h
      by_contra hnv
      obtain ⟨msg, hm⟩ := herrOf hnv
      rw [hm] at h
      simp at h
    · intro hv
      obtain ⟨hA, hB, hC, hD⟩ := hv
      simp only [SimulationConfig.validate]
      rw [if_neg (not_not_intro hA), if_neg (not_not_intro hB),
        if_neg (show ¬(c.challenge_threat_weight < 0 ∨
            c.strategic_threat_weight < 0 ∨ c.social_threat_weight < 0) by
          push_neg
          exact ⟨hC.1, hC.2.1, hC.2.2⟩),
        if_neg (not_not_intro hD)]
  refine ⟨hiff, fun hnv => ⟨herrOf hnv, fun G ops pd cm cp seed g => ?_⟩⟩
  obtain ⟨msg, hm⟩ := herrOf hnv
  exact ⟨msg, season_error_of_validate_error ops pd cm cp seed c _ g hm⟩

/-- C4: with an explicit seed, `__init__` replaces the ambient generator
state by `random.seed(seed)` before any draw, so the whole run is a
function of the seed, the inputs and the configuration alone: two runs
from arbitrary ambient generator states coincide — in particular their
`EpisodeResult` sequences and winners are identical. -/
theorem c4_seed_determinism {G : Type} (ops : RandOps G)
    (pd : List (String × Profile)) (cm : List (List ℚ)) (cp : List String)
    (cfg : Option SimulationConfig) (s : ℕ) (g₀ g₁ : G) :
    simulateFullSeason ops pd cm cp (some s) cfg g₀ =
      simulateFullSeason ops pd cm cp (some s) cfg g₁ ∧
    (∀ r₀ gf₀ r₁ gf₁,
      simulateFullSeason ops pd cm cp (some s) cfg g₀ = .ok (r₀, gf₀) →
      simulateFullSeason ops pd cm cp (some s) cfg g₁ = .ok (r₁, gf₁) →
      r₀.1.episodes = r₁.1.episodes ∧ r₀.1.winner = r₁.1.winner) := by
  have hinit : simInit ops pd cm cp (some s) cfg g₀ =
      simInit ops pd cm cp (some s) cfg g₁ := by
    show ((liftE (SimulationConfig.validate (cfg.getD defaultConfig))) >>= _)
        g₀ =
      ((liftE (SimulationConfig.validate (cfg.getD defaultConfig))) >>= _) g₁
    rw [PyM.bind_apply, PyM.bind_apply]
    simp only [liftE_apply]
    cases SimulationConfig.validate (cfg.getD defaultConfig) with
    | error e => rfl
    | ok b =>
      show ((pySeed ops (some s)) >>= _) g₀ = ((pySeed ops (some s)) >>= _) g₁
      rw [PyM.bind_apply, PyM.bind_apply]
      rfl
  have hfull : simulateFullSeason ops pd cm cp (some s) cfg g₀ =
      simulateFullSeason ops pd cm cp (some s) cfg g₁ := by
    show (simInit ops pd cm cp (some s) cfg >>= _) g₀ =
      (simInit ops pd cm cp (some s) cfg >>= _) g₁
    rw [PyM.bind_apply, PyM.bind_apply, hinit]
  refine ⟨hfull, fun r₀ gf₀ r₁ gf₁ h₀ h₁ => ?_⟩
  rw [hfull, h₁] at h₀
  cases h₀
  exact ⟨rfl, rfl⟩

/-! ## Helper lemmas -/

/-- Names of a player list, in roster order. -/
def namesOf (ps : List Player) : List String := ps.map (·.name)

/-- Name/alive skeleton of a player list: the data every bookkeeping
invariant depends on. -/
def skel (ps : List Player) : List (String × Bool) :=
  ps.map (fun p => (p.name, p.alive))

/-- Keys of an association list. -/
def keysOf {κ β : Type} (d : List (κ × β)) : List κ := d.map (·.1)

theorem namesOf_eq_of_skel {ps qs : List Player}
    (h : skel ps = skel qs) : namesOf ps = namesOf qs := by
  have := congrArg (List.map (·.1)) h
  simpa [skel, namesOf, List.map_map, Function.comp] using this

theorem aliveCount_eq_countP_skel (ps : List Player) :
    aliveCount ps = (skel ps).countP (·.2) := by
  induction ps with
  | nil => rfl
  | cons p ps ih =>
    have ih' := ih
    simp only [aliveCount, skel, List.map] at ih' ⊢
    rw [List.countP_cons, List.filter_cons]
    cases hp : p.alive
    · simp [hp, ih']
    · simp [hp, ih']

theorem aliveCount_eq_of_skel {ps qs : List Player}
    (h : skel ps = skel qs) : aliveCount ps = aliveCount qs := by
  rw [aliveCount_eq_countP_skel, aliveCount_eq_countP_skel, h]

theorem aliveNames_eq_skel_filter (ps : List Player) :
    aliveNames ps = ((skel ps).filter (·.2)).map (·.1) := by
  induction ps with
  | nil => rfl
  | cons p ps ih =>
    simp only [aliveNames, skel, List.filter, List.map] at *
    cases hp : p.alive with
    | true => simp [hp, ih]
    | false => simp [hp, ih]

theorem aliveNames_eq_of_skel {ps qs : List Player}
    (h : skel ps = skel qs) : aliveNames ps = aliveNames qs := by
  rw [aliveNames_eq_skel_filter, aliveNames_eq_skel_filter, h]

theorem skel_map {ps : List Player} {f : Player → Player}
    (h : ∀ p, (f p).name = p.name ∧ (f p).alive = p.alive) :
    skel (ps.map f) = skel ps := by
  simp only [skel, List.map_map]
  exact List.map_congr_left (fun p _ => by
    simp [Function.comp, (h p).1, (h p).2])

theorem skel_updateFirst {ps : List Player} {nm : String}
    {f : Player → Player}
    (h : ∀ p, (f p).name = p.name ∧ (f p).alive = p.alive) :
    skel (updateFirst ps nm f) = skel ps := by
  induction ps with
  | nil => rfl
  | cons p ps ih =>
    simp only [updateFirst]
    by_cases hp : p.name = nm
    · simp [skel, hp, (h p).1, (h p).2]
    · simp only [if_neg hp, skel, List.map] at *
      rw [ih]

theorem mem_namesOf {ps : List Player} {p : Player} (h : p ∈ ps) :
    p.name ∈ namesOf ps := List.mem_map_of_mem _ h

theorem mem_aliveNames {ps : List Player} {p : Player} (h : p ∈ ps)
    (ha : p.alive = true) : p.name ∈ aliveNames ps :=
  List.mem_map_of_mem _ (List.mem_filter.mpr ⟨h, by simp [ha]⟩)

theorem aliveNames_cons (p : Player) (ps : List Player) :
    aliveNames (p :: ps) =
      if p.alive then p.name :: aliveNames ps else aliveNames ps := by
  simp only [aliveNames, List.filter_cons]
  cases hp : p.alive <;> simp

theorem aliveCount_cons (p : Player) (ps : List Player) :
    aliveCount (p :: ps) =
      (if p.alive then 1 else 0) + aliveCount ps := by
  simp only [aliveCount, List.filter_cons]
  cases hp : p.alive
  · simp
  · simp
    omega

theorem aliveNames_subset_of_updateFirst_kill {ps : List Player}
    {nm : String} :
    ∀ x ∈ aliveNames (updateFirst ps nm (fun p => { p with alive := false })),
      x ∈ aliveNames ps := by
  induction ps with
  | nil => intro x hx; exact absurd hx (by simp [updateFirst, aliveNames])
  | cons p ps ih =>
    intro x hx
    simp only [updateFirst] at hx
    by_cases hp : p.name = nm
    · rw [if_pos hp] at hx
      rw [aliveNames_cons] at hx
      simp only [if_neg (by simp : ¬(false = true))] at hx
      rw [aliveNames_cons]
      by_cases hq : p.alive <;> simp [hq, hx]
    · rw [if_neg hp] at hx
      rw [aliveNames_cons] at hx ⊢
      by_cases hq : p.alive
      · simp only [hq, if_pos] at hx ⊢
        simp only [List.mem_cons] at hx ⊢
        rcases hx with hx | hx
        · exact Or.inl hx
        · exact Or.inr (ih x hx)
      · simp only [hq] at hx ⊢
        simp only [Bool.false_eq_true, if_neg, not_false_eq_true] at hx ⊢
        exact ih x hx

theorem mem_namesOf_of_mem_aliveNames {ps : List Player} {nm : String}
    (h : nm ∈ aliveNames ps) : nm ∈ namesOf ps := by
  induction ps with
  | nil => exact absurd h (by simp [aliveNames])
  | cons p ps ih =>
    rw [aliveNames_cons] at h
    simp only [namesOf, List.map, List.mem_cons]
    by_cases hq : p.alive
    · simp only [hq, if_pos, List.mem_cons] at h
      rcases h with h | h
      · exact Or.inl h
      · exact Or.inr (ih h)
    · simp only [hq] at h
      simp only [Bool.false_eq_true, if_neg, not_false_eq_true] at h
      exact Or.inr (ih h)

theorem aliveCount_updateFirst_kill {ps : List Player} {nm : String}
    (hnodup : (namesOf ps).Nodup) (hmem : nm ∈ aliveNames ps) :
    aliveCount (updateFirst ps nm (fun p => { p with alive := false })) + 1 =
      aliveCount ps := by
  induction ps with
  | nil => exact absurd hmem (by simp [aliveNames])
  | cons p ps ih =>
    simp only [namesOf, List.map, List.nodup_cons] at hnodup
    simp only [updateFirst]
    by_cases hp : p.name = nm
    · rw [if_pos hp]
      have halive : p.alive = true := by
        by_contra hq
        simp only [Bool.not_eq_true] at hq
        rw [aliveNames_cons] at hmem
        simp only [hq, Bool.false_eq_true, if_neg, not_false_eq_true] at hmem
        exact hnodup.1 (hp ▸ mem_namesOf_of_mem_aliveNames hmem)
      have hdead : aliveCount
          (({ p with alive := false } : Player) :: ps) = aliveCount ps := by
        rw [aliveCount_cons]; simp
      rw [hdead, aliveCount_cons, if_pos halive]
      omega
    · rw [if_neg hp]
      have hmem' : nm ∈ aliveNames ps := by
        rw [aliveNames_cons] at hmem
        by_cases hq : p.alive
        · simp only [hq, if_pos, List.mem_cons] at hmem
          rcases hmem with hmem | hmem
          · exact absurd hmem.symm hp
          · exact hmem
        · simp only [hq] at hmem
          simpa using hmem
      have := ih hnodup.2 hmem'
      rw [aliveCount_cons, aliveCount_cons]
      omega

theorem pyChoice_ok_mem {G α : Type} {ops : RandOps G} {l : List α}
    {g g' : G} {a : α} (h : pyChoice ops l g = .ok (a, g')) : a ∈ l := by
  cases l with
  | nil => exact absurd h (by simp [pyChoice])
  | cons x xs =>
    simp only [pyChoice] at h
    cases h
    exact List.get_mem _ _ _

theorem pyChoices_ok_mem {G α : Type} {ops : RandOps G} {pop : List α}
    {w : List ℚ} {g g' : G} {a : α}
    (h : pyChoices ops pop w g = .ok (a, g')) : a ∈ pop := by
  simp only [pyChoices] at h
  split_ifs at h
  cases pop with
  | nil => exact absurd h (by simp)
  | cons x xs =>
    simp only [] at h
    cases h
    exact List.get_mem _ _ _

theorem mem_keysOf_dictSet_of_mem {κ β : Type} [DecidableEq κ]
    {d : List (κ × β)} {k k' : κ} {v : β} (h : k ∈ keysOf d) :
    k ∈ keysOf (dictSet d k' v) := by
  simp only [dictSet]
  split_ifs with hc
  · simp only [keysOf, List.map_map] at *
    obtain ⟨kv, hkv, hk⟩ := List.mem_map.mp h
    refine List.mem_map.mpr ⟨kv, hkv, ?_⟩
    simp only [Function.comp]
    by_cases he : kv.1 = k'
    · rw [if_pos he]
      show k' = k
      rw [← he]
      exact hk
    · rw [if_neg he]
      exact hk
  · simp only [keysOf, List.map_append] at *
    exact List.mem_append_left _ h

theorem self_mem_keysOf_dictSet {κ β : Type} [DecidableEq κ]
    {d : List (κ × β)} (k : κ) (v : β) : k ∈ keysOf (dictSet d k v) := by
  simp only [dictSet]
  split_ifs with hc
  · simp only [dictContains, Option.isSome_iff_exists] at hc
    obtain ⟨kv, hkv⟩ := hc
    have hmem := List.mem_of_find?_eq_some hkv
    have hk : kv.1 = k := by
      have := List.find?_some hkv
      simpa using this
    simp only [keysOf, List.map_map]
    refine List.mem_map.mpr ⟨kv, hmem, ?_⟩
    simp [Function.comp, hk]
  · simp [keysOf]

theorem keysOf_dictSet_subset {κ β : Type} [DecidableEq κ]
    {d : List (κ × β)} {k : κ} {v : β} :
    ∀ x ∈ keysOf (dictSet d k v), x ∈ keysOf d ∨ x = k := by
  intro x hx
  simp only [dictSet] at hx
  split_ifs at hx with hc
  · simp only [keysOf, List.map_map] at hx
    obtain ⟨kv, hkv, hk⟩ := List.mem_map.mp hx
    simp only [Function.comp] at hk
    by_cases he : kv.1 = k
    · rw [if_pos he] at hk
      exact Or.inr hk.symm
    · rw [if_neg he] at hk
      exact Or.inl (List.mem_map.mpr ⟨kv, hkv, hk⟩)
  · simp only [keysOf, List.map_append, List.mem_append] at hx
    rcases hx with hx | hx
    · exact Or.inl hx
    · simp only [List.map, List.mem_singleton] at hx
      exact Or.inr hx

theorem dictSet_ne_nil {κ β : Type} [DecidableEq κ]
    {d : List (κ × β)} {k : κ} {v : β} : dictSet d k v ≠ [] := by
  simp only [dictSet]
  split_ifs with hc
  · intro h
    cases d with
    | nil => simp [dictContains] at hc
    | cons kv rest => simp at h
  · simp

theorem foldMax_mem {κ β : Type} [LinearOrder β] :
    ∀ (l : List (κ × β)) (acc : Option (κ × β)) (kv : κ × β),
      l.foldl (fun acc kv => match acc with
        | none => some kv
        | some best => if best.2 < kv.2 then some kv else some best) acc =
          some kv →
      acc = some kv ∨ kv ∈ l := by
  intro l
  induction l with
  | nil => intro acc kv h; exact Or.inl h
  | cons x xs ih =>
    intro acc kv h
    simp only [List.foldl_cons] at h
    rcases ih _ kv h with hacc | hmem
    · cases acc with
      | none =>
        simp only [] at hacc
        cases hacc
        exact Or.inr (List.mem_cons_self _ _)
      | some best =>
        simp only [] at hacc
        split_ifs at hacc with hlt
        · cases hacc
          exact Or.inr (List.mem_cons_self _ _)
        · exact Or.inl hacc
    · exact Or.inr (List.mem_cons_of_mem _ hmem)

theorem maxKeyFirst_mem {κ β : Type} [LinearOrder β] {d : List (κ × β)}
    {k : κ} (h : maxKeyFirst d = some k) : k ∈ keysOf d := by
  simp only [maxKeyFirst, Option.map_eq_some'] at h
  obtain ⟨kv, hfold, hk⟩ := h
  rcases foldMax_mem d none kv hfold with hacc | hmem
  · exact absurd hacc (by simp)
  · exact hk ▸ List.mem_map.mpr ⟨kv, hmem, rfl⟩

theorem maxKeyFirst_ne_nil {κ β : Type} [LinearOrder β]
    {d : List (κ × β)} (h : d ≠ []) : ∃ k, maxKeyFirst d = some k := by
  have key : ∀ (l : List (κ × β)) (kv₀ : κ × β),
      ∃ kv, l.foldl (fun acc kv => match acc with
        | none => some kv
        | some best => if best.2 < kv.2 then some kv else some best)
          (some kv₀) = some kv := by
    intro l
    induction l with
    | nil => intro kv₀; exact ⟨kv₀, rfl⟩
    | cons x xs ih =>
      intro kv₀
      simp only [List.foldl_cons]
      split_ifs
      · exact ih x
      · exact ih kv₀
  cases d with
  | nil => exact absurd rfl h
  | cons x xs =>
    obtain ⟨kv, hkv⟩ := key xs x
    exact ⟨kv.1, by simp [maxKeyFirst, List.foldl_cons, hkv]⟩

theorem scoresLoop_ok_keys {G : Type} {ops : RandOps G}
    {voters : List Player} {alliances : List (String × List String)}
    {pn : List String} {compat : List (List ℚ)} {r : ℚ} {pre : Bool}
    {cw sw socw loy : ℚ} :
    ∀ {cands : List Player} {acc : List (String × ℚ)} {g g' : G}
      {scores : List (String × ℚ)},
      scoresLoop ops voters alliances pn compat r pre cw sw socw loy cands
        acc g = .ok (scores, g') →
      ∀ x ∈ keysOf scores, x ∈ keysOf acc ∨ x ∈ namesOf cands := by
  intro cands
  induction cands with
  | nil =>
    intro acc g g' scores h x hx
    simp only [scoresLoop, PyM.pure_apply] at h
    cases h
    exact Or.inl hx
  | cons t ts ih =>
    intro acc g g' scores h x hx
    simp only [scoresLoop] at h
    split_ifs at h with hskip
    · rcases ih h x hx with h' | h'
      · exact Or.inl h'
      · exact Or.inr (List.mem_cons_of_mem _ h')
    · rw [PyM.bind_ok_iff] at h
      obtain ⟨s, g₁, hs, hrec⟩ := h
      rcases ih hrec x hx with h' | h'
      · rcases keysOf_dictSet_subset x h' with h'' | h''
        · exact Or.inl h''
        · exact Or.inr (h'' ▸ List.mem_cons_self _ _)
      · exact Or.inr (List.mem_cons_of_mem _ h')

theorem determineTarget_ok {G : Type} {ops : RandOps G}
    {voters cands : List Player} {alliances : List (String × List String)}
    {pn : List String} {compat : List (List ℚ)} {r : ℚ} {pre : Bool}
    {cw sw socw loy : ℚ} {g g' : G} {res : Option String}
    (h : determineTarget ops voters cands alliances pn compat r pre cw sw
      socw loy g = .ok (res, g')) :
    (∀ t, res = some t → t ∈ namesOf cands) ∧
      (cands ≠ [] → ∃ t, res = some t) := by
  cases cands with
  | nil =>
    simp only [determineTarget, PyM.pure_apply] at h
    cases h
    exact ⟨fun t ht => (by cases ht), fun hne => absurd rfl hne⟩
  | cons c cs =>
    simp only [determineTarget] at h
    rw [PyM.bind_ok_iff] at h
    obtain ⟨scores, g₁, hsl, hrest⟩ := h
    have hkeys := scoresLoop_ok_keys hsl
    cases scores with
    | nil =>
      simp only [] at hrest
      rw [PyM.bind_ok_iff] at hrest
      obtain ⟨c', g₂, hcp, hpure⟩ := hrest
      simp only [PyM.pure_apply] at hpure
      cases hpure
      refine ⟨fun t ht => ?_, fun _ => ⟨c'.name, rfl⟩⟩
      cases ht
      exact mem_namesOf (pyChoice_ok_mem hcp)
    | cons kv kvs =>
      simp only [] at hrest
      split_ifs at hrest with hsum
      · rw [PyM.bind_ok_iff] at hrest
        obtain ⟨n, g₂, hcp, hpure⟩ := hrest
        simp only [PyM.pure_apply] at hpure
        cases hpure
        refine ⟨fun t ht => ?_, fun _ => ⟨n, rfl⟩⟩
        cases ht
        have hn : n ∈ keysOf (kv :: kvs) := pyChoice_ok_mem hcp
        rcases hkeys n hn with h' | h'
        · exact absurd h' (by simp [keysOf])
        · exact h'
      · rw [PyM.bind_ok_iff] at hrest
        obtain ⟨n, g₂, hcp, hpure⟩ := hrest
        simp only [PyM.pure_apply] at hpure
        cases hpure
        refine ⟨fun t ht => ?_, fun _ => ⟨n, rfl⟩⟩
        cases ht
        have hn : n ∈ keysOf (kv :: kvs) := pyChoices_ok_mem hcp
        rcases hkeys n hn with h' | h'
        · exact absurd h' (by simp [keysOf])
        · exact h'

theorem mem_dictSet {κ β : Type} [DecidableEq κ] {d : List (κ × β)}
    {k : κ} {v : β} : ∀ kv ∈ dictSet d k v, kv ∈ d ∨ kv = (k, v) := by
  intro kv hkv
  simp only [dictSet] at hkv
  split_ifs at hkv with hc
  · obtain ⟨kv₀, hkv₀, hk⟩ := List.mem_map.mp hkv
    by_cases he : kv₀.1 = k
    · rw [if_pos he] at hk
      exact Or.inr hk.symm
    · rw [if_neg he] at hk
      exact Or.inl (hk ▸ hkv₀)
  · rcases List.mem_append.mp hkv with h | h
    · exact Or.inl h
    · exact Or.inr (List.mem_singleton.mp h)

/-- Inner vote-fold of `collectVotes`: each binding is either old or one of
the fresh voter→target assignments. -/
theorem voteFold_mem {voterNames : List String} {target : String} :
    ∀ {votes : List (String × String)},
      ∀ kv ∈ voterNames.foldl (fun v vn => dictSet v vn target) votes,
        kv ∈ votes ∨ (kv.1 ∈ voterNames ∧ kv.2 = target) := by
  induction voterNames with
  | nil => intro votes kv hkv; exact Or.inl hkv
  | cons vn vns ih =>
    intro votes kv hkv
    simp only [List.foldl_cons] at hkv
    rcases ih kv hkv with h | h
    · rcases mem_dictSet kv h with h' | h'
      · exact Or.inl h'
      · refine Or.inr ⟨?_, ?_⟩
        · rw [h']; exact List.mem_cons_self _ _
        · rw [h']
    · exact Or.inr ⟨List.mem_cons_of_mem _ h.1, h.2⟩

theorem voteFold_keys_mono {voterNames : List String} {target : String} :
    ∀ {votes : List (String × String)} {k : String}, k ∈ keysOf votes →
      k ∈ keysOf (voterNames.foldl (fun v vn => dictSet v vn target) votes) := by
  induction voterNames with
  | nil => intro votes k hk; exact hk
  | cons vn vns ih =>
    intro votes k hk
    simp only [List.foldl_cons]
    exact ih (mem_keysOf_dictSet_of_mem hk)

theorem voteFold_keys_self {voterNames : List String} {target : String} :
    ∀ {votes : List (String × String)} {vn : String}, vn ∈ voterNames →
      vn ∈ keysOf (voterNames.foldl (fun v vn => dictSet v vn target) votes) := by
  induction voterNames with
  | nil => intro votes vn h; exact absurd h (by simp)
  | cons v0 vns ih =>
    intro votes vn h
    simp only [List.foldl_cons]
    rcases List.mem_cons.mp h with rfl | h
    · exact voteFold_keys_mono (self_mem_keysOf_dictSet vn target)
    · exact ih h

theorem collectVotes_mem {entries : List (String × (String × List String))} :
    ∀ kv ∈ collectVotes entries,
      ∃ e ∈ entries, kv.1 ∈ e.2.2 ∧ kv.2 = e.2.1 := by
  have key : ∀ (es : List (String × (String × List String)))
      (acc : List (String × String)),
      ∀ kv ∈ es.foldl
        (fun votes e => e.2.2.foldl (fun v vn => dictSet v vn e.2.1) votes)
        acc,
      kv ∈ acc ∨ ∃ e ∈ es, kv.1 ∈ e.2.2 ∧ kv.2 = e.2.1 := by
    intro es
    induction es with
    | nil => intro acc kv hkv; exact Or.inl hkv
    | cons e es ih =>
      intro acc kv hkv
      simp only [List.foldl_cons] at hkv
      rcases ih _ kv hkv with h | h
      · rcases voteFold_mem kv h with h' | h'
        · exact Or.inl h'
        · exact Or.inr ⟨e, List.mem_cons_self _ _, h'⟩
      · obtain ⟨e', he', hkv'⟩ := h
        exact Or.inr ⟨e', List.mem_cons_of_mem _ he', hkv'⟩
  intro kv hkv
  rcases key entries [] kv hkv with h | h
  · exact absurd h (by simp)
  · exact h

theorem collectVotes_keys_covers
    {entries : List (String × (String × List String))} {vn : String}
    (h : ∃ e ∈ entries, vn ∈ e.2.2) : vn ∈ keysOf (collectVotes entries) := by
  have key : ∀ (es : List (String × (String × List String)))
      (acc : List (String × String)),
      (vn ∈ keysOf acc ∨ ∃ e ∈ es, vn ∈ e.2.2) →
      vn ∈ keysOf (es.foldl
        (fun votes e => e.2.2.foldl (fun v vn => dictSet v vn e.2.1) votes)
        acc) := by
    intro es
    induction es with
    | nil =>
      intro acc h
      rcases h with h | ⟨e, he, _⟩
      · exact h
      · exact absurd he (by simp)
    | cons e es ih =>
      intro acc h
      simp only [List.foldl_cons]
      rcases h with h | ⟨e', he', hvn⟩
      · exact ih _ (Or.inl (voteFold_keys_mono h))
      · rcases List.mem_cons.mp he' with rfl | he'
        · exact ih _ (Or.inl (voteFold_keys_self hvn))
        · exact ih _ (Or.inr ⟨e', he', hvn⟩)
  exact key entries [] (Or.inr h)

theorem countVotes_keys {votes : List (String × String)} :
    ∀ k ∈ keysOf (countVotes votes), ∃ kv ∈ votes, kv.2 = k := by
  have key : ∀ (ts : List String) (acc : List (String × ℕ)),
      ∀ k ∈ keysOf (ts.foldl
        (fun counts t => dictSet counts t (dictGetD counts t 0 + 1)) acc),
      k ∈ keysOf acc ∨ k ∈ ts := by
    intro ts
    induction ts with
    | nil => intro acc k hk; exact Or.inl hk
    | cons t ts ih =>
      intro acc k hk
      simp only [List.foldl_cons] at hk
      rcases ih _ k hk with h | h
      · rcases keysOf_dictSet_subset k h with h' | h'
        · exact Or.inl h'
        · exact Or.inr (h' ▸ List.mem_cons_self _ _)
      · exact Or.inr (List.mem_cons_of_mem _ h)
  intro k hk
  have hk' : k ∈ keysOf ((votes.map (·.2)).foldl
      (fun counts t => dictSet counts t (dictGetD counts t 0 + 1)) []) := hk
  rcases key (votes.map (·.2)) [] k hk' with h | h
  · exact absurd h (by simp [keysOf])
  · obtain ⟨kv, hkv, hk'⟩ := List.mem_map.mp h
    exact ⟨kv, hkv, hk'⟩

theorem allianceVotesLoop_ok_entries {G : Type} {ops : RandOps G}
    {eV eT : List Player} {alliances : List (String × List String)}
    {pn : List String} {compat : List (List ℚ)} {r : ℚ} {pre : Bool}
    {cw sw socw loy : ℚ} :
    ∀ {aList : List (String × List String)} {g g' : G}
      {entries : List (String × (String × List String))},
      allianceVotesLoop ops eV eT alliances pn compat r pre cw sw socw loy
        aList g = .ok (entries, g') →
      ∀ e ∈ entries, e.2.1 ∈ namesOf eT ∧ ∀ vn ∈ e.2.2, vn ∈ namesOf eV := by
  intro aList
  induction aList with
  | nil =>
    intro g g' entries h e he
    simp only [allianceVotesLoop, PyM.pure_apply] at h
    cases h
    exact absurd he (by simp)
  | cons a rest ih =>
    intro g g' entries h e he
    obtain ⟨aid, members⟩ := a
    simp only [allianceVotesLoop] at h
    cases hfil : eV.filter (fun p => decide (p.name ∈ members)) with
    | nil =>
      rw [hfil] at h
      exact ih h e he
    | cons v0 vs =>
      rw [hfil] at h
      rw [PyM.bind_ok_iff] at h
      obtain ⟨target?, g₁, htgt, hrest⟩ := h
      rw [PyM.bind_ok_iff] at hrest
      obtain ⟨restEntries, g₂, hrec, hfin⟩ := hrest
      have hihAll := ih hrec
      cases target? with
      | none =>
        simp only [PyM.pure_apply] at hfin
        cases hfin
        exact hihAll e he
      | some t =>
        simp only [] at hfin
        split_ifs at hfin
        · simp only [PyM.pure_apply] at hfin
          cases hfin
          exact hihAll e he
        · simp only [PyM.pure_apply] at hfin
          cases hfin
          rcases List.mem_cons.mp he with rfl | he'
          · constructor
            · exact (determineTarget_ok htgt).1 t rfl
            · intro vn hvn
              simp only [] at hvn
              obtain ⟨p, hp, hpn⟩ := List.mem_map.mp hvn
              have : p ∈ eV := List.mem_of_mem_filter (hfil ▸ hp)
              exact hpn ▸ mem_namesOf this
          · exact hihAll e he'

theorem allianceVotesLoop_ok_covers {G : Type} {ops : RandOps G}
    {eV eT : List Player} {alliances : List (String × List String)}
    {pn : List String} {compat : List (List ℚ)} {r : ℚ} {pre : Bool}
    {cw sw socw loy : ℚ} (hT : eT ≠ [])
    (hname : ∀ p ∈ eT, ¬p.name = "") :
    ∀ {aList : List (String × List String)} {g g' : G}
      {entries : List (String × (String × List String))},
      allianceVotesLoop ops eV eT alliances pn compat r pre cw sw socw loy
        aList g = .ok (entries, g') →
      ∀ a ∈ aList, ∀ v ∈ eV, v.name ∈ a.2 →
        ∃ e ∈ entries, v.name ∈ e.2.2 := by
  intro aList
  induction aList with
  | nil =>
    intro g g' entries _ a ha
    exact absurd ha (by simp)
  | cons a0 rest ih =>
    intro g g' entries h a ha v hv hvm
    obtain ⟨aid, members⟩ := a0
    simp only [allianceVotesLoop] at h
    cases hfil : eV.filter (fun p => decide (p.name ∈ members)) with
    | nil =>
      rw [hfil] at h
      rcases List.mem_cons.mp ha with rfl | ha'
      · exfalso
        have : v ∈ eV.filter (fun p => decide (p.name ∈ members)) :=
          List.mem_filter.mpr ⟨hv, by simpa using hvm⟩
        rw [hfil] at this
        exact absurd this (by simp)
      · exact ih h a ha' v hv hvm
    | cons v0 vs =>
      rw [hfil] at h
      rw [PyM.bind_ok_iff] at h
      obtain ⟨target?, g₁, htgt, hrest⟩ := h
      rw [PyM.bind_ok_iff] at hrest
      obtain ⟨restEntries, g₂, hrec, hfin⟩ := hrest
      obtain ⟨t, rfl⟩ := (determineTarget_ok htgt).2 hT
      have htmem : t ∈ namesOf eT := (determineTarget_ok htgt).1 t rfl
      have htne : ¬t = "" := by
        obtain ⟨p, hp, hpn⟩ := List.mem_map.mp htmem
        exact hpn ▸ hname p hp
      simp only [] at hfin
      rw [if_neg htne] at hfin
      simp only [PyM.pure_apply] at hfin
      cases hfin
      rcases List.mem_cons.mp ha with rfl | ha'
      · refine ⟨(aid, (t, (v0 :: vs).map (·.name))), List.mem_cons_self _ _,
          ?_⟩
        have hvf : v ∈ eV.filter (fun p => decide (p.name ∈ members)) :=
          List.mem_filter.mpr ⟨hv, by simpa using hvm⟩
        rw [hfil] at hvf
        exact List.mem_map.mpr ⟨v, hvf, rfl⟩
      · obtain ⟨e, he, hvn⟩ := ih hrec a ha' v hv hvm
        exact ⟨e, List.mem_cons_of_mem _ he, hvn⟩

theorem updateFirst_invariant {P : Player → Prop} {ps : List Player}
    {nm : String} {f : Player → Player} (hf : ∀ p, P p → P (f p))
    (h : ∀ p ∈ ps, P p) : ∀ p ∈ updateFirst ps nm f, P p := by
  induction ps with
  | nil => intro p hp; exact absurd hp (by simp [updateFirst])
  | cons q qs ih =>
    intro p hp
    simp only [updateFirst] at hp
    split_ifs at hp with hq
    · rcases List.mem_cons.mp hp with rfl | hp'
      · exact hf q (h q (List.mem_cons_self _ _))
      · exact h p (List.mem_cons_of_mem _ hp')
    · rcases List.mem_cons.mp hp with rfl | hp'
      · exact h p (List.mem_cons_self _ _)
      · exact ih (fun p hp => h p (List.mem_cons_of_mem _ hp)) p hp'

/-- The advantage invariant of C10: never transferred, and non-idols never
played. -/
def AdvInv (a : Advantage) : Prop :=
  a.transferred = false ∧ (a.type ≠ AdvantageType.IDOL → a.played = false)

theorem markFirstUnplayedIdol_inv {advs : List Advantage}
    (h : ∀ a ∈ advs, AdvInv a) :
    ∀ a ∈ markFirstUnplayedIdol advs, AdvInv a := by
  induction advs with
  | nil => intro a ha; exact absurd ha (by simp [markFirstUnplayedIdol])
  | cons a0 rest ih =>
    intro a ha
    simp only [markFirstUnplayedIdol] at ha
    split_ifs at ha with hidol
    · rcases List.mem_cons.mp ha with rfl | ha'
      · have := h a0 (List.mem_cons_self _ _)
        exact ⟨this.1, fun hne => absurd hidol.1 hne⟩
      · exact h a (List.mem_cons_of_mem _ ha')
    · rcases List.mem_cons.mp ha with rfl | ha'
      · exact h a (List.mem_cons_self _ _)
      · exact ih (fun a ha => h a (List.mem_cons_of_mem _ ha)) a ha'

theorem shouldPlayIdol_no_idols {G : Type} {ops : RandOps G} {p : Player}
    {va tv : ℕ} {tl : ℚ} {pr : ℕ} (hadv : p.advantages = []) (g : G) :
    shouldPlayIdol ops p va tv tl pr g = .ok (false, g) := by
  simp [shouldPlayIdol, hadv, List.filter, PyM.pure_apply]

theorem idolStep_ok {G : Type} {ops : RandOps G} {players : List Player}
    {ac : ℕ} {votes : List (String × String)}
    {voteCounts : List (String × ℕ)} {g g₁ : G}
    {step : List PlayedRec × List Player × List (String × ℕ)}
    (h : idolStep ops players ac votes voteCounts g = .ok (step, g₁)) :
    skel step.2.1 = skel players ∧
    (step.2.2 = voteCounts ∨
      ∃ top, top ∈ keysOf voteCounts ∧ step.2.2 = dictSet voteCounts top 0) ∧
    (∀ rec ∈ step.1, rec.advantage = "Idol") ∧
    ((∀ p ∈ players, ∀ a ∈ p.advantages, AdvInv a) →
      ∀ p ∈ step.2.1, ∀ a ∈ p.advantages, AdvInv a) ∧
    ((∀ p ∈ players, p.advantages = []) →
      step.2.1 = players ∧ step.1 = []) := by
  simp only [idolStep] at h
  cases hmax : maxKeyFirst voteCounts with
  | none =>
    rw [hmax] at h
    simp only [PyM.pure_apply] at h
    cases h
    exact ⟨rfl, Or.inl rfl, by simp, fun hq => hq, fun _ => ⟨rfl, rfl⟩⟩
  | some top =>
    rw [hmax] at h
    dsimp only [] at h
    cases hfind : players.find? (fun p => p.name = top) with
    | none =>
      rw [hfind] at h
      simp only [PyM.pure_apply] at h
      cases h
      exact ⟨rfl, Or.inl rfl, by simp, fun hq => hq, fun _ => ⟨rfl, rfl⟩⟩
    | some tp =>
      rw [hfind] at h
      dsimp only [] at h
      rw [PyM.bind_ok_iff] at h
      obtain ⟨doPlay, g₂, hplay, hcont⟩ := h
      cases doPlay with
      | false =>
        rw [if_neg (by simp : ¬(false = true))] at hcont
        simp only [PyM.pure_apply] at hcont
        cases hcont
        exact ⟨rfl, Or.inl rfl, by simp, fun hq => hq, fun _ => ⟨rfl, rfl⟩⟩
      | true =>
        rw [if_pos rfl] at hcont
        by_cases hidol : hasUnplayedIdol tp.advantages = true
        · rw [if_pos hidol] at hcont
          simp only [PyM.pure_apply] at hcont
          cases hcont
          refine ⟨skel_updateFirst (fun p => ⟨rfl, rfl⟩),
            Or.inr ⟨top, maxKeyFirst_mem hmax, rfl⟩, ?_, ?_, ?_⟩
          · intro rec hrec
            rcases List.mem_singleton.mp hrec with rfl
            rfl
          · intro hq
            refine updateFirst_invariant ?_ hq
            intro p hp a ha
            exact markFirstUnplayedIdol_inv hp a ha
          · intro hempty
            exfalso
            have htpmem : tp ∈ players := List.mem_of_find?_eq_some hfind
            have hadv : tp.advantages = [] := hempty tp htpmem
            rw [hadv] at hidol
            simp [hasUnplayedIdol] at hidol
        · rw [if_neg hidol] at hcont
          simp only [PyM.pure_apply] at hcont
          cases hcont
          exact ⟨rfl, Or.inl rfl, by simp, fun hq => hq, fun _ => ⟨rfl, rfl⟩⟩

theorem tribalResolve_ok {G : Type} {ops : RandOps G} {players : List Player}
    {ac : ℕ} {votes : List (String × String)}
    {voteCounts : List (String × ℕ)} {eT : List Player} {g g' : G}
    {res : List PlayedRec × List Player × List (String × ℕ) × String}
    (h : tribalResolve ops players ac votes voteCounts eT g = .ok (res, g')) :
    skel res.2.1 = skel players ∧
    (res.2.2.2 ∈ keysOf voteCounts ∨ res.2.2.2 ∈ namesOf eT) ∧
    (∀ k ∈ keysOf res.2.2.1, k ∈ keysOf voteCounts) ∧
    (∀ rec ∈ res.1, rec.advantage = "Idol") ∧
    ((∀ p ∈ players, ∀ a ∈ p.advantages, AdvInv a) →
      ∀ p ∈ res.2.1, ∀ a ∈ p.advantages, AdvInv a) ∧
    ((∀ p ∈ players, p.advantages = []) →
      res.2.1 = players ∧ res.1 = []) := by
  simp only [tribalResolve] at h
  rw [PyM.bind_ok_iff] at h
  obtain ⟨step, g₁, hstep, hfin⟩ := h
  obtain ⟨hskel, hcounts, hplayed, hinv, hempty⟩ := idolStep_ok hstep
  have hkeys' : ∀ k ∈ keysOf step.2.2, k ∈ keysOf voteCounts := by
    intro k hk
    rcases hcounts with hc | ⟨top, htop, hc⟩
    · exact hc ▸ hk
    · rw [hc] at hk
      rcases keysOf_dictSet_subset k hk with h' | h'
      · exact h'
      · exact h' ▸ htop
  cases hmax2 : maxKeyFirst step.2.2 with
  | some elim =>
    rw [hmax2] at hfin
    simp only [PyM.pure_apply] at hfin
    cases hfin
    exact ⟨hskel, Or.inl (hkeys' elim (maxKeyFirst_mem hmax2)), hkeys',
      hplayed, hinv, fun he => ⟨(hempty he).1, (hempty he).2⟩⟩
  | none =>
    rw [hmax2] at hfin
    rw [PyM.bind_ok_iff] at hfin
    obtain ⟨t, g₂, hcp, hpure⟩ := hfin
    simp only [PyM.pure_apply] at hpure
    cases hpure
    exact ⟨hskel, Or.inr (mem_namesOf (pyChoice_ok_mem hcp)), hkeys',
      hplayed, hinv, fun he => ⟨(hempty he).1, (hempty he).2⟩⟩

theorem namesOf_filter_subset {l : List Player} {q : Player → Bool} :
    ∀ x ∈ namesOf (l.filter q), x ∈ namesOf l := by
  intro x hx
  obtain ⟨p, hp, hpx⟩ := List.mem_map.mp hx
  exact hpx ▸ mem_namesOf (List.mem_of_mem_filter hp)

theorem simulateTribalCouncil_ok {G : Type} {ops : RandOps G}
    {players : List Player} {alliances : List (String × List String)}
    {pn : List String} {compat : List (List ℚ)} {cw sw socw loy r : ℚ}
    {g g' : G} {tcr : TCResult} {players' : List Player}
    (h : simulateTribalCouncil ops players alliances pn compat cw sw socw loy
      r g = .ok ((tcr, players'), g')) :
    skel players' = skel players ∧
    tcr.eliminated ∈ aliveNames players ∧
    (∀ k ∈ keysOf tcr.vote_counts,
      k ∈ namesOf ((players.filter (·.alive)).filter (fun p => !p.immune))) ∧
    (∀ kv ∈ tcr.votes,
      kv.2 ∈ namesOf ((players.filter (·.alive)).filter (fun p => !p.immune))) ∧
    (1 < ((players.filter (·.alive)).filter (·.immune)).length →
      ∀ kv ∈ tcr.votes,
        kv.1 ∈ namesOf ((players.filter (·.alive)).filter (fun p => !p.immune))) ∧
    (¬(1 < ((players.filter (·.alive)).filter (·.immune)).length) →
      (players.filter (·.alive)).filter (fun p => !p.immune) ≠ [] →
      (∀ p ∈ players, ¬p.name = "") →
      ∀ v ∈ players, v.alive = true → (∃ a ∈ alliances, v.name ∈ a.2) →
        v.name ∈ keysOf tcr.votes) ∧
    (∀ rec ∈ tcr.advantages_played, rec.advantage = "Idol") ∧
    ((∀ p ∈ players, ∀ a ∈ p.advantages, AdvInv a) →
      ∀ p ∈ players', ∀ a ∈ p.advantages, AdvInv a) ∧
    ((∀ p ∈ players, p.advantages = []) →
      players' = players ∧ tcr.advantages_played = []) := by
  simp only [simulateTribalCouncil] at h
  rw [PyM.bind_ok_iff] at h
  obtain ⟨entries, g₁, hloop, h⟩ := h
  rw [PyM.bind_ok_iff] at h
  obtain ⟨resolved, g₂, hres, hpure⟩ := h
  simp only [PyM.pure_apply] at hpure
  cases hpure
  obtain ⟨hskel, helim, hcntKeys, hplayed, hinv, hempty⟩ := tribalResolve_ok hres
  have hEntries := allianceVotesLoop_ok_entries hloop
  have hVal : ∀ kv ∈ collectVotes entries,
      kv.2 ∈ namesOf ((players.filter (·.alive)).filter (fun p => !p.immune)) := by
    intro kv hkv
    obtain ⟨e, he, _, hkv2⟩ := collectVotes_mem kv hkv
    exact hkv2 ▸ (hEntries e he).1
  have hCntKeys2 : ∀ k ∈ keysOf (countVotes (collectVotes entries)),
      k ∈ namesOf ((players.filter (·.alive)).filter (fun p => !p.immune)) := by
    intro k hk
    obtain ⟨kv, hkv, hkv2⟩ := countVotes_keys k hk
    exact hkv2 ▸ hVal kv hkv
  refine ⟨hskel, ?_, ?_, hVal, ?_, ?_, hplayed, hinv,
    fun he => ⟨(hempty he).1, (hempty he).2⟩⟩
  · rcases helim with he | he
    · exact namesOf_filter_subset _ (hCntKeys2 _ he)
    · exact namesOf_filter_subset _ he
  · intro k hk
    exact hCntKeys2 k (hcntKeys k hk)
  · intro hpre kv hkv
    obtain ⟨e, he, hkv1, _⟩ := collectVotes_mem kv hkv
    have hV := (hEntries e he).2 kv.1 hkv1
    rw [if_pos hpre] at hV
    exact hV
  · intro hpost hTne hnames v hv hva hcov
    have hVmem : v ∈ (if
        1 < ((players.filter (·.alive)).filter (·.immune)).length then
        (players.filter (·.alive)).filter (fun p => !p.immune)
      else players.filter (·.alive)) := by
      rw [if_neg hpost]
      exact List.mem_filter.mpr ⟨hv, by simp [hva]⟩
    have hnames' : ∀ p ∈ (players.filter (·.alive)).filter
        (fun p => !p.immune), ¬p.name = "" := by
      intro p hp
      exact hnames p (List.mem_of_mem_filter (List.mem_of_mem_filter hp))
    obtain ⟨a, ha, hva'⟩ := hcov
    obtain ⟨e, he, hve⟩ :=
      allianceVotesLoop_ok_covers hTne hnames' hloop a ha v hVmem hva'
    exact collectVotes_keys_covers ⟨e, he, hve⟩

theorem map_invariant {P : Player → Prop} {ps : List Player}
    {f : Player → Player} (hf : ∀ p, P p → P (f p)) (h : ∀ p ∈ ps, P p) :
    ∀ p ∈ ps.map f, P p := by
  intro p hp
  obtain ⟨q, hq, hqp⟩ := List.mem_map.mp hp
  exact hqp ▸ hf q (h q hq)

theorem attemptIdolSearch_nonpos {G : Type} {ops : RandOps G} {p : Player}
    {avail : ℤ} {r : ℚ} (h : avail ≤ 0) (g : G) :
    attemptIdolSearch ops p avail r g = .ok (none, g) := by
  simp [attemptIdolSearch, if_pos h, PyM.pure_apply]

theorem attemptIdolSearch_ok_some {G : Type} {ops : RandOps G} {p : Player}
    {avail : ℤ} {r : ℚ} {g g' : G} {adv : Advantage}
    (h : attemptIdolSearch ops p avail r g = .ok (some adv, g')) :
    0 < avail ∧ adv.played = false ∧ adv.transferred = false ∧
      adv.owner = p.name := by
  simp only [attemptIdolSearch] at h
  split_ifs at h with hpos
  · simp only [PyM.pure_apply] at h
    cases h
  · rw [PyM.bind_ok_iff] at h
    obtain ⟨rf, g₁, _, h⟩ := h
    rw [PyM.bind_ok_iff] at h
    obtain ⟨roll, g₂, _, h⟩ := h
    split_ifs at h with hroll
    · rw [PyM.bind_ok_iff] at h
      obtain ⟨advType, g₃, _, h⟩ := h
      simp only [PyM.pure_apply] at h
      cases h
      exact ⟨by omega, rfl, rfl, rfl⟩
    · simp only [PyM.pure_apply] at h
      cases h

theorem searchLoop_nonpos {G : Type} {ops : RandOps G} {players : List Player}
    {avail : ℤ} (h : avail ≤ 0) :
    ∀ (ss : List Player) (found : List FoundRec) (g : G),
      searchLoop ops ss players avail found g = .ok ((found, players, avail), g) := by
  intro ss
  induction ss with
  | nil => intro found g; rfl
  | cons s0 rest ih =>
    intro found g
    simp only [searchLoop]
    split_ifs with hcap
    · rfl
    · show ((attemptIdolSearch ops s0 avail 0.3) >>= _) g = _
      rw [PyM.bind_apply, attemptIdolSearch_nonpos h]
      exact ih found g

theorem searchLoop_ok {G : Type} {ops : RandOps G} :
    ∀ {ss : List Player} {players : List Player} {avail : ℤ}
      {found : List FoundRec} {g g' : G}
      {out : List FoundRec × List Player × ℤ},
      searchLoop ops ss players avail found g = .ok (out, g') →
      out.1.length ≤ max found.length 2 ∧
      out.2.2 + out.1.length = avail + found.length ∧
      (0 ≤ avail → 0 ≤ out.2.2) ∧
      skel out.2.1 = skel players ∧
      ((∀ p ∈ players, ∀ a ∈ p.advantages, AdvInv a) →
        ∀ p ∈ out.2.1, ∀ a ∈ p.advantages, AdvInv a) := by
  intro ss
  induction ss with
  | nil =>
    intro players avail found g g' out h
    simp only [searchLoop, PyM.pure_apply] at h
    cases h
    exact ⟨le_max_left _ _, by push_cast; ring, fun h0 => h0, rfl,
      fun hq => hq⟩
  | cons s0 rest ih =>
    intro players avail found g g' out h
    simp only [searchLoop] at h
    split_ifs at h with hcap
    · simp only [PyM.pure_apply] at h
      cases h
      exact ⟨le_max_left _ _, by push_cast; ring, fun h0 => h0, rfl,
        fun hq => hq⟩
    · rw [PyM.bind_ok_iff] at h
      obtain ⟨adv?, g₁, hatt, hrec⟩ := h
      cases adv? with
      | none =>
        exact ih hrec
      | some adv =>
        dsimp only [] at hrec
        obtain ⟨hpos, hplayedF, htransF, _⟩ := attemptIdolSearch_ok_some hatt
        obtain ⟨hlen, hsum, hnn, hskel, hinv⟩ := ih hrec
        push_neg at hcap
        refine ⟨?_, ?_, ?_, ?_, ?_⟩
        · rw [List.length_append, List.length_singleton] at hlen
          omega
        · rw [List.length_append, List.length_singleton] at hsum
          push_cast at hsum ⊢
          omega
        · intro h0
          exact hnn (by omega)
        · rw [hskel]
          exact skel_updateFirst (fun p => ⟨rfl, rfl⟩)
        · intro hq
          refine hinv (updateFirst_invariant ?_ hq)
          intro p hp a ha
          rcases List.mem_append.mp ha with ha' | ha'
          · exact hp a ha'
          · rcases List.mem_singleton.mp ha' with rfl
            exact ⟨htransF, fun _ => hplayedF⟩

theorem idolSearchPhase_ok {G : Type} {ops : RandOps G} {ctx : SimCtx}
    {s : SimState} {g g' : G} {found : List FoundRec} {s' : SimState}
    (h : idolSearchPhase ops ctx s g = .ok ((found, s'), g')) :
    found.length ≤ 2 ∧
    s'.availableIdols + found.length = s.availableIdols ∧
    (0 ≤ s.availableIdols → 0 ≤ s'.availableIdols) ∧
    skel s'.players = skel s.players ∧
    s'.episodes = s.episodes ∧ s'.merged = s.merged ∧
    s'.currentDay = s.currentDay ∧ s'.alliances = s.alliances ∧
    ((∀ p ∈ s.players, ∀ a ∈ p.advantages, AdvInv a) →
      ∀ p ∈ s'.players, ∀ a ∈ p.advantages, AdvInv a) ∧
    (s.availableIdols ≤ 0 → found = [] ∧ s'.players = s.players) := by
  simp only [idolSearchPhase] at h
  rw [PyM.bind_ok_iff] at h
  obtain ⟨searchers, g₁, hfil, h⟩ := h
  rw [PyM.bind_ok_iff] at h
  obtain ⟨out, g₂, hloop, hpure⟩ := h
  simp only [PyM.pure_apply] at hpure
  cases hpure
  obtain ⟨hlen, hsum, hnn, hskel, hinv⟩ := searchLoop_ok hloop
  refine ⟨by simpa using hlen, by simpa using hsum, hnn, hskel, rfl, rfl,
    rfl, rfl, hinv, ?_⟩
  intro hnp
  have := @searchLoop_nonpos G ops s.players s.availableIdols hnp searchers [] g₁
  rw [this] at hloop
  cases hloop
  exact ⟨rfl, rfl⟩

theorem mergeAlliances_ok {G : Type} {ops : RandOps G} {ctx : SimCtx}
    {s s' : SimState} {g g' : G}
    (h : mergeAlliances ops ctx s g = .ok (s', g')) :
    s'.players = s.players ∧ s'.episodes = s.episodes ∧
    s'.availableIdols = s.availableIdols ∧ s'.currentDay = s.currentDay ∧
    s'.merged = s.merged ∧ s'.swapsCompleted = s.swapsCompleted ∧
    s'.numTribeSwaps = s.numTribeSwaps ∧ s'.swapTimings = s.swapTimings := by
  simp only [mergeAlliances] at h
  rw [PyM.bind_ok_iff] at h
  obtain ⟨alls, g₁, _, hpure⟩ := h
  simp only [PyM.pure_apply] at hpure
  cases hpure
  exact ⟨rfl, rfl, rfl, rfl, rfl, rfl, rfl, rfl⟩

theorem tribeSwap_ok {G : Type} {ops : RandOps G} {ctx : SimCtx}
    {s s' : SimState} {g g' : G}
    (h : tribeSwap ops ctx s g = .ok (s', g')) :
    skel s'.players = skel s.players ∧ s'.episodes = s.episodes ∧
    s'.availableIdols = s.availableIdols ∧ s'.currentDay = s.currentDay ∧
    s'.merged = s.merged ∧ s'.swapTimings = s.swapTimings ∧
    s'.numTribeSwaps = s.numTribeSwaps ∧
    (∀ Q : List Advantage → Prop, (∀ p ∈ s.players, Q p.advantages) →
      ∀ p ∈ s'.players, Q p.advantages) := by
  simp only [tribeSwap] at h
  rw [PyM.bind_ok_iff] at h
  obtain ⟨shuffled, g₁, _, h⟩ := h
  rw [PyM.bind_ok_iff] at h
  obtain ⟨alls, g₂, _, hpure⟩ := h
  simp only [PyM.pure_apply] at hpure
  cases hpure
  refine ⟨skel_map ?_, rfl, rfl, rfl, rfl, rfl, rfl, ?_⟩
  · intro p
    split_ifs <;> exact ⟨rfl, rfl⟩
  · intro Q hQ
    refine map_invariant (P := fun p => Q p.advantages) ?_ hQ
    intro p hp
    split_ifs <;> exact hp

theorem immunityPhase_ok {G : Type} {ops : RandOps G} {ctx : SimCtx}
    {s : SimState} {g g' : G}
    {out : Option String × Option String × List String × List Player}
    (h : immunityPhase ops ctx s g = .ok (out, g')) :
    skel out.2.2.2 = skel s.players ∧
    (∀ Q : List Advantage → Prop, (∀ p ∈ s.players, Q p.advantages) →
      ∀ p ∈ out.2.2.2, Q p.advantages) := by
  simp only [immunityPhase] at h
  split_ifs at h with hm
  · rw [PyM.bind_ok_iff] at h
    obtain ⟨w?, g₁, _, h⟩ := h
    cases w? with
    | none =>
      dsimp only [] at h
      simp only [PyM.fail_apply] at h
      cases h
    | some nm =>
      dsimp only [] at h
      cases hf : List.find? (fun p => decide (p.name = nm)) s.players with
      | none =>
        rw [hf] at h
        simp only [PyM.fail_apply] at h
        cases h
      | some winner =>
        rw [hf] at h
        dsimp only [] at h
        simp only [PyM.pure_apply] at h
        cases h
        refine ⟨skel_updateFirst (fun p => ⟨rfl, rfl⟩), ?_⟩
        intro Q hQ
        refine updateFirst_invariant (P := fun p => Q p.advantages) ?_ hQ
        intro p hp
        exact hp
  · cases hts : ((tribeNames.map (fun t =>
        (t, s.players.filter (fun p => p.tribe = t && p.alive)))).filter
          (fun kv => !kv.2.isEmpty)).map (·.2) with
    | nil =>
      rw [hts] at h
      dsimp only [] at h
      simp only [PyM.pure_apply] at h
      cases h
      exact ⟨rfl, fun Q hQ => hQ⟩
    | cons t0 ts =>
      cases ts with
      | nil =>
        rw [hts] at h
        dsimp only [] at h
        simp only [PyM.pure_apply] at h
        cases h
        exact ⟨rfl, fun Q hQ => hQ⟩
      | cons t1 trest =>
        rw [hts] at h
        dsimp only [] at h
        rw [PyM.bind_ok_iff] at h
        obtain ⟨winningTribe, g₁, _, h⟩ := h
        cases hlt : List.filter (fun n => decide (n ≠ winningTribe))
            ((((tribeNames.map (fun t =>
              (t, s.players.filter (fun p => p.tribe = t && p.alive)))).filter
                (fun kv => !kv.2.isEmpty))).map (·.1)) with
        | nil =>
          rw [hlt] at h
          dsimp only [] at h
          simp only [PyM.pure_apply, PyM.bind_apply] at h
          cases h
          refine ⟨skel_map ?_, ?_⟩
          · intro p
            split_ifs <;> exact ⟨rfl, rfl⟩
          · intro Q hQ
            refine map_invariant (P := fun p => Q p.advantages) ?_ hQ
            intro p hp
            split_ifs <;> exact hp
        | cons l0 ls =>
          cases ls with
          | nil =>
            rw [hlt] at h
            dsimp only [] at h
            simp only [PyM.pure_apply, PyM.bind_apply] at h
            cases h
            refine ⟨skel_map ?_, ?_⟩
            · intro p
              split_ifs <;> exact ⟨rfl, rfl⟩
            · intro Q hQ
              refine map_invariant (P := fun p => Q p.advantages) ?_ hQ
              intro p hp
              split_ifs <;> exact hp
          | cons l1 lrest =>
            rw [hlt] at h
            dsimp only [] at h
            rw [PyM.bind_ok_iff] at h
            obtain ⟨l, g₂, _, h⟩ := h
            simp only [PyM.pure_apply, PyM.bind_apply] at h
            cases h
            refine ⟨skel_map ?_, ?_⟩
            · intro p
              split_ifs <;> exact ⟨rfl, rfl⟩
            · intro Q hQ
              refine map_invariant (P := fun p => Q p.advantages) ?_ hQ
              intro p hp
              split_ifs <;> exact hp

theorem namesOf_updateFirst {ps : List Player} {nm : String}
    {f : Player → Player} (hf : ∀ p, (f p).name = p.name) :
    namesOf (updateFirst ps nm f) = namesOf ps := by
  induction ps with
  | nil => rfl
  | cons p ps ih =>
    simp only [updateFirst]
    by_cases hp : p.name = nm
    · simp [namesOf, hp, hf p]
    · simp only [if_neg hp, namesOf, List.map] at *
      rw [ih]

theorem ite_pym_ok {G α : Type} {c : Prop} [Decidable c]
    {m₁ m₂ : PyM G α} {g g' : G} {a : α}
    (h : (if c then m₁ else m₂) g = .ok (a, g')) :
    m₁ g = .ok (a, g') ∨ m₂ g = .ok (a, g') := by
  split_ifs at h
  · exact Or.inl h
  · exact Or.inr h

theorem swapStep_ok {G : Type} {ops : RandOps G} {ctx : SimCtx} {n : ℕ}
    {s s1 : SimState} {g g1 : G}
    (h : swapStep ops ctx n s g = .ok (s1, g1)) :
    skel s1.players = skel s.players ∧ s1.episodes = s.episodes ∧
    s1.availableIdols = s.availableIdols ∧
    s1.currentDay = s.currentDay ∧
    (∀ Q : List Advantage → Prop, (∀ p ∈ s.players, Q p.advantages) →
      ∀ p ∈ s1.players, Q p.advantages) := by
  simp only [swapStep] at h
  rcases ite_pym_ok h with hsw | hsw
  · obtain ⟨a, b, c, d, _, _, _, q⟩ := tribeSwap_ok hsw
    exact ⟨a, b, c, d, q⟩
  · simp only [PyM.pure_apply] at hsw
    cases hsw
    exact ⟨rfl, rfl, rfl, rfl, fun Q hQ => hQ⟩

theorem mergeStep_ok {G : Type} {ops : RandOps G} {ctx : SimCtx} {n : ℕ}
    {s s1 : SimState} {g g1 : G}
    (h : mergeStep ops ctx n s g = .ok (s1, g1)) :
    skel s1.players = skel s.players ∧ s1.episodes = s.episodes ∧
    s1.availableIdols = s.availableIdols ∧
    s1.currentDay = s.currentDay ∧
    (∀ Q : List Advantage → Prop, (∀ p ∈ s.players, Q p.advantages) →
      ∀ p ∈ s1.players, Q p.advantages) := by
  simp only [mergeStep] at h
  rcases ite_pym_ok h with hm2 | hm2
  · obtain ⟨hp, he, ha, hd, _⟩ := mergeAlliances_ok hm2
    have hp' : s1.players = s.players.map (fun p =>
        if p.alive then { p with tribe := "Merged" } else p) := hp
    refine ⟨?_, he, ha, hd, ?_⟩
    · rw [hp']
      exact skel_map (fun p => by split_ifs <;> exact ⟨rfl, rfl⟩)
    · intro Q hQ
      rw [hp']
      refine map_invariant (P := fun p => Q p.advantages) ?_ hQ
      intro p hpp
      split_ifs <;> exact hpp
  · simp only [PyM.pure_apply] at hm2
    cases hm2
    exact ⟨rfl, rfl, rfl, rfl, fun Q hQ => hQ⟩

theorem simulateEpisode_ok {G : Type} {ops : RandOps G} {ctx : SimCtx}
    {epNum : ℕ} {s : SimState} {g g' : G} {r : EpisodeResult} {s' : SimState}
    (hnd : (namesOf s.players).Nodup)
    (h : simulateEpisode ops ctx epNum s g = .ok ((r, s'), g')) :
    namesOf s'.players = namesOf s.players ∧
    aliveCount s'.players + 1 = aliveCount s.players ∧
    (∀ n ∈ aliveNames s'.players, n ∈ aliveNames s.players) ∧
    r.eliminated ∈ aliveNames s.players ∧
    s'.episodes = s.episodes ++ [r] ∧
    r.remaining_players = aliveNames s'.players ∧
    s'.currentDay = s.currentDay + 3 ∧
    r.advantages_found.length ≤ 2 ∧
    s'.availableIdols + r.advantages_found.length = s.availableIdols ∧
    (0 ≤ s.availableIdols → 0 ≤ s'.availableIdols) ∧
    (∀ pr ∈ r.advantages_played, pr.advantage = "Idol") ∧
    ((∀ p ∈ s.players, ∀ a ∈ p.advantages, AdvInv a) →
      ∀ p ∈ s'.players, ∀ a ∈ p.advantages, AdvInv a) ∧
    (s.availableIdols ≤ 0 → (∀ p ∈ s.players, p.advantages = []) →
      r.advantages_found = [] ∧ r.advantages_played = [] ∧
      ∀ p ∈ s'.players, p.advantages = []) := by
  simp only [simulateEpisode] at h
  rw [PyM.bind_ok_iff] at h
  obtain ⟨s1, g1, hswap, h⟩ := h
  rw [PyM.bind_ok_iff] at h
  obtain ⟨s2, g2, hmerge, h⟩ := h
  rw [PyM.bind_ok_iff] at h
  obtain ⟨searchRes, g3, hsearch, h⟩ := h
  obtain ⟨found, s3⟩ := searchRes
  rw [PyM.bind_ok_iff] at h
  obtain ⟨imm, g4, himm, h⟩ := h
  obtain ⟨mw, tw, immunes, immPlayers⟩ := imm
  dsimp only [] at h
  rw [PyM.bind_ok_iff] at h
  obtain ⟨tc, g5, htc, h⟩ := h
  obtain ⟨tcr, tcPlayers⟩ := tc
  dsimp only [] at h
  have H1 := swapStep_ok hswap
  have H2 := mergeStep_ok hmerge
  obtain ⟨hfLen, hfSum, hfNn, hfSkel, hfEp, _, hfDay, _, hfAdv, hfZero⟩ :=
    idolSearchPhase_ok hsearch
  obtain ⟨hiSkel, hiAdv⟩ := immunityPhase_ok himm
  obtain ⟨htSkel, htElim, _, _, _, _, htIdol, htAdv, htEmpty⟩ :=
    simulateTribalCouncil_ok htc
  have hSkelChain : skel tcPlayers = skel s.players := by
    rw [htSkel, hiSkel, hfSkel, H2.1, H1.1]
  cases hfind : List.find? (fun p => decide (p.name = tcr.eliminated))
      tcPlayers with
  | none =>
    rw [hfind] at h
    dsimp only [] at h
    simp only [PyM.fail_apply] at h
    cases h
  | some pfound =>
    rw [hfind] at h
    dsimp only [] at h
    rw [PyM.bind_ok_iff] at h
    obtain ⟨cw, g6, hcw, hpure⟩ := h
    simp only [PyM.pure_apply] at hpure
    cases hpure
    have hSkel2 : skel (List.map (fun p => { p with immune := false })
        (updateFirst tcPlayers tcr.eliminated
          (fun p => { p with alive := false }))) =
        skel (updateFirst tcPlayers tcr.eliminated
          (fun p => { p with alive := false })) :=
      skel_map (fun p => ⟨rfl, rfl⟩)
    have hNamesKill : namesOf (updateFirst tcPlayers tcr.eliminated
        (fun p => { p with alive := false })) = namesOf tcPlayers :=
      namesOf_updateFirst (fun p => rfl)
    have hNames2 : namesOf (List.map (fun p => { p with immune := false })
        (updateFirst tcPlayers tcr.eliminated
          (fun p => { p with alive := false }))) = namesOf s.players := by
      rw [namesOf_eq_of_skel hSkel2, hNamesKill,
        namesOf_eq_of_skel hSkelChain]
    have hElimS : tcr.eliminated ∈ aliveNames s.players := by
      rw [← aliveNames_eq_of_skel hSkelChain, aliveNames_eq_of_skel htSkel]
      exact htElim
    refine ⟨hNames2, ?_, ?_, hElimS, ?_, rfl, ?_, ?_, ?_, ?_, htIdol, ?_, ?_⟩
    · rw [aliveCount_eq_of_skel hSkel2]
      have hndTc : (namesOf tcPlayers).Nodup := by
        rw [namesOf_eq_of_skel hSkelChain]
        exact hnd
      have hmemTc : tcr.eliminated ∈ aliveNames tcPlayers := by
        rw [aliveNames_eq_of_skel htSkel]
        exact htElim
      rw [aliveCount_updateFirst_kill hndTc hmemTc]
      exact aliveCount_eq_of_skel hSkelChain
    · intro n hn
      rw [aliveNames_eq_of_skel hSkel2] at hn
      have := aliveNames_subset_of_updateFirst_kill n hn
      rwa [aliveNames_eq_of_skel hSkelChain] at this
    · show s3.episodes ++ _ = s.episodes ++ _
      rw [hfEp, H2.2.1, H1.2.1]
    · show s3.currentDay + 3 = s.currentDay + 3
      rw [hfDay, H2.2.2.2.1, H1.2.2.2.1]
    · exact hfLen
    · show s3.availableIdols + (found.length : ℤ) = s.availableIdols
      rw [← H1.2.2.1, ← H2.2.2.1]
      exact hfSum
    · intro h0
      exact hfNn (by rw [H2.2.2.1, H1.2.2.1]; exact h0)
    · intro hInv
      have h1 := H1.2.2.2.2 (fun advs => ∀ a ∈ advs, AdvInv a) hInv
      have h2 := H2.2.2.2.2 (fun advs => ∀ a ∈ advs, AdvInv a) h1
      have h3 := hfAdv h2
      have h4 := hiAdv (fun advs => ∀ a ∈ advs, AdvInv a) h3
      have h5 := htAdv h4
      refine map_invariant (P := fun p => ∀ a ∈ p.advantages, AdvInv a)
        (fun q hq => hq) ?_
      exact updateFirst_invariant (fun q hq => hq) h5
    · intro hAv hEmp
      have h1 := H1.2.2.2.2 (· = []) hEmp
      have h2 := H2.2.2.2.2 (· = []) h1
      obtain ⟨hf0, hpl⟩ := hfZero (by rw [H2.2.2.1, H1.2.2.1]; exact hAv)
      have h3 : ∀ p ∈ s3.players, p.advantages = [] := by
        rw [hpl]; exact h2
      have h4 := hiAdv (· = []) h3
      obtain ⟨hTcEq, hTcPl⟩ := htEmpty h4
      refine ⟨hf0, hTcPl, ?_⟩
      refine map_invariant (P := fun p => p.advantages = [])
        (fun q hq => hq) ?_
      refine updateFirst_invariant (fun q hq => hq) ?_
      rw [hTcEq]
      exact h4

theorem length_aliveNames (ps : List Player) :
    (aliveNames ps).length = aliveCount ps := by
  simp [aliveNames, aliveCount]

theorem simulateFinalFour_ok {G : Type} {ops : RandOps G} {ctx : SimCtx}
    {epNum : ℕ} {s s' : SimState} {g g' : G}
    (hnd : (namesOf s.players).Nodup)
    (h : simulateFinalFour ops ctx epNum s g = .ok (s', g')) :
    namesOf s'.players = namesOf s.players ∧
    aliveCount s'.players + 1 = aliveCount s.players ∧
    (∀ n ∈ aliveNames s'.players, n ∈ aliveNames s.players) ∧
    (∃ r, s'.episodes = s.episodes ++ [r] ∧
      r.remaining_players = aliveNames s'.players ∧
      r.advantages_found = [] ∧ r.advantages_played = [] ∧
      r.phase = "Final") ∧
    s'.availableIdols = s.availableIdols ∧
    (∀ Q : List Advantage → Prop, (∀ p ∈ s.players, Q p.advantages) →
      ∀ p ∈ s'.players, Q p.advantages) := by
  simp only [simulateFinalFour] at h
  rw [PyM.bind_ok_iff] at h
  obtain ⟨w?, g₁, _, h⟩ := h
  cases w? with
  | none =>
    dsimp only [] at h
    simp only [PyM.fail_apply] at h
    cases h
  | some nm =>
    dsimp only [] at h
    cases hf : List.find? (fun p => decide (p.name = nm)) s.players with
    | none =>
      rw [hf] at h
      simp only [PyM.fail_apply] at h
      cases h
    | some winner =>
      rw [hf] at h
      dsimp only [] at h
      rw [PyM.bind_ok_iff] at h
      obtain ⟨jitters, g₂, _, h⟩ := h
      rw [PyM.bind_ok_iff] at h
      obtain ⟨chosen0, g₃, _, h⟩ := h
      rw [PyM.bind_ok_iff] at h
      obtain ⟨fireProbs, g₄, _, h⟩ := h
      rw [PyM.bind_ok_iff] at h
      obtain ⟨normed, g₅, _, h⟩ := h
      rw [PyM.bind_ok_iff] at h
      obtain ⟨fireWinner, g₆, _, h⟩ := h
      cases hfl : List.find? (fun p => decide (¬p.name = fireWinner.name))
          (List.filter (fun p => decide (¬p.name = chosen0.1.1.name))
            (List.filter (fun p => decide (¬p.name = winner.name))
              (List.filter (fun x => x.alive) s.players))) with
      | none =>
        rw [hfl] at h
        simp only [PyM.fail_apply] at h
        cases h
      | some fireLoser =>
        rw [hfl] at h
        dsimp only [] at h
        simp only [PyM.pure_apply] at h
        cases h
        have hflMem := List.find?_some hfl
        have hflIn := List.mem_of_find?_eq_some hfl
        have hflAlive : fireLoser ∈ s.players ∧ fireLoser.alive = true := by
          have h1 := List.mem_of_mem_filter hflIn
          have h2 := List.mem_of_mem_filter h1
          exact ⟨List.mem_of_mem_filter h2,
            (List.mem_filter.mp h2).2⟩
        have hSkelP2 : skel (updateFirst
            (updateFirst s.players winner.name
              (fun p => { p with immune := true })) chosen0.1.1.name
            (fun p => { p with immune := true })) = skel s.players := by
          have ha : skel (updateFirst s.players winner.name
              (fun p => { p with immune := true })) = skel s.players :=
            skel_updateFirst (fun p => ⟨rfl, rfl⟩)
          have hb : skel (updateFirst
              (updateFirst s.players winner.name
                (fun p => { p with immune := true })) chosen0.1.1.name
              (fun p => { p with immune := true })) =
              skel (updateFirst s.players winner.name
                (fun p => { p with immune := true })) :=
            skel_updateFirst (fun p => ⟨rfl, rfl⟩)
          rw [hb, ha]
        have hflAN : fireLoser.name ∈ aliveNames (updateFirst
            (updateFirst s.players winner.name
              (fun p => { p with immune := true })) chosen0.1.1.name
            (fun p => { p with immune := true })) := by
          rw [aliveNames_eq_of_skel hSkelP2]
          exact mem_aliveNames hflAlive.1 hflAlive.2
        have hndP2 : (namesOf (updateFirst
            (updateFirst s.players winner.name
              (fun p => { p with immune := true })) chosen0.1.1.name
            (fun p => { p with immune := true }))).Nodup := by
          rw [namesOf_eq_of_skel hSkelP2]
          exact hnd
        have hSkel4 : skel (List.map (fun p => { p with immune := false })
            (updateFirst (updateFirst
              (updateFirst s.players winner.name
                (fun p => { p with immune := true })) chosen0.1.1.name
              (fun p => { p with immune := true })) fireLoser.name
              (fun p => { p with alive := false }))) =
            skel (updateFirst (updateFirst
              (updateFirst s.players winner.name
                (fun p => { p with immune := true })) chosen0.1.1.name
              (fun p => { p with immune := true })) fireLoser.name
              (fun p => { p with alive := false })) :=
          skel_map (fun p => ⟨rfl, rfl⟩)
        refine ⟨?_, ?_, ?_, ⟨_, rfl, rfl, rfl, rfl, rfl⟩, rfl, ?_⟩
        · have hc : namesOf (updateFirst (updateFirst
            (updateFirst s.players winner.name
              (fun p => { p with immune := true })) chosen0.1.1.name
            (fun p => { p with immune := true })) fireLoser.name
              (fun p => { p with alive := false })) =
              namesOf (updateFirst
            (updateFirst s.players winner.name
              (fun p => { p with immune := true })) chosen0.1.1.name
            (fun p => { p with immune := true })) :=
            namesOf_updateFirst (fun p => rfl)
          rw [namesOf_eq_of_skel hSkel4, hc, namesOf_eq_of_skel hSkelP2]
        · rw [aliveCount_eq_of_skel hSkel4,
            aliveCount_updateFirst_kill hndP2 hflAN,
            aliveCount_eq_of_skel hSkelP2]
        · intro n hn
          rw [aliveNames_eq_of_skel hSkel4] at hn
          have := aliveNames_subset_of_updateFirst_kill n hn
          rwa [aliveNames_eq_of_skel hSkelP2] at this
        · intro Q hQ
          refine map_invariant (P := fun p => Q p.advantages)
            (fun q hq => hq) ?_
          refine updateFirst_invariant (fun q hq => hq) ?_
          refine updateFirst_invariant (fun q hq => hq) ?_
          exact updateFirst_invariant (fun q hq => hq) hQ

theorem skel_cons (p : Player) (l : List Player) :
    skel (p :: l) = (p.name, p.alive) :: skel l := rfl

theorem buildPlayers_ok {profiles : List (String × Profile)} :
    ∀ {nms : List String} {ps : List Player},
      buildPlayers profiles nms = .ok ps →
      namesOf ps = nms ∧ ∀ p ∈ ps, p.alive = true ∧ p.advantages = [] := by
  intro nms
  induction nms with
  | nil =>
    intro ps h
    cases h
    exact ⟨rfl, by intro p hp; cases hp⟩
  | cons nm rest ih =>
    intro ps h
    simp only [buildPlayers] at h
    cases hp : dictFind? profiles nm with
    | none =>
      rw [hp] at h
      cases h
    | some prof =>
      rw [hp] at h
      dsimp only [optToExcept, Except.bind] at h
      cases ho : buildPlayers profiles rest with
      | error e =>
        rw [ho] at h
        cases h
      | ok others =>
        rw [ho] at h
        cases h
        obtain ⟨hn, hq⟩ := ih ho
        refine ⟨?_, ?_⟩
        · simp only [namesOf, List.map] at hn ⊢
          rw [hn]
        intro p hp'
        rcases List.mem_cons.mp hp' with rfl | hp'
        · exact ⟨rfl, rfl⟩
        · exact hq p hp'

theorem enumFrom_assign_facts :
    ∀ (n : ℕ) (l : List Player),
      skel ((List.enumFrom n l).map (fun ip =>
        { ip.2 with tribe := tribeNames.getD (ip.1 % 3) "" })) = skel l ∧
      (∀ p ∈ (List.enumFrom n l).map (fun ip =>
          { ip.2 with tribe := tribeNames.getD (ip.1 % 3) "" }),
        ∃ q ∈ l, p.alive = q.alive ∧ p.advantages = q.advantages) := by
  intro n l
  induction l generalizing n with
  | nil => exact ⟨rfl, by intro p hp; cases hp⟩
  | cons q qs ih =>
    obtain ⟨ihs, ihm⟩ := ih (n + 1)
    constructor
    · rw [show List.enumFrom n (q :: qs) =
        (n, q) :: List.enumFrom (n + 1) qs from rfl, List.map_cons]
      simp only [skel_cons, ihs]
    · intro p hp
      simp only [List.enumFrom, List.map, List.mem_cons] at hp
      rcases hp with rfl | hp
      · exact ⟨q, List.mem_cons_self _ _, rfl, rfl⟩
      · obtain ⟨q', hq', hfacts⟩ := ihm p hp
        exact ⟨q', List.mem_cons_of_mem _ hq', hfacts⟩

theorem assignTribes_facts (l : List Player) :
    skel (assignTribes l) = skel l ∧
    (∀ p ∈ assignTribes l, ∃ q ∈ l,
      p.alive = q.alive ∧ p.advantages = q.advantages) :=
  enumFrom_assign_facts 0 l

theorem aliveCount_of_all_alive {ps : List Player}
    (h : ∀ p ∈ ps, p.alive = true) : aliveCount ps = ps.length := by
  unfold aliveCount
  rw [List.filter_length_eq_length.mpr (by intro p hp; simp [h p hp])]

theorem initializeGame_ok {G : Type} {ops : RandOps G} {ctx : SimCtx}
    {s s1 : SimState} {g g1 : G}
    (hsh : ∀ (l : List String) (gg : G), (ops.shuffleNames l gg).1.Perm l)
    (h : initializeGame ops ctx s g = .ok (s1, g1)) :
    (namesOf s1.players).Perm ctx.playerNames ∧
    aliveCount s1.players = ctx.playerNames.length ∧
    (∀ p ∈ s1.players, p.advantages = []) ∧
    s1.episodes = s.episodes ∧ s1.availableIdols = s.availableIdols ∧
    s1.currentDay = s.currentDay ∧ s1.merged = s.merged ∧
    s1.swapsCompleted = s.swapsCompleted ∧
    s1.numTribeSwaps = s.numTribeSwaps ∧
    s1.swapTimings = s.swapTimings := by
  simp only [initializeGame] at h
  rw [PyM.bind_ok_iff] at h
  obtain ⟨shuffled, gA, hshuf, h⟩ := h
  rw [PyM.bind_ok_iff] at h
  obtain ⟨players0, gB, hbuild, h⟩ := h
  rw [PyM.bind_ok_iff] at h
  obtain ⟨alls, gC, _, hpure⟩ := h
  simp only [PyM.pure_apply] at hpure
  cases hpure
  simp only [pyShuffleNames, Except.ok.injEq] at hshuf
  have hperm : shuffled.Perm ctx.playerNames := by
    have h1 : (ops.shuffleNames ctx.playerNames g).1 = shuffled :=
      congrArg Prod.fst hshuf
    rw [← h1]
    exact hsh ctx.playerNames g
  simp only [liftE_apply] at hbuild
  have hb : buildPlayers ctx.playerProfiles shuffled = .ok players0 := by
    cases hbp : buildPlayers ctx.playerProfiles shuffled with
    | error e => rw [hbp] at hbuild; cases hbuild
    | ok v =>
      rw [hbp] at hbuild
      cases hbuild
      rfl
  obtain ⟨hnames0, hfacts0⟩ := buildPlayers_ok hb
  obtain ⟨hskelA, hmemA⟩ := assignTribes_facts players0
  have hnamesA : namesOf (assignTribes players0) = shuffled := by
    rw [namesOf_eq_of_skel hskelA, hnames0]
  have haliveA : ∀ p ∈ assignTribes players0, p.alive = true := by
    intro p hp
    obtain ⟨q, hq, ha, _⟩ := hmemA p hp
    rw [ha]
    exact (hfacts0 q hq).1
  refine ⟨by rw [hnamesA]; exact hperm, ?_, ?_, rfl, rfl, rfl, rfl, rfl,
    rfl, rfl⟩
  · rw [aliveCount_of_all_alive haliveA]
    have : (namesOf (assignTribes players0)).length =
        (assignTribes players0).length := by
      simp [namesOf]
    rw [← this, hnamesA]
    exact hperm.length_eq
  · intro p hp
    obtain ⟨q, hq, _, hadv⟩ := hmemA p hp
    rw [hadv]
    exact (hfacts0 q hq).2

/-- Per-episode `remaining_players` sizes of a record list. -/
def epLens (l : List EpisodeResult) : List ℕ :=
  l.map (·.remaining_players.length)

/-- Total number of advantages found across a record list. -/
def advSum (l : List EpisodeResult) : ℕ :=
  (l.map (·.advantages_found.length)).sum

/-- `descFrom n l`: the list descends by exactly one starting at `n - 1`
(`l = [n-1, n-2, ...]`). -/
def descFrom : ℕ → List ℕ → Bool
  | _, [] => true
  | n, a :: rest => decide (a + 1 = n) && descFrom a rest

theorem descFrom_append : ∀ {n : ℕ} {l : List ℕ} {m : ℕ},
    descFrom n l = true → m + 1 + l.length = n →
    descFrom n (l ++ [m]) = true := by
  intro n l
  induction l generalizing n with
  | nil =>
    intro m _ hm
    simp only [List.length_nil, Nat.add_zero] at hm
    simp only [List.nil_append, descFrom, Bool.and_eq_true,
      decide_eq_true_eq]
    exact ⟨by omega, by trivial⟩
  | cons a rest ih =>
    intro m hd hm
    simp only [descFrom, Bool.and_eq_true, decide_eq_true_eq] at hd
    simp only [List.cons_append, descFrom, Bool.and_eq_true,
      decide_eq_true_eq]
    refine ⟨hd.1, ih hd.2 ?_⟩
    simp only [List.length_cons] at hm
    omega

theorem epLens_append (l : List EpisodeResult) (r : EpisodeResult) :
    epLens (l ++ [r]) = epLens l ++ [r.remaining_players.length] := by
  simp [epLens]

theorem advSum_append (l : List EpisodeResult) (r : EpisodeResult) :
    advSum (l ++ [r]) = advSum l + r.advantages_found.length := by
  simp [advSum]

theorem seasonLoop_ok {G : Type} {ops : RandOps G} {ctx : SimCtx} {c0 : ℕ} :
    ∀ {fuel epNum : ℕ} {s : SimState} {g g' : G} {out : SimState × ℕ},
      (namesOf s.players).Nodup →
      descFrom c0 (epLens s.episodes) = true →
      aliveCount s.players + s.episodes.length = c0 →
      (∀ r, s.episodes.getLast? = some r →
        r.remaining_players = aliveNames s.players) →
      List.Chain' (fun a b => ∀ n ∈ b.remaining_players,
        n ∈ a.remaining_players) s.episodes →
      seasonLoop ops ctx fuel epNum s g = .ok (out, g') →
      namesOf out.1.players = namesOf s.players ∧
      ¬ 4 < aliveCount out.1.players ∧
      descFrom c0 (epLens out.1.episodes) = true ∧
      aliveCount out.1.players + out.1.episodes.length = c0 ∧
      (∀ r, out.1.episodes.getLast? = some r →
        r.remaining_players = aliveNames out.1.players) ∧
      List.Chain' (fun a b => ∀ n ∈ b.remaining_players,
        n ∈ a.remaining_players) out.1.episodes ∧
      out.1.availableIdols + (advSum out.1.episodes : ℤ) =
        s.availableIdols + (advSum s.episodes : ℤ) ∧
      (0 ≤ s.availableIdols → 0 ≤ out.1.availableIdols) ∧
      ((∀ r ∈ s.episodes, ∀ pr ∈ r.advantages_played,
          pr.advantage = "Idol") →
        ∀ r ∈ out.1.episodes, ∀ pr ∈ r.advantages_played,
          pr.advantage = "Idol") ∧
      ((∀ p ∈ s.players, ∀ a ∈ p.advantages, AdvInv a) →
        ∀ p ∈ out.1.players, ∀ a ∈ p.advantages, AdvInv a) ∧
      (s.availableIdols ≤ 0 →
        (∀ p ∈ s.players, p.advantages = []) →
        (∀ r ∈ s.episodes, r.advantages_found = [] ∧
          r.advantages_played = []) →
        out.1.availableIdols ≤ 0 ∧
        (∀ p ∈ out.1.players, p.advantages = []) ∧
        ∀ r ∈ out.1.episodes, r.advantages_found = [] ∧
          r.advantages_played = []) ∧
      (∀ n ∈ aliveNames out.1.players, n ∈ aliveNames s.players) ∧
      (4 ≤ aliveCount s.players → aliveCount out.1.players = 4) ∧
      (¬ 4 < aliveCount s.players → out.1 = s) ∧
      ((∀ r ∈ s.episodes, r.advantages_found.length ≤ 2) →
        ∀ r ∈ out.1.episodes, r.advantages_found.length ≤ 2) := by
  intro fuel
  induction fuel with
  | zero =>
    intro epNum s g g' out hnd hdesc hcount hlast hchain h
    simp only [seasonLoop] at h
    split_ifs at h with hgt
    · simp only [PyM.fail_apply] at h
      cases h
    · simp only [PyM.pure_apply] at h
      cases h
      exact ⟨rfl, hgt, hdesc, hcount, hlast, hchain, rfl, fun x => x,
        fun x => x, fun x => x, fun a b c => ⟨a, b, c⟩, fun n hn => hn,
        fun h4 => by show aliveCount s.players = 4; omega, fun _ => rfl,
        fun x => x⟩
  | succ fuel ih =>
    intro epNum s g g' out hnd hdesc hcount hlast hchain h
    simp only [seasonLoop] at h
    split_ifs at h with hgt
    · rw [PyM.bind_ok_iff] at h
      obtain ⟨res, g1, hep, h⟩ := h
      obtain ⟨r, s'⟩ := res
      dsimp only [] at h
      obtain ⟨heNames, heCount, heSub, _, heEps, heRem, _, heLen, heSum,
        heNn, heIdol, heInv, heEmpty⟩ := simulateEpisode_ok hnd hep
      have hnd' : (namesOf s'.players).Nodup := by
        rw [heNames]; exact hnd
      have hlen' : r.remaining_players.length = aliveCount s'.players := by
        rw [heRem, length_aliveNames]
      have hdesc' : descFrom c0 (epLens s'.episodes) = true := by
        rw [heEps, epLens_append, hlen']
        refine descFrom_append hdesc ?_
        have : (epLens s.episodes).length = s.episodes.length := by
          simp [epLens]
        omega
      have hcount' : aliveCount s'.players + s'.episodes.length = c0 := by
        rw [heEps, List.length_append, List.length_singleton]
        omega
      have hlast' : ∀ rr, s'.episodes.getLast? = some rr →
          rr.remaining_players = aliveNames s'.players := by
        intro rr hrr
        rw [heEps] at hrr
        rw [List.getLast?_concat] at hrr
        cases hrr
        exact heRem
      have hchain' : List.Chain' (fun a b => ∀ n ∈ b.remaining_players,
          n ∈ a.remaining_players) s'.episodes := by
        rw [heEps, List.chain'_append]
        refine ⟨hchain, List.chain'_singleton r, ?_⟩
        intro x hx y hy
        simp only [List.head?_cons, Option.mem_def, Option.some.injEq] at hy
        cases hy
        intro n hn
        rw [hlast x hx]
        rw [heRem] at hn
        exact heSub n hn
      obtain ⟨lNames, lExit, lDesc, lCount, lLast, lChain, lSum, lNn,
        lIdol, lInv, lEmpty, lSub, lFour, _, lCap⟩ :=
        ih hnd' hdesc' hcount' hlast' hchain' h
      refine ⟨by rw [lNames, heNames], lExit, lDesc, lCount, lLast, lChain,
        ?_, ?_, ?_, ?_, ?_, ?_, ?_, fun hc => absurd hgt hc, ?_⟩
      · rw [lSum, heEps, advSum_append]
        push_cast
        omega
      · intro h0
        exact lNn (heNn h0)
      · intro hIdolRecs
        refine lIdol ?_
        intro rr hrr
        rw [heEps] at hrr
        rcases List.mem_append.mp hrr with hrr | hrr
        · exact hIdolRecs rr hrr
        · rcases List.mem_singleton.mp hrr with rfl
          exact heIdol
      · intro hInv
        exact lInv (heInv hInv)
      · intro hAv hEmp hRecs
        obtain ⟨hf0, hp0, hpl0⟩ := heEmpty hAv hEmp
        have hAv' : s'.availableIdols ≤ 0 := by
          rw [hf0] at heSum
          simp only [List.length_nil, Nat.cast_zero, add_zero] at heSum
          omega
        refine lEmpty hAv' hpl0 ?_
        intro rr hrr
        rw [heEps] at hrr
        rcases List.mem_append.mp hrr with hrr | hrr
        · exact hRecs rr hrr
        · rcases List.mem_singleton.mp hrr with rfl
          exact ⟨hf0, hp0⟩
      · intro n hn
        exact heSub n (lSub n hn)
      · intro _
        exact lFour (by omega)
      · intro hCap
        refine lCap ?_
        intro rr hrr
        rw [heEps] at hrr
        rcases List.mem_append.mp hrr with hrr | hrr
        · exact hCap rr hrr
        · rcases List.mem_singleton.mp hrr with rfl
          exact heLen
    · simp only [PyM.pure_apply] at h
      cases h
      exact ⟨rfl, hgt, hdesc, hcount, hlast, hchain, rfl, fun x => x,
        fun x => x, fun x => x, fun a b c => ⟨a, b, c⟩, fun n hn => hn,
        fun h4 => by show aliveCount s.players = 4; omega, fun _ => rfl,
        fun x => x⟩

theorem ite_pym_ok_cond {G α : Type} {c : Prop} [Decidable c]
    {m₁ m₂ : PyM G α} {g g' : G} {a : α}
    (h : (if c then m₁ else m₂) g = .ok (a, g')) :
    (c ∧ m₁ g = .ok (a, g')) ∨ (¬c ∧ m₂ g = .ok (a, g')) := by
  split_ifs at h with hc
  · exact Or.inl ⟨hc, h⟩
  · exact Or.inr ⟨hc, h⟩

theorem simInit_ok {G : Type} {ops : RandOps G}
    {pd : List (String × Profile)} {cm : List (List ℚ)} {cp : List String}
    {seed : Option ℕ} {config : Option SimulationConfig} {g g' : G}
    {ctx : SimCtx} {s0 : SimState}
    (h : simInit ops pd cm cp seed config g = .ok ((ctx, s0), g')) :
    ctx.playerNames = cp ∧ ctx.cfg = config.getD defaultConfig ∧
    ctx.compat = cm ∧
    s0.players = [] ∧ s0.episodes = [] ∧
    s0.availableIdols = (config.getD defaultConfig).total_idols ∧
    s0.merged = false ∧ s0.currentDay = 1 := by
  simp only [simInit] at h
  rw [PyM.bind_ok_iff] at h
  obtain ⟨u1, gA, _, h⟩ := h
  rw [PyM.bind_ok_iff] at h
  obtain ⟨u2, gB, _, h⟩ := h
  rw [PyM.bind_ok_iff] at h
  obtain ⟨roll, gC, _, hpure⟩ := h
  simp only [PyM.pure_apply] at hpure
  cases hpure
  exact ⟨rfl, rfl, rfl, rfl, rfl, rfl, rfl, rfl⟩

theorem juryVote_empty {G : Type} {ops : RandOps G} {ctx : SimCtx}
    {s : SimState} {finalists : List Player} {g : G}
    (he : s.episodes = []) :
    juryVote ops ctx s finalists g =
      .error (.valueError "max() arg is an empty sequence") := by
  simp only [juryVote, he, List.filter_nil, List.foldl_nil]
  rfl


/-- The elimination invariant of a finished run (C3): episode
`remaining_players` counts descend by exactly one from the cast size, no
name reappears after leaving, and exactly 3 finalists reach the jury; an
errored run satisfies it vacuously. -/
def ElimInvariant {G : Type} (c0 : ℕ)
    (res : Except PyErr ((SeasonResult × SimState) × G)) : Prop :=
  match res with
  | .ok (out, _) =>
      descFrom c0 (epLens out.1.episodes) = true ∧
      List.Chain' (fun a b => ∀ n ∈ b.remaining_players,
        n ∈ a.remaining_players) out.1.episodes ∧
      out.1.finalists.length = 3
  | .error _ => True

/-- **C3**: in every completed season run, the per-episode
`remaining_players` counts descend by exactly one from the cast size
(each tribal council and the fire-making round eliminate exactly one
player), no eliminated player ever reappears in a later
`remaining_players` list, and exactly 3 finalists reach the jury vote. -/
theorem c3_one_elimination_per_round {G : Type} (ops : RandOps G)
    (pd : List (String × Profile)) (cm : List (List ℚ)) (cp : List String)
    (seed : Option ℕ) (config : Option SimulationConfig) (g : G)
    (hsh : ∀ (l : List String) (gg : G), (ops.shuffleNames l gg).1.Perm l)
    (hnd : cp.Nodup) :
    ElimInvariant cp.length (simulateFullSeason ops pd cm cp seed config g)
    := by
  cases hrun : simulateFullSeason ops pd cm cp seed config g with
  | error e => trivial
  | ok p =>
    obtain ⟨out, gZ⟩ := p
    show descFrom cp.length (epLens out.1.episodes) = true ∧
      List.Chain' (fun a b => ∀ n ∈ b.remaining_players,
        n ∈ a.remaining_players) out.1.episodes ∧
      out.1.finalists.length = 3
    simp only [simulateFullSeason] at hrun
    rw [PyM.bind_ok_iff] at hrun
    obtain ⟨init, gA, hinit, hrun⟩ := hrun
    obtain ⟨ctx, s0⟩ := init
    dsimp only [] at hrun
    rw [PyM.bind_ok_iff] at hrun
    obtain ⟨s1, gB, hig, hrun⟩ := hrun
    rw [PyM.bind_ok_iff] at hrun
    obtain ⟨loopRes, gC, hloop, hrun⟩ := hrun
    obtain ⟨s2, epN⟩ := loopRes
    dsimp only [] at hrun
    rw [PyM.bind_ok_iff] at hrun
    obtain ⟨s3, gD, hff, hrun⟩ := hrun
    rw [PyM.bind_ok_iff] at hrun
    obtain ⟨winner, gE, hjv, hrun⟩ := hrun
    rw [PyM.bind_ok_iff] at hrun
    obtain ⟨word, gF, _, hpure⟩ := hrun
    simp only [PyM.pure_apply] at hpure
    cases hpure
    obtain ⟨hCP, _, _, hP0, hE0, _, _, _⟩ := simInit_ok hinit
    obtain ⟨hPerm, hAC1, _, hE1, _, _, _, _, _, _⟩ :=
      initializeGame_ok hsh hig
    have hnd1 : (namesOf s1.players).Nodup :=
      hPerm.nodup_iff.mpr (hCP ▸ hnd)
    have desc0 : descFrom cp.length (epLens s1.episodes) = true := by
      rw [hE1, hE0]; rfl
    have count0 : aliveCount s1.players + s1.episodes.length = cp.length := by
      rw [hE1, hE0, hAC1, hCP]
      simp
    have last0 : ∀ r, s1.episodes.getLast? = some r →
        r.remaining_players = aliveNames s1.players := by
      rw [hE1, hE0]
      intro r hr
      cases hr
    have chain0 : List.Chain' (fun a b => ∀ n ∈ b.remaining_players,
        n ∈ a.remaining_players) s1.episodes := by
      rw [hE1, hE0]
      exact List.chain'_nil
    obtain ⟨lNames, lExit, lDesc, lCount, lLast, lChain, _, _, _, _, _,
      lSub, lFour, lId, _⟩ :=
      seasonLoop_ok hnd1 desc0 count0 last0 chain0 hloop
    dsimp only [] at lNames lExit lDesc lCount lLast lChain lSub lFour lId
    simp only [finalFourStep] at hff
    rcases ite_pym_ok_cond hff with ⟨h4, hf⟩ | ⟨h4, hf⟩
    · have hnd2 : (namesOf s2.players).Nodup := by
        rw [lNames]; exact hnd1
      obtain ⟨fNames, fCount, fSub, ⟨rf, fEps, fRem, _, _, _⟩, _, _⟩ :=
        simulateFinalFour_ok hnd2 hf
      have h3 : aliveCount s3.players = 3 := by omega
      refine ⟨?_, ?_, ?_⟩
      · rw [fEps, epLens_append]
        have hrl : rf.remaining_players.length = 3 := by
          rw [fRem, length_aliveNames, h3]
        rw [hrl]
        refine descFrom_append lDesc ?_
        have : (epLens s2.episodes).length = s2.episodes.length := by
          simp [epLens]
        omega
      · rw [fEps, List.chain'_append]
        refine ⟨lChain, List.chain'_singleton rf, ?_⟩
        intro x hx y hy
        simp only [List.head?_cons, Option.mem_def, Option.some.injEq] at hy
        cases hy
        intro n hn
        rw [lLast x hx]
        rw [fRem] at hn
        exact fSub n hn
      · show ((s3.players.filter (·.alive)).map (·.name)).length = 3
        rw [show (s3.players.filter (·.alive)).map (·.name) =
          aliveNames s3.players from rfl, length_aliveNames, h3]
    · exfalso
      simp only [PyM.pure_apply] at hf
      cases hf
      by_cases hbig : 4 ≤ aliveCount s1.players
      · exact h4 (lFour hbig)
      · have hq : s2 = s1 := lId (by omega)
        have he3 : s2.episodes = [] := by
          rw [hq, hE1, hE0]
        rw [juryVote_empty he3] at hjv
        cases hjv

/-- Season-level advantage bookkeeping shared by the idol-pool and
advantage-kind analyses: the available pool plus all found advantages is
exactly the configured total, the pool never goes negative, every episode
finds at most 2, only idols are ever played, and non-idol advantages stay
unplayed and untransferred. -/
theorem fullSeason_advantage_facts {G : Type} {ops : RandOps G}
    {pd : List (String × Profile)} {cm : List (List ℚ)} {cp : List String}
    {seed : Option ℕ} {config : Option SimulationConfig} {g g' : G}
    {out : SeasonResult × SimState}
    (hsh : ∀ (l : List String) (gg : G), (ops.shuffleNames l gg).1.Perm l)
    (hnd : cp.Nodup)
    (h : simulateFullSeason ops pd cm cp seed config g = .ok (out, g')) :
    out.2.availableIdols + (advSum out.1.episodes : ℤ) =
      (config.getD defaultConfig).total_idols ∧
    (0 ≤ (config.getD defaultConfig).total_idols →
      0 ≤ out.2.availableIdols) ∧
    (∀ r ∈ out.1.episodes, r.advantages_found.length ≤ 2) ∧
    (∀ r ∈ out.1.episodes, ∀ pr ∈ r.advantages_played,
      pr.advantage = "Idol") ∧
    (∀ p ∈ out.2.players, ∀ a ∈ p.advantages, AdvInv a) ∧
    ((config.getD defaultConfig).total_idols ≤ 0 →
      (∀ r ∈ out.1.episodes, r.advantages_found = [] ∧
        r.advantages_played = []) ∧
      ∀ p ∈ out.2.players, p.advantages = []) := by
  simp only [simulateFullSeason] at h
  rw [PyM.bind_ok_iff] at h
  obtain ⟨init, gA, hinit, h⟩ := h
  obtain ⟨ctx, s0⟩ := init
  dsimp only [] at h
  rw [PyM.bind_ok_iff] at h
  obtain ⟨s1, gB, hig, h⟩ := h
  rw [PyM.bind_ok_iff] at h
  obtain ⟨loopRes, gC, hloop, h⟩ := h
  obtain ⟨s2, epN⟩ := loopRes
  dsimp only [] at h
  rw [PyM.bind_ok_iff] at h
  obtain ⟨s3, gD, hff, h⟩ := h
  rw [PyM.bind_ok_iff] at h
  obtain ⟨winner, gE, hjv, h⟩ := h
  rw [PyM.bind_ok_iff] at h
  obtain ⟨word, gF, _, hpure⟩ := h
  simp only [PyM.pure_apply] at hpure
  cases hpure
  obtain ⟨hCP, hCfg, _, hP0, hE0, hAv0, _, _⟩ := simInit_ok hinit
  obtain ⟨hPerm, hAC1, hAdv1, hE1, hAv1, _, _, _, _, _⟩ :=
    initializeGame_ok hsh hig
  have hnd1 : (namesOf s1.players).Nodup :=
    hPerm.nodup_iff.mpr (hCP ▸ hnd)
  have desc0 : descFrom cp.length (epLens s1.episodes) = true := by
    rw [hE1, hE0]; rfl
  have count0 : aliveCount s1.players + s1.episodes.length = cp.length := by
    rw [hE1, hE0, hAC1, hCP]
    simp
  have last0 : ∀ r, s1.episodes.getLast? = some r →
      r.remaining_players = aliveNames s1.players := by
    rw [hE1, hE0]
    intro r hr
    cases hr
  have chain0 : List.Chain' (fun a b => ∀ n ∈ b.remaining_players,
      n ∈ a.remaining_players) s1.episodes := by
    rw [hE1, hE0]
    exact List.chain'_nil
  obtain ⟨lNames, lExit, _, _, _, _, lSum, lNn, lIdol, lInv, lEmpty, _, _,
    _, lCap⟩ := seasonLoop_ok hnd1 desc0 count0 last0 chain0 hloop
  dsimp only [] at lNames lExit lSum lNn lIdol lInv lEmpty lCap
  have hAvTot : s1.availableIdols = (config.getD defaultConfig).total_idols := by
    rw [hAv1, hAv0]
  have hEmpRec1 : ∀ r ∈ s1.episodes, r.advantages_found = [] ∧
      r.advantages_played = [] := by
    rw [hE1, hE0]
    intro r hr
    cases hr
  have hIdol1 : ∀ r ∈ s1.episodes, ∀ pr ∈ r.advantages_played,
      pr.advantage = "Idol" := by
    rw [hE1, hE0]
    intro r hr
    cases hr
  have hCap1 : ∀ r ∈ s1.episodes, r.advantages_found.length ≤ 2 := by
    rw [hE1, hE0]
    intro r hr
    cases hr
  have hInv1 : ∀ p ∈ s1.players, ∀ a ∈ p.advantages, AdvInv a := by
    intro p hp a ha
    rw [hAdv1 p hp] at ha
    cases ha
  have hSum1 : advSum s1.episodes = 0 := by
    rw [hE1, hE0]
    rfl
  simp only [finalFourStep] at hff
  have hFF : s3.episodes = s2.episodes ∨
      (∃ rf, s3.episodes = s2.episodes ++ [rf] ∧
        rf.advantages_found = [] ∧ rf.advantages_played = []) := by
    rcases ite_pym_ok_cond hff with ⟨h4, hf⟩ | ⟨h4, hf⟩
    · have hnd2 : (namesOf s2.players).Nodup := by
        rw [lNames]; exact hnd1
      obtain ⟨_, _, _, ⟨rf, fEps, _, ff, fp, _⟩, _, _⟩ :=
        simulateFinalFour_ok hnd2 hf
      exact Or.inr ⟨rf, fEps, ff, fp⟩
    · simp only [PyM.pure_apply] at hf
      cases hf
      exact Or.inl rfl
  have hFFav : s3.availableIdols = s2.availableIdols := by
    rcases ite_pym_ok_cond hff with ⟨h4, hf⟩ | ⟨h4, hf⟩
    · have hnd2 : (namesOf s2.players).Nodup := by
        rw [lNames]; exact hnd1
      obtain ⟨_, _, _, _, hA, _⟩ := simulateFinalFour_ok hnd2 hf
      exact hA
    · simp only [PyM.pure_apply] at hf
      cases hf
      rfl
  have hFFq : ∀ Q : List Advantage → Prop,
      (∀ p ∈ s2.players, Q p.advantages) → ∀ p ∈ s3.players, Q p.advantages := by
    rcases ite_pym_ok_cond hff with ⟨h4, hf⟩ | ⟨h4, hf⟩
    · have hnd2 : (namesOf s2.players).Nodup := by
        rw [lNames]; exact hnd1
      obtain ⟨_, _, _, _, _, hQ⟩ := simulateFinalFour_ok hnd2 hf
      exact hQ
    · simp only [PyM.pure_apply] at hf
      cases hf
      exact fun Q hq => hq
  have hSum2 : s2.availableIdols + (advSum s2.episodes : ℤ) =
      (config.getD defaultConfig).total_idols := by
    rw [lSum, hSum1, hAvTot]
    simp
  refine ⟨?_, ?_, ?_, ?_, ?_, ?_⟩
  · show s3.availableIdols + (advSum s3.episodes : ℤ) = _
    rcases hFF with hsame | ⟨rf, hsplit, hf0, _⟩
    · rw [hsame, hFFav]
      exact hSum2
    · rw [hsplit, advSum_append, hf0, hFFav]
      simpa using hSum2
  · intro h0
    show 0 ≤ s3.availableIdols
    rw [hFFav]
    exact lNn (by rw [hAvTot]; exact h0)
  · show ∀ r ∈ s3.episodes, _
    rcases hFF with hsame | ⟨rf, hsplit, hf0, _⟩
    · rw [hsame]
      exact lCap hCap1
    · rw [hsplit]
      intro r hr
      rcases List.mem_append.mp hr with hr | hr
      · exact lCap hCap1 r hr
      · rcases List.mem_singleton.mp hr with rfl
        rw [hf0]
        simp
  · show ∀ r ∈ s3.episodes, _
    rcases hFF with hsame | ⟨rf, hsplit, _, hp0⟩
    · rw [hsame]
      exact lIdol hIdol1
    · rw [hsplit]
      intro r hr
      rcases List.mem_append.mp hr with hr | hr
      · exact lIdol hIdol1 r hr
      · rcases List.mem_singleton.mp hr with rfl
        rw [hp0]
        intro pr hpr
        cases hpr
  · show ∀ p ∈ s3.players, _
    exact hFFq (fun advs => ∀ a ∈ advs, AdvInv a) (lInv hInv1)
  · intro hz
    have hz1 : s1.availableIdols ≤ 0 := by rw [hAvTot]; exact hz
    obtain ⟨lz, lp, lr⟩ := lEmpty hz1 (fun p hp => hAdv1 p hp) hEmpRec1
    constructor
    · show ∀ r ∈ s3.episodes, _
      rcases hFF with hsame | ⟨rf, hsplit, hf0, hp0⟩
      · rw [hsame]
        exact lr
      · rw [hsplit]
        intro r hr
        rcases List.mem_append.mp hr with hr | hr
        · exact lr r hr
        · rcases List.mem_singleton.mp hr with rfl
          exact ⟨hf0, hp0⟩
    · show ∀ p ∈ s3.players, _
      exact hFFq (· = []) lp


/-- The no-advantages property of a finished run (C7): every episode
record reports no found and no played advantages and no final player
holds one; an errored run satisfies it vacuously. -/
def IdolFreeRun {G : Type}
    (res : Except PyErr ((SeasonResult × SimState) × G)) : Prop :=
  match res with
  | .ok (out, _) =>
      (∀ r ∈ out.1.episodes, r.advantages_found = [] ∧
        r.advantages_played = []) ∧
      ∀ p ∈ out.2.players, p.advantages = []
  | .error _ => True

/-- **C7**: with `total_idols = 0`, no advantage is ever found in any
episode of a completed run (every record's `advantages_found` is empty),
`advantages_played` is empty in every record, and no player ever holds an
advantage. -/
theorem c7_no_idols_config {G : Type} (ops : RandOps G)
    (pd : List (String × Profile)) (cm : List (List ℚ)) (cp : List String)
    (seed : Option ℕ) (config : Option SimulationConfig) (g : G)
    (hsh : ∀ (l : List String) (gg : G), (ops.shuffleNames l gg).1.Perm l)
    (hnd : cp.Nodup)
    (hz : (config.getD defaultConfig).total_idols = 0) :
    IdolFreeRun (simulateFullSeason ops pd cm cp seed config g) := by
  cases hrun : simulateFullSeason ops pd cm cp seed config g with
  | error e => trivial
  | ok p =>
    obtain ⟨out, gZ⟩ := p
    show (∀ r ∈ out.1.episodes, r.advantages_found = [] ∧
        r.advantages_played = []) ∧
      ∀ p ∈ out.2.players, p.advantages = []
    obtain ⟨_, _, _, _, _, hEmpty⟩ := fullSeason_advantage_facts hsh hnd hrun
    exact hEmpty (le_of_eq hz)


/-- The only-idols-played property of a finished run (C10): every
`advantages_played` entry of every record names an `"Idol"`, and every
advantage held at the end of the run is untransferred and — unless it is
an idol — unplayed; an errored run satisfies it vacuously. -/
def OnlyIdolsPlayed {G : Type}
    (res : Except PyErr ((SeasonResult × SimState) × G)) : Prop :=
  match res with
  | .ok (out, _) =>
      (∀ r ∈ out.1.episodes, ∀ pr ∈ r.advantages_played,
        pr.advantage = "Idol") ∧
      ∀ p ∈ out.2.players, ∀ a ∈ p.advantages,
        a.transferred = false ∧
        (a.type ≠ AdvantageType.IDOL → a.played = false)
  | .error _ => True

/-- **C10**: in every completed run only idols are ever played — every
`advantages_played` entry of every episode record names an `"Idol"` — and
every advantage still held at the end of the run is untransferred and,
unless it is an idol, unplayed. -/
theorem c10_only_idols_played {G : Type} (ops : RandOps G)
    (pd : List (String × Profile)) (cm : List (List ℚ)) (cp : List String)
    (seed : Option ℕ) (config : Option SimulationConfig) (g : G)
    (hsh : ∀ (l : List String) (gg : G), (ops.shuffleNames l gg).1.Perm l)
    (hnd : cp.Nodup) :
    OnlyIdolsPlayed (simulateFullSeason ops pd cm cp seed config g) := by
  cases hrun : simulateFullSeason ops pd cm cp seed config g with
  | error e => trivial
  | ok p =>
    obtain ⟨out, gZ⟩ := p
    show (∀ r ∈ out.1.episodes, ∀ pr ∈ r.advantages_played,
        pr.advantage = "Idol") ∧
      ∀ p ∈ out.2.players, ∀ a ∈ p.advantages,
        a.transferred = false ∧
        (a.type ≠ AdvantageType.IDOL → a.played = false)
    obtain ⟨_, _, _, hIdol, hInv, _⟩ := fullSeason_advantage_facts hsh hnd hrun
    exact ⟨hIdol, hInv⟩

/-! ## Concrete runs used by the witnesses -/

deriving instance DecidableEq for Except

/-- A deterministic demonstration generator over `ℕ` states: every draw is
a fixed simple function of the bounds, and each draw bumps the state. -/
def demoOps : RandOps ℕ where
  uniform a b g := ((a + b) / 2, g + 1)
  rand g := (9/10, g + 1)
  randint a _ g := (a, g + 1)
  pickIdx _ g := (0, g + 1)
  weightedIdx _ g := (0, g + 1)
  shuffleNames l g := (l, g)
  shufflePlayers l g := (l, g)
  seedGen n := n
  stateWord g := g

def demoProfile : Profile := { challenge_win_prob := some (1/2) }

def fourNames : List String := ["Ava", "Ben", "Cal", "Dee"]

def fourProfilesData : List (String × Profile) :=
  fourNames.map (fun n => (n, demoProfile))

def fourCompat : List (List ℚ) :=
  List.replicate 4 (List.replicate 4 (1/2))

/-- A config that only changes the idol pool to zero. -/
def zeroIdolConfig : SimulationConfig :=
  { defaultConfig with total_idols := 0 }

/-- A config with an out-of-range chaos factor. -/
def badChaosConfig : SimulationConfig :=
  { defaultConfig with chaos_factor := 2 }

/-- Witness for C3: the hypotheses of the elimination-invariant theorem
hold for a concrete seeded 4-player run, which completes successfully. -/
theorem c3_one_elimination_per_round_witness :
    (simulateFullSeason demoOps fourProfilesData fourCompat fourNames
      (some 1) none 0).isOk = true ∧
    ElimInvariant fourNames.length
      (simulateFullSeason demoOps fourProfilesData fourCompat fourNames
        (some 1) none 0) :=
  ⟨by with_unfolding_all decide,
   c3_one_elimination_per_round demoOps fourProfilesData fourCompat
     fourNames (some 1) none 0 (fun l gg => List.Perm.refl l)
     (by with_unfolding_all decide)⟩

/-- Witness for C7: a concrete seeded 4-player run with `total_idols = 0`
completes, and the theorem applies to it. -/
theorem c7_no_idols_config_witness :
    (simulateFullSeason demoOps fourProfilesData fourCompat fourNames
      (some 1) (some zeroIdolConfig) 0).isOk = true ∧
    IdolFreeRun
      (simulateFullSeason demoOps fourProfilesData fourCompat fourNames
        (some 1) (some zeroIdolConfig) 0) :=
  ⟨by with_unfolding_all decide,
   c7_no_idols_config demoOps fourProfilesData fourCompat fourNames
     (some 1) (some zeroIdolConfig) 0 (fun l gg => List.Perm.refl l)
     (by with_unfolding_all decide) (by with_unfolding_all decide)⟩

/-- Witness for C10: the only-idols-played theorem applies to a concrete
seeded 4-player run, which completes successfully. -/
theorem c10_only_idols_played_witness :
    (simulateFullSeason demoOps fourProfilesData fourCompat fourNames
      (some 2) none 0).isOk = true ∧
    OnlyIdolsPlayed
      (simulateFullSeason demoOps fourProfilesData fourCompat fourNames
        (some 2) none 0) :=
  ⟨by with_unfolding_all decide,
   c10_only_idols_played demoOps fourProfilesData fourCompat fourNames
     (some 2) none 0 (fun l gg => List.Perm.refl l)
     (by with_unfolding_all decide)⟩

/-- Witness for C8: a concrete invalid configuration (chaos factor 2) is
rejected with a `ValueError`, and the default configuration validates. -/
theorem c8_validate_exact_witness :
    ¬ ConfigValid badChaosConfig ∧
    (∃ msg, SimulationConfig.validate badChaosConfig =
      .error (.valueError msg)) ∧
    SimulationConfig.validate defaultConfig = .ok true :=
  ⟨by with_unfolding_all decide,
   ((c8_validate_exact badChaosConfig).2 (by with_unfolding_all decide)).1,
   (c8_validate_exact defaultConfig).1.mpr (by with_unfolding_all decide)⟩

/-- The idol-pool invariant of a finished run (the amended C6): every
episode finds at most 2 advantages, the remaining pool plus everything
found equals the configured total, and (for a non-negative configured
total) the advantages in circulation never exceed the pool size. -/
def IdolPoolInvariant {G : Type} (total : ℤ)
    (res : Except PyErr ((SeasonResult × SimState) × G)) : Prop :=
  match res with
  | .ok (out, _) =>
      (∀ r ∈ out.1.episodes, r.advantages_found.length ≤ 2) ∧
      out.2.availableIdols + (advSum out.1.episodes : ℤ) = total ∧
      (0 ≤ total → (advSum out.1.episodes : ℤ) ≤ total)
  | .error _ => True

/-- **C6** (amended): per-episode discovery is capped at 2, each success
decrements the shared pool, and advantages in circulation never exceed
`total_idols`.  (The searcher iteration order is the roster order of
`self.players`, not a profile-determined priority order — see the
counterexample.) -/
theorem c6_amended_idol_pool {G : Type} (ops : RandOps G)
    (pd : List (String × Profile)) (cm : List (List ℚ)) (cp : List String)
    (seed : Option ℕ) (config : Option SimulationConfig) (g : G)
    (hsh : ∀ (l : List String) (gg : G), (ops.shuffleNames l gg).1.Perm l)
    (hnd : cp.Nodup) :
    IdolPoolInvariant ((config.getD defaultConfig).total_idols)
      (simulateFullSeason ops pd cm cp seed config g) := by
  cases hrun : simulateFullSeason ops pd cm cp seed config g with
  | error e => trivial
  | ok p =>
    obtain ⟨out, gZ⟩ := p
    show (∀ r ∈ out.1.episodes, r.advantages_found.length ≤ 2) ∧
      out.2.availableIdols + (advSum out.1.episodes : ℤ) =
        (config.getD defaultConfig).total_idols ∧
      (0 ≤ (config.getD defaultConfig).total_idols →
        (advSum out.1.episodes : ℤ) ≤
          (config.getD defaultConfig).total_idols)
    obtain ⟨hSum, hNn, hCap, _, _, _⟩ :=
      fullSeason_advantage_facts hsh hnd hrun
    exact ⟨hCap, hSum, fun h0 => by have := hNn h0; omega⟩

/-- A strategist profile (eligible to search via `score_outwit > 0.6`). -/
def strategistProfile : Profile := { score_outwit := some (7/10) }

/-- A dedicated idol-hunter profile. -/
def hunterProfile : Profile := { archetypes := ["Idol Hunter"] }

def sAva : Player :=
  { name := "Ava", profile := strategistProfile, tribe := "Tribe A" }

def hBen : Player :=
  { name := "Ben", profile := hunterProfile, tribe := "Tribe A" }

/-- Generator like `demoOps` but whose `random()` rolls always succeed
(the search check passes for every candidate). -/
def keenOps : RandOps ℕ :=
  { demoOps with rand := fun g => (0, g + 1) }

def searchCtx : SimCtx :=
  { playerProfiles := [("Ava", strategistProfile), ("Ben", hunterProfile)],
    compat := [[1, 1], [1, 1]],
    playerNames := ["Ava", "Ben"],
    cfg := defaultConfig }

/-- One idol left, roster `[Ava, Ben]`. -/
def searchStateA : SimState :=
  { players := [sAva, hBen], tribes := [], alliances := [],
    availableIdols := 1, episodes := [], currentDay := 1, merged := false,
    numTribeSwaps := 0, swapsCompleted := 0, swapTimings := [] }

/-- The same state with the roster reversed. -/
def searchStateB : SimState :=
  { searchStateA with players := [hBen, sAva] }

/-- Counterexample to C6's iteration-order clause: with one idol left and
the same generator state, the player who finds it is whichever candidate
comes first in `self.players` roster order — the strategist beats the
dedicated Idol Hunter when listed first and loses when listed second, so
the search order is positional, not profile-determined. -/
theorem c6_counterexample_roster_order :
    searchStateB.players.Perm searchStateA.players ∧
    Except.map (fun x => x.1.1.map (·.player))
      (idolSearchPhase keenOps searchCtx searchStateA 0) = .ok ["Ava"] ∧
    Except.map (fun x => x.1.1.map (·.player))
      (idolSearchPhase keenOps searchCtx searchStateB 0) = .ok ["Ben"] := by
  refine ⟨?_, ?_, ?_⟩ <;> with_unfolding_all decide

/-- Witness for the amended C6: the pool invariant holds on a concrete
completed 4-player run. -/
theorem c6_amended_idol_pool_witness :
    (simulateFullSeason demoOps fourProfilesData fourCompat fourNames
      (some 3) none 0).isOk = true ∧
    IdolPoolInvariant ((none.getD defaultConfig).total_idols)
      (simulateFullSeason demoOps fourProfilesData fourCompat fourNames
        (some 3) none 0) :=
  ⟨by with_unfolding_all decide,
   c6_amended_idol_pool demoOps fourProfilesData fourCompat fourNames
     (some 3) none 0 (fun l gg => List.Perm.refl l)
     (by with_unfolding_all decide)⟩

/-- Voter/target eligibility of one tribal council (C1), on the immune
flags as set by the immunity phase: pre-merge (more than one immune flag —
the alive members of the non-losing tribes), voters and tally keys are
restricted to non-immune alive players; post-merge every alive player in
a voting alliance casts a vote; immune players never appear among vote
targets or tally keys.  An errored council satisfies it vacuously. -/
def TCEligibility {G : Type} (players : List Player)
    (alliances : List (String × List String))
    (res : Except PyErr ((TCResult × List Player) × G)) : Prop :=
  match res with
  | .ok ((tcr, _), _) =>
      (∀ k ∈ keysOf tcr.vote_counts,
        k ∈ namesOf ((players.filter (·.alive)).filter
          (fun p => !p.immune))) ∧
      (∀ kv ∈ tcr.votes,
        kv.2 ∈ namesOf ((players.filter (·.alive)).filter
          (fun p => !p.immune))) ∧
      (1 < ((players.filter (·.alive)).filter (·.immune)).length →
        ∀ kv ∈ tcr.votes,
          kv.1 ∈ namesOf ((players.filter (·.alive)).filter
            (fun p => !p.immune))) ∧
      (¬1 < ((players.filter (·.alive)).filter (·.immune)).length →
        (players.filter (·.alive)).filter (fun p => !p.immune) ≠ [] →
        (∀ p ∈ players, ¬p.name = "") →
        ∀ v ∈ players, v.alive = true →
          (∃ a ∈ alliances, v.name ∈ a.2) → v.name ∈ keysOf tcr.votes)
  | .error _ => True

/-- **C1**: in every tribal council, immune players never appear among the
vote targets or the tally keys; pre-merge (a whole tribe immune, i.e. more
than one immune flag) only non-immune alive players cast votes; post-merge
every alive alliance member — including the individual immunity holder —
casts a vote. -/
theorem c1_voting_eligibility {G : Type} (ops : RandOps G)
    (players : List Player) (alliances : List (String × List String))
    (pn : List String) (compat : List (List ℚ)) (cw sw socw loy r : ℚ)
    (g : G) :
    TCEligibility players alliances
      (simulateTribalCouncil ops players alliances pn compat cw sw socw
        loy r g) := by
  cases hrun : simulateTribalCouncil ops players alliances pn compat cw sw
      socw loy r g with
  | error e => trivial
  | ok p =>
    obtain ⟨⟨tcr, players'⟩, g'⟩ := p
    show (∀ k ∈ keysOf tcr.vote_counts,
        k ∈ namesOf ((players.filter (·.alive)).filter
          (fun p => !p.immune))) ∧ _
    obtain ⟨_, _, hKeys, hTgt, hPre, hPost, _, _, _⟩ :=
      simulateTribalCouncil_ok hrun
    exact ⟨hKeys, hTgt, hPre, hPost⟩

theorem contains_of_mem_keysOf {κ β : Type} [DecidableEq κ]
    {d : List (κ × β)} {k : κ} (h : k ∈ keysOf d) :
    dictContains d k = true := by
  simp only [keysOf, List.mem_map] at h
  obtain ⟨kv, hkv, hk⟩ := h
  simp only [dictContains, List.find?_isSome]
  exact ⟨kv, hkv, by simp [hk]⟩

theorem keysOf_dictSet_eq_of_mem {κ β : Type} [DecidableEq κ]
    {d : List (κ × β)} {k : κ} {v : β} (h : k ∈ keysOf d) :
    keysOf (dictSet d k v) = keysOf d := by
  simp only [dictSet, if_pos (contains_of_mem_keysOf h), keysOf,
    List.map_map]
  refine List.map_congr_left ?_
  intro kv _
  simp only [Function.comp]
  split_ifs with hkv
  · simp [hkv]
  · rfl

theorem keysOf_eq_nil_iff {κ β : Type} {d : List (κ × β)} :
    keysOf d = [] ↔ d = [] := by
  cases d <;> simp [keysOf]

/-- The resolution rule actually implemented (the amended C2): the idol
phase never removes the zeroed tally key, so with a nonempty tally the
removed agent is always the first maximal key of the post-idol tally —
even when every count is zero — and the uniform fallback over eligible
targets happens only when the tally dict is empty. -/
theorem c2_amended_resolution {G : Type} {ops : RandOps G}
    {players : List Player} {ac : ℕ} {votes : List (String × String)}
    {voteCounts : List (String × ℕ)} {eT : List Player} {g g' : G}
    {res : List PlayedRec × List Player × List (String × ℕ) × String}
    (h : tribalResolve ops players ac votes voteCounts eT g =
      .ok (res, g')) :
    keysOf res.2.2.1 = keysOf voteCounts ∧
    (voteCounts ≠ [] →
      maxKeyFirst res.2.2.1 = some res.2.2.2 ∧
      res.2.2.2 ∈ keysOf voteCounts) ∧
    (voteCounts = [] → res.2.2.1 = [] ∧ res.2.2.2 ∈ namesOf eT) := by
  simp only [tribalResolve] at h
  rw [PyM.bind_ok_iff] at h
  obtain ⟨step, g₁, hstep, hfin⟩ := h
  obtain ⟨_, hcounts, _, _, _⟩ := idolStep_ok hstep
  have hkeysEq : keysOf step.2.2 = keysOf voteCounts := by
    rcases hcounts with hc | ⟨top, htop, hc⟩
    · rw [hc]
    · rw [hc]
      exact keysOf_dictSet_eq_of_mem htop
  cases hm2 : maxKeyFirst step.2.2 with
  | some elim =>
    rw [hm2] at hfin
    dsimp only [] at hfin
    simp only [PyM.pure_apply] at hfin
    cases hfin
    refine ⟨hkeysEq, ?_, ?_⟩
    · intro _
      refine ⟨hm2, ?_⟩
      rw [← hkeysEq]
      exact maxKeyFirst_mem hm2
    · intro hnil
      exfalso
      rw [hnil] at hkeysEq
      simp only [keysOf] at hkeysEq
      have : step.2.2 = [] := by
        rw [← keysOf_eq_nil_iff]
        simpa [keysOf] using hkeysEq
      rw [this] at hm2
      cases hm2
  | none =>
    rw [hm2] at hfin
    dsimp only [] at hfin
    rw [PyM.bind_ok_iff] at hfin
    obtain ⟨t, g₂, hpick, hfin⟩ := hfin
    simp only [PyM.pure_apply] at hfin
    cases hfin
    have hstepNil : step.2.2 = [] := by
      by_contra hne
      obtain ⟨k, hk⟩ := maxKeyFirst_ne_nil hne
      rw [hm2] at hk
      cases hk
    refine ⟨hkeysEq, ?_, ?_⟩
    · intro hne
      exfalso
      rw [hstepNil] at hkeysEq
      have : voteCounts = [] := by
        rw [← keysOf_eq_nil_iff]
        exact hkeysEq.symm
      exact hne this
    · intro _
      exact ⟨hstepNil, mem_namesOf (pyChoice_ok_mem hpick)⟩

/-- The resolution the spec describes for C2: after the idol phase, if
every tally is zero the removed agent is drawn uniformly from the
eligible targets; otherwise it is the maximal-tally candidate. -/
def specResolveAfterIdol {G : Type} (ops : RandOps G)
    (eligibleTargets : List Player) (tally : List (String × ℕ)) :
    PyM G String :=
  if tally.all (fun kv => kv.2 = 0) then do
    let t ← pyChoice ops eligibleTargets
    pure t.name
  else
    match maxKeyFirst tally with
    | some k => pure k
    | none => do
      let t ← pyChoice ops eligibleTargets
      pure t.name

def avaP : Player :=
  { name := "Ava",
    profile := { challenge_win_prob := some (1/2) },
    tribe := "Merged",
    advantages := [{ type := .IDOL, owner := "Ava" }] }

def benP : Player :=
  { name := "Ben",
    profile := { challenge_win_prob := some (1/2) },
    tribe := "Merged" }

def calP : Player :=
  { name := "Cal",
    profile := { challenge_win_prob := some (1/2) },
    tribe := "Merged" }

def cNames : List String := ["Ava", "Ben", "Cal"]
def cCompat : List (List ℚ) := List.replicate 3 (List.replicate 3 (1/2))
def cAlliances : List (String × List String) := [("alliance_0", cNames)]

/-- Generator like `demoOps` but whose `random.choice` picks index 1, so
a uniform fallback would name the second eligible target. -/
def cexOps : RandOps ℕ := { demoOps with pickIdx := fun _ g => (1, g + 1) }

/-- Counterexample to C2: in this 3-player merged council every vote lands
on Ava, who plays her idol; all tallies are then zero, yet the code still
eliminates Ava (the zeroed key stays in the tally and wins `max`), while
the uniform fallback the spec describes would eliminate Ben at every
generator state. -/
theorem c2_counterexample_zeroed_tally :
    Except.map (fun x => (x.1.1.vote_counts, x.1.1.eliminated,
        x.1.1.advantages_played.map (·.player)))
      (simulateTribalCouncil cexOps [avaP, benP, calP] cAlliances cNames
        cCompat 16 16 12 35 (1/2) 0) =
      .ok ([("Ava", 0)], "Ava", ["Ava"]) ∧
    (∀ g : ℕ, Except.map (fun x => x.1)
      (specResolveAfterIdol cexOps
        ([avaP, benP, calP].filter (·.alive)) [("Ava", 0)] g) =
      .ok "Ben") ∧
    ("Ava" : String) ≠ "Ben" := by
  refine ⟨by with_unfolding_all decide, ?_, by decide⟩
  intro g
  rfl

set_option synthInstance.maxSize 512 in
/-- Witness for the amended C2: the amended resolution theorem applied to
the concrete council of the counterexample — the tally keys survive the
idol zeroing and Ava, the first maximal key of the all-zero tally, is
removed without any uniform draw. -/
theorem c2_amended_resolution_witness :
    keysOf [("Ava", 0)] = keysOf [("Ava", 3)] ∧
    ([("Ava", 3)] : List (String × ℕ)) ≠ [] ∧
    maxKeyFirst [("Ava", (0 : ℕ))] = some "Ava" ∧
    "Ava" ∈ keysOf [("Ava", (3 : ℕ))] := by
  have h : tribalResolve cexOps [avaP, benP, calP] 3
      [("Ava", "Ava"), ("Ben", "Ava"), ("Cal", "Ava")] [("Ava", 3)]
      ([avaP, benP, calP].filter (fun p => !p.immune)) 9 =
      .ok (([{ player := "Ava", advantage := "Idol", onTarget := "Ava" }],
        [{ avaP with advantages :=
            [{ type := .IDOL, owner := "Ava", played := true }] },
          benP, calP], [("Ava", 0)], "Ava"), 11) := by
    with_unfolding_all decide
  obtain ⟨hk, hne, _⟩ := c2_amended_resolution h
  obtain ⟨hmax, hmem⟩ := hne (by decide)
  exact ⟨hk, by decide, hmax, hmem⟩

def zProfile : Profile := { challenge_win_prob := some 0 }
def zAva : Player := { name := "Ava", profile := zProfile, tribe := "Merged" }
def zBen : Player := { name := "Ben", profile := zProfile, tribe := "Merged" }
def zCal : Player := { name := "Cal", profile := zProfile, tribe := "Merged" }
def zDee : Player := { name := "Dee", profile := zProfile, tribe := "Merged" }

def zCtx : SimCtx :=
  { playerProfiles := [("Ava", zProfile), ("Ben", zProfile),
      ("Cal", zProfile), ("Dee", zProfile)],
    compat := List.replicate 4 (List.replicate 4 (1/2)),
    playerNames := ["Ava", "Ben", "Cal", "Dee"],
    cfg := defaultConfig }

/-- Four alive zero-skill players at the final four. -/
def zState : SimState :=
  { players := [zAva, zBen, zCal, zDee], tribes := [], alliances := [],
    availableIdols := 8, episodes := [], currentDay := 22, merged := true,
    numTribeSwaps := 0, swapsCompleted := 0, swapTimings := [] }

/-- Counterexample to C5's fire-making clause: with four zero-skill
players the final-four immunity challenge falls back to a uniform pick
(its total is zero but it is guarded), yet the fire-making duel's
probability normalization has no such guard and the whole round raises
`ZeroDivisionError`. -/
theorem c5_counterexample_fire_zero_division :
    simulateFinalFour demoOps zCtx 9 zState 0 = .error .zeroDivision ∧
    Except.map (fun x => x.1)
      (simulateIndividualImmunity demoOps
        (zState.players.filter (·.alive)) defaultConfig.chaos_factor none
        (some defaultConfig.challenge_distribution) 0) ≠
      .error .zeroDivision := by
  refine ⟨?_, ?_⟩ <;> with_unfolding_all decide

/-- **C5** (amended): a zero strength total is guarded with a uniform
fallback in the individual and tribal immunity challenges, but the
fire-making normalization (`normalizeStrict`, used only by
`simulate_final_four`) raises `ZeroDivisionError` on a nonempty all-zero
vector. -/
theorem c5_amended_zero_guard {G : Type} (ops : RandOps G) :
    (∀ (l : List ℚ), l ≠ [] → l.sum = 0 →
      normalizeStrict l = .error .zeroDivision) ∧
    (∀ (p0 : Player) (ps : List Player) (r : ℚ) (cat : String)
      (dist : Option (List (String × ℚ))) (g g₁ : G) (probs : List ℚ),
      individualProbs ops r cat (p0 :: ps) g = .ok (probs, g₁) →
      probs.sum = 0 →
      ∃ w g₂, w ∈ p0 :: ps ∧
        simulateIndividualImmunity ops (p0 :: ps) r (some cat) dist g =
          .ok (some w.name, g₂)) ∧
    (∀ (t0 : List Player) (ts : List (List Player)) (r : ℚ) (cat : String)
      (dist : Option (List (String × ℚ))) (g g₁ g₂ : G)
      (strengths : List ℚ) (t : List Player) (p0 : Player) (t1 : List Player),
      tribalStrengths ops r cat (t0 :: ts) g = .ok (strengths, g₁) →
      strengths.sum = 0 →
      pyChoice ops (t0 :: ts) g₁ = .ok (t, g₂) →
      t = p0 :: t1 →
      simulateTribalImmunity ops t0 ts r (some cat) dist g =
        .ok (p0.tribe, g₂)) := by
  refine ⟨?_, ?_, ?_⟩
  · intro l hne hz
    cases l with
    | nil => exact absurd rfl hne
    | cons a rest =>
      simp only [normalizeStrict, if_pos hz]
  · intro p0 ps r cat dist g g₁ probs hp hz
    cases hpick : pyChoice ops (p0 :: ps) g₁ with
    | error e =>
      exfalso
      simp only [pyChoice] at hpick
      cases hpick
    | ok pr =>
      obtain ⟨w, g₂⟩ := pr
      refine ⟨w, g₂, pyChoice_ok_mem hpick, ?_⟩
      show ((match (some cat : Option String) with
        | some c => pure c
        | none => selectChallengeCategory ops dist) >>= fun c => _) g = _
      rw [PyM.bind_apply]
      simp only [PyM.pure_apply]
      show (individualProbs ops r cat (p0 :: ps) >>= fun probs => _) g = _
      rw [PyM.bind_apply, hp]
      dsimp only []
      rw [if_pos hz]
      show (pyChoice ops (p0 :: ps) >>= fun w => _) g₁ = _
      rw [PyM.bind_apply, hpick]
      rfl
  · intro t0 ts r cat dist g g₁ g₂ strengths t p0 t1 hs hz hpick ht
    show ((match (some cat : Option String) with
      | some c => pure c
      | none => selectChallengeCategory ops dist) >>= fun c => _) g = _
    rw [PyM.bind_apply]
    simp only [PyM.pure_apply]
    show (tribalStrengths ops r cat (t0 :: ts) >>= fun strengths => _) g = _
    rw [PyM.bind_apply, hs]
    dsimp only []
    rw [if_pos hz]
    show (pyChoice ops (t0 :: ts) >>= fun t => _) g₁ = _
    rw [PyM.bind_apply, hpick]
    show (liftE (pyHead t) >>= fun pp => _) g₂ = _
    rw [PyM.bind_apply]
    rw [ht]
    rfl

/-- Witness for the amended C5: on two zero-skill players the individual
immunity succeeds by the uniform fallback, a zero-strength 2-tribe
challenge succeeds likewise, and the fire normalization of an all-zero
vector raises. -/
theorem c5_amended_zero_guard_witness :
    (([0, 0] : List ℚ) ≠ [] ∧ ([0, 0] : List ℚ).sum = 0 ∧
      normalizeStrict [0, 0] = .error .zeroDivision) ∧
    (∃ w g₂, w ∈ [zAva, zBen] ∧
      simulateIndividualImmunity demoOps [zAva, zBen] (1/2)
        (some "physical") none 0 = .ok (some w.name, g₂)) ∧
    simulateTribalImmunity demoOps [zAva] [[zBen]] (1/2)
      (some "physical") none 0 = .ok (zAva.tribe, 5) := by
  have hmain := c5_amended_zero_guard demoOps
  refine ⟨⟨by decide, by with_unfolding_all decide,
    hmain.1 [0, 0] (by decide) (by with_unfolding_all decide)⟩, ?_, ?_⟩
  · exact hmain.2.1 zAva [zBen] (1/2) "physical" none 0 4 [0, 0]
      (by with_unfolding_all decide) (by with_unfolding_all decide)
  · exact hmain.2.2 [zAva] [[zBen]] (1/2) "physical" none 0 4 5 [0, 0]
      [zAva] zAva [] (by with_unfolding_all decide)
      (by with_unfolding_all decide) (by with_unfolding_all decide) rfl

/-- The candidate with a given challenge ability, all other profile fields
unchanged. -/
def withChallenge (p : Player) (c : ℚ) : Player :=
  { p with profile := { p.profile with challenge_win_prob := some c } }

/-- The post-merge composite-threat adjustment as a function of the
composite threat. -/
def threatAdj (x : ℚ) : ℚ :=
  if 0.65 < x then 0 + (x - 0.65) * 8
  else if x < 0.35 then 0 - (0.35 - x) * 4
  else 0

theorem threatAdj_bounds {x₁ x₂ : ℚ} (h : x₁ ≤ x₂) :
    0 ≤ threatAdj x₂ - threatAdj x₁ ∧
    threatAdj x₂ - threatAdj x₁ ≤ 8 * (x₂ - x₁) := by
  unfold threatAdj
  split_ifs <;> constructor <;> linarith

/-- Closed form of the pre-merge candidate score as a function of the
challenge ability: the ability enters only through the subtracted
`challenge_threat * challenge_threat_weight` term. -/
theorem scoreTargetVal_true_char (p : Player) (cw sw socw randomness : ℚ)
    (inA : Bool) (loy : Option ℚ) (tc noise : ℚ) (wild : Option ℚ)
    (c : ℚ) :
    scoreTargetVal true cw sw socw randomness inA loy tc noise wild
      (withChallenge p c) =
    (if (p.profile.is_winner).getD false = true ∨
        0 < (p.profile.wins).getD 0 then (25 : ℚ) else 0) -
    (if inA then loy.getD 0 + (p.profile.voting_accuracy).getD 0.5 * 15
      else 0) -
    c * cw + (p.profile.score_outwit).getD 0.5 * sw +
    ((p.profile.score_jury).getD 0.5 * 0.10 +
      (p.profile.score_vote).getD 0.5 * 0.30 +
      (p.profile.score_inf).getD 0.5 * 0.40 + tc * 0.20) * socw +
    noise * randomness +
    (match wild with | some s => s | none => 0) := by
  cases wild <;>
    (simp only [scoreTargetVal, withChallenge, Option.getD_some,
       Bool.false_eq_true, if_false, eq_self_iff_true, if_true]
     split_ifs <;> first | ring | simp_all)

set_option maxHeartbeats 2000000 in
/-- Closed form of the post-merge candidate score as a function of the
challenge ability: the ability enters through the added
`challenge_threat * challenge_threat_weight` term and through the
composite-threat adjustment. -/
theorem scoreTargetVal_false_char (p : Player) (cw sw socw randomness : ℚ)
    (inA : Bool) (loy : Option ℚ) (tc noise : ℚ) (wild : Option ℚ)
    (c : ℚ) :
    scoreTargetVal false cw sw socw randomness inA loy tc noise wild
      (withChallenge p c) =
    threatAdj (c * 0.25 + (p.profile.score_outwit).getD 0.5 * 0.30 +
      (p.profile.score_jury).getD 0.5 * 0.25 +
      (p.profile.score_inf).getD 0.5 * 0.20) +
    (if (p.profile.is_winner).getD false = true ∨
        0 < (p.profile.wins).getD 0 then (25 : ℚ) else 0) -
    (if inA then loy.getD 0 + (p.profile.voting_accuracy).getD 0.5 * 15
      else 0) +
    c * cw + (p.profile.score_outwit).getD 0.5 * sw +
    ((p.profile.score_jury).getD 0.5 * 0.10 +
      (p.profile.score_vote).getD 0.5 * 0.30 +
      (p.profile.score_inf).getD 0.5 * 0.40 + tc * 0.20) * socw +
    noise * randomness +
    (match wild with | some s => s | none => 0) := by
  cases wild <;>
    (simp only [scoreTargetVal, withChallenge, threatAdj, Option.getD_some,
       Bool.false_eq_true, if_false, eq_self_iff_true, if_true]
     split_ifs <;> first | ring | simp_all)

set_option maxHeartbeats 1000000 in
/-- **C9**: with every other input and draw held fixed, the
challenge-ability term of the vote-candidate score flips sign with the
phase: pre-merge the score decreases in challenge ability by exactly the
configured weight per unit; post-merge it increases, by at least that
same weight per unit (and at most weight + 2, the extra coming from the
monotone composite-threat adjustment). -/
theorem c9_challenge_sign_flip (p : Player) (cw sw socw randomness : ℚ)
    (inA : Bool) (loy : Option ℚ) (tc noise : ℚ) (wild : Option ℚ)
    (c₁ c₂ : ℚ) (hc : c₁ ≤ c₂) :
    scoreTargetVal true cw sw socw randomness inA loy tc noise wild
        (withChallenge p c₁) -
      scoreTargetVal true cw sw socw randomness inA loy tc noise wild
        (withChallenge p c₂) = cw * (c₂ - c₁) ∧
    cw * (c₂ - c₁) ≤
      scoreTargetVal false cw sw socw randomness inA loy tc noise wild
          (withChallenge p c₂) -
        scoreTargetVal false cw sw socw randomness inA loy tc noise wild
          (withChallenge p c₁) ∧
    scoreTargetVal false cw sw socw randomness inA loy tc noise wild
        (withChallenge p c₂) -
      scoreTargetVal false cw sw socw randomness inA loy tc noise wild
        (withChallenge p c₁) ≤ (cw + 2) * (c₂ - c₁) := by
  rw [scoreTargetVal_true_char p cw sw socw randomness inA loy tc noise
      wild c₁,
    scoreTargetVal_true_char p cw sw socw randomness inA loy tc noise
      wild c₂,
    scoreTargetVal_false_char p cw sw socw randomness inA loy tc noise
      wild c₁,
    scoreTargetVal_false_char p cw sw socw randomness inA loy tc noise
      wild c₂]
  have hx : c₁ * 0.25 + (p.profile.score_outwit).getD 0.5 * 0.30 +
      (p.profile.score_jury).getD 0.5 * 0.25 +
      (p.profile.score_inf).getD 0.5 * 0.20 ≤
      c₂ * 0.25 + (p.profile.score_outwit).getD 0.5 * 0.30 +
      (p.profile.score_jury).getD 0.5 * 0.25 +
      (p.profile.score_inf).getD 0.5 * 0.20 := by linarith
  obtain ⟨hlo, hhi⟩ := threatAdj_bounds hx
  refine ⟨by ring, by linarith, by linarith⟩

/-- Witness for C9: concrete numbers — pre-merge the score drops by
exactly the weight, post-merge it rises within the stated band. -/
theorem c9_challenge_sign_flip_witness :
    ((0 : ℚ) ≤ 1) ∧
    (scoreTargetVal true 16 16 12 (1/2) false none (1/2) 0 none
        (withChallenge benP 0) -
      scoreTargetVal true 16 16 12 (1/2) false none (1/2) 0 none
        (withChallenge benP 1) = 16 * (1 - 0) ∧
    16 * ((1 : ℚ) - 0) ≤
      scoreTargetVal false 16 16 12 (1/2) false none (1/2) 0 none
          (withChallenge benP 1) -
        scoreTargetVal false 16 16 12 (1/2) false none (1/2) 0 none
          (withChallenge benP 0) ∧
    scoreTargetVal false 16 16 12 (1/2) false none (1/2) 0 none
        (withChallenge benP 1) -
      scoreTargetVal false 16 16 12 (1/2) false none (1/2) 0 none
        (withChallenge benP 0) ≤ (16 + 2) * (1 - 0)) :=
  ⟨by norm_num,
   c9_challenge_sign_flip benP 16 16 12 (1/2) false none (1/2) 0 none 0 1
     (by norm_num)⟩
